import Mathlib

set_option maxRecDepth 8000

/-!
Shallow embedding of the Inferno initial-mount engine
(`src/packages/inferno/src/DOM/mounting.ts`) and of the recycling pool
(`src/packages/inferno/src/DOM/recycling.ts`).

DOM mutation, the lifecycle queue, IV mutation and the calls to the opaque
collaborators (`patchProp`, `processElement`, `insertOrAppend`, ...) are
modelled by explicit state passing over `MState`.  The recursion of `mount`
is fueled (out of fuel yields the distinguished error `MErr.outOfFuel`), so
the whole interpreter is structurally recursive and computable.
-/

namespace Inferno

/-!
Modelled from the spec: the bit layout of `inferno-vnode-flags`
(the package is not under `src/`; the spec only requires that the primary
kinds Element / ComponentClass / ComponentFunction / Portal and the
secondary bits SvgElement / FormElement are distinguishable bits).  The
values below are the published layout of the package.
-/

namespace VNodeFlags

def Text : Nat := 1
def HtmlElement : Nat := 2
def ComponentClass : Nat := 4
def ComponentFunction : Nat := 8
def ComponentUnknown : Nat := 16
def SvgElement : Nat := 128
def MediaElement : Nat := 256
def InputElement : Nat := 512
def TextareaElement : Nat := 1024
def SelectElement : Nat := 2048
def Void : Nat := 4096
def Portal : Nat := 8192
def FormElement : Nat := InputElement ||| TextareaElement ||| SelectElement
def Element : Nat := HtmlElement ||| SvgElement ||| MediaElement ||| FormElement
def Component : Nat := ComponentFunction ||| ComponentClass ||| ComponentUnknown

end VNodeFlags

/-!
Modelled from the spec: the IV shape flags from `core/implementation`
(not under `src/`); the spec requires five mutually exclusive shape
descriptors, and `mountArrayChildren` tests
`iv.f & (HasKeyedChildren | HasNonKeydChildren)`, so they are modelled as
distinct bits.
-/

namespace IVFlags

def HasInvalidChildren : Nat := 1
def HasTextChildren : Nat := 2
def HasBasicChildren : Nat := 4
def HasKeyedChildren : Nat := 8
def HasNonKeydChildren : Nat := 16

end IVFlags

/-!
Modelled from the spec: the IV `type` tags from `core/implementation`
(not under `src/`): `Regular` vs `IsVirtualArray`.
-/

namespace IVTypes

def Regular : Nat := 0
def IsVirtualArray : Nat := 1

end IVTypes

/-- A `ref` value as it is inspected by `mountRef`,
`mountClassComponentCallbacks` and `mountFunctionalComponentCallbacks`:
`null` covers null/undefined/boolean (falsy or invalid), `callback` is a
function, `hooks` is an object carrying the functional-component lifecycle
hooks, `str` is a (rejected) string ref. -/
inductive RefVal : Type where
  | null : RefVal
  | callback : Nat → RefVal
  | hooks : Bool → Bool → Nat → RefVal
  | str : String → RefVal
deriving DecidableEq, Repr

/-- Props are a (possibly absent) ordered list of name/value pairs; the
mount path only ever enumerates them for the opaque `patchProp` call. -/
def PropList : Type := List (String × String)

instance : DecidableEq PropList := by unfold PropList; infer_instance

instance : Repr PropList := inferInstanceAs (Repr (List (String × String)))

mutual

/-- A View Node: flags, type, props, children, key, ref, className
(`src/packages/inferno/src/core/vnode` shape as used by `mounting.ts`). -/
inductive VNode : Type where
  | mk : Nat → VType → Option PropList → JsVal → Option String → RefVal →
      Option String → VNode

/-- The `type` field of a View Node: a tag name (element), a portal target
container (identified by an external DOM id), or a component. -/
inductive VType : Type where
  | tag : String → VType
  | container : Nat → VType
  | comp : CompSpec → VType

/-- Modelled from the spec: the behaviour of a component
(`createClassComponentInstance` and the component function itself live
outside `src/`).  The spec treats render as an opaque producer of one
output tree, so the model stores that output in the node: render output,
whether the instance has `componentDidMount`, and the (possibly extended)
child context `$CX` the instance carries. -/
inductive CompSpec : Type where
  | mk : JsVal → Bool → Option Nat → CompSpec

/-- An input value as the untyped mount dispatcher sees it: null,
undefined, a boolean, a string-or-number primitive, a View Node, an
array, or any other object (`bogus`). -/
inductive JsVal : Type where
  | null : JsVal
  | undef : JsVal
  | bool : Bool → JsVal
  | text : String → JsVal
  | node : VNode → JsVal
  | arr : JsList → JsVal
  | bogus : JsVal

/-- A JS array of child inputs. -/
inductive JsList : Type where
  | nil : JsList
  | cons : JsVal → JsList → JsList

end

deriving instance DecidableEq for VNode, VType, CompSpec, JsVal, JsList

instance : Inhabited JsVal := ⟨JsVal.null⟩

def VNode.flags : VNode → Nat
  | .mk f _ _ _ _ _ _ => f

def VNode.type : VNode → VType
  | .mk _ t _ _ _ _ _ => t

def VNode.props : VNode → Option PropList
  | .mk _ _ p _ _ _ _ => p

def VNode.children : VNode → JsVal
  | .mk _ _ _ c _ _ _ => c

def VNode.key : VNode → Option String
  | .mk _ _ _ _ k _ _ => k

def VNode.ref : VNode → RefVal
  | .mk _ _ _ _ _ r _ => r

def VNode.className : VNode → Option String
  | .mk _ _ _ _ _ _ c => c

def CompSpec.renderOut : CompSpec → JsVal
  | .mk r _ _ => r

def CompSpec.hasDidMount : CompSpec → Bool
  | .mk _ h _ => h

def CompSpec.cx : CompSpec → Option Nat
  | .mk _ _ c => c

/-- The `isInvalid` helper of `inferno-shared`: true for null, undefined,
`true` and `false`. -/
def isInvalidVal : JsVal → Bool
  | .null => true
  | .undef => true
  | .bool _ => true
  | _ => false

/-- The `isVNode` check used by `mount`: an object with a positive numeric
`flags` field. -/
def isVNodeB : JsVal → Bool
  | .node v => v.flags > 0
  | _ => false

/-- The `isArray` check. -/
def isArrayB : JsVal → Bool
  | .arr _ => true
  | _ => false

/-- A reference to a DOM node: either a node created during this mount
(index into `MState.doms`) or an externally supplied container. -/
inductive DomRef : Type where
  | created : Nat → DomRef
  | external : Nat → DomRef
deriving DecidableEq, Repr

/-- The shape of a created DOM node. -/
inductive DomKind : Type where
  | element : String → Bool → DomKind
  | textNode : String → DomKind
deriving DecidableEq, Repr

/-- One `insertOrAppend(parentDOM, dom, nextNode)` call (insert `child`
into `parent` before `before`, or append when `before` is `none`). -/
structure Ins : Type where
  parent : DomRef
  child : DomRef
  before : Option DomRef
deriving DecidableEq, Repr

/-- One entry of the shared lifecycle queue, identified by what the pushed
closure will do when the queue is flushed. -/
inductive LifeEntry : Type where
  | elementRef : Nat → DomRef → LifeEntry
  | classDidMount : Nat → Bool → Bool → LifeEntry
  | funcDidMount : Nat → Option DomRef → Option PropList → LifeEntry
deriving DecidableEq, Repr

/-- Synchronous calls into the opaque collaborators, recorded in order. -/
inductive Effect : Type where
  | patchProp : String → String → DomRef → Bool → Bool → Effect
  | processElement : DomRef → Effect
  | setTextContent : DomRef → String → Effect
  | setClassName : DomRef → String → Bool → Effect
  | afterRender : Nat → Effect
  | classRefCalled : Nat → Nat → Effect
  | willMount : Nat → Effect
  | setDomMap : Nat → Option DomRef → Effect
deriving DecidableEq, Repr

/-- The children reference of an IV: null, a single child IV, or an
ordered sequence of child IVs (stored as IV ids). -/
inductive IVChildren : Type where
  | null : IVChildren
  | one : Nat → IVChildren
  | many : List Nat → IVChildren
deriving DecidableEq, Repr

/-- One Internal View Node: `input` (`iv.v`), `dom` (`iv.d`), children
(`iv.c`), shape flags (`iv.f`), type (`iv.t`), back reference (`iv.b`),
and positional index (`iv.i`). -/
structure IVRec : Type where
  input : JsVal
  d : Option DomRef
  c : IVChildren
  f : Nat
  t : Nat
  b : Option Nat
  pos : Nat
deriving DecidableEq

instance : Inhabited IVRec :=
  ⟨⟨JsVal.null, none, IVChildren.null, 0, IVTypes.Regular, none, 0⟩⟩

/-- The mutable world threaded through the mount recursion: the IV store
(ids are list indices), created DOM nodes (ids are list indices),
insertion events, the shared lifecycle queue, collaborator calls, and a
ghost log of `dom`-field writes as pairs (written IV id, id of the IV the
writing mount call received). -/
structure MState : Type where
  ivs : List IVRec
  doms : List DomKind
  inserts : List Ins
  lifecycle : List LifeEntry
  effects : List Effect
  domWrites : List (Nat × Nat)
deriving DecidableEq

/-- The global configuration consulted by the mount path (`options` and
`process.env.NODE_ENV`); `isControlled` stands for the opaque
`isControlledFormElement` collaborator. -/
structure Env : Type where
  production : Bool
  afterRender : Bool
  afterMount : Bool
  findDOMNodeEnabled : Bool
  isControlled : PropList → Bool

/-- Errors: `invalidInput` is the development-mode `throwError` of
`mount`, `invalidRef` the `throwError` of the ref paths, `nativeFault`
stands for a fault JS itself would raise at the modelled spot, and
`outOfFuel` is the artifact of fueling the recursion. -/
inductive MErr : Type where
  | invalidInput : MErr
  | invalidRef : MErr
  | nativeFault : MErr
  | outOfFuel : MErr
deriving DecidableEq, Repr

/-- Update the element at index `i` (no-op when out of range). -/
def updAt : List α → Nat → (α → α) → List α
  | [], _, _ => []
  | x :: xs, 0, g => g x :: xs
  | x :: xs, n + 1, g => x :: updAt xs n g

def getIv (st : MState) (i : Nat) : IVRec :=
  (st.ivs[i]?).getD default

def updIv (st : MState) (i : Nat) (g : IVRec → IVRec) : MState :=
  { st with ivs := updAt st.ivs i g }

/-- Modelled from the spec: `createIV(input, i)` of `core/implementation`
(not under `src/`): a fresh IV mirroring `input` at positional index `i`,
with null dom/children/back reference. -/
def createIV (st : MState) (input : JsVal) (pos : Nat) : Nat × MState :=
  (st.ivs.length,
    { st with
      ivs := st.ivs ++
        [⟨input, none, IVChildren.null, 0, IVTypes.Regular, none, pos⟩] })

def pushLife (st : MState) (e : LifeEntry) : MState :=
  { st with lifecycle := st.lifecycle ++ [e] }

def pushEffect (st : MState) (e : Effect) : MState :=
  { st with effects := st.effects ++ [e] }

/-- Modelled from the spec: the `insertOrAppend` DOM primitive of
`utils/common` (not under `src/`): insert before the anchor or append. -/
def insertOrAppend (st : MState) (parent : DomRef) (child : DomRef)
    (before : Option DomRef) : MState :=
  { st with inserts := st.inserts ++ [⟨parent, child, before⟩] }

/-- Modelled from the spec: `documentCreateElement(type, isSVG)` of
`utils/common` (not under `src/`): create an element in the proper
namespace. -/
def createElementDom (st : MState) (tag : String) (svg : Bool) :
    DomRef × MState :=
  (.created st.doms.length, { st with doms := st.doms ++ [.element tag svg] })

/-- Create a DOM text node (`document.createTextNode`). -/
def createTextDom (st : MState) (s : String) : DomRef × MState :=
  (.created st.doms.length, { st with doms := st.doms ++ [.textNode s] })

/-- Assign `iv.d` of IV `target`; `writer` is the IV the executing mount
call received (ghost data for the ownership log). -/
def writeD (st : MState) (writer target : Nat) (v : Option DomRef) : MState :=
  let st1 := updIv st target fun r => { r with d := v }
  { st1 with domWrites := st1.domWrites ++ [(target, writer)] }

/-- The result of a mounter: the returned DOM node (null allowed) plus the
updated world. -/
def Res : Type := Except MErr (Option DomRef × MState)

/-- The type of the recursive `mount` reference the specialized mounters
close over: iv id, input, parentDOM, nextNode, context, isSVG,
insertIntoDOM, state. -/
def RecT : Type :=
  Nat → JsVal → DomRef → Option DomRef → Nat → Bool → Bool → MState → Res

/-- The type of the recursive `mountVNode` reference (`mountElement` calls
`mountVNode` directly for a single View-Node child). -/
def VNRecT : Type :=
  Nat → VNode → DomRef → Option DomRef → Nat → Bool → Bool → MState → Res

/-- The `mountText` mounter (`mounting.ts` lines 114-132). -/
def mountTextF (ivId : Nat) (text : String) (parentDOM : DomRef)
    (nextNode : Option DomRef) (insertIntoDom : Bool) (st : MState) :
    DomRef × MState :=
  let (dom, st) := createTextDom st text
  let st :=
    if insertIntoDom then
      insertOrAppend (writeD st ivId ivId (some dom)) parentDOM dom nextNode
    else st
  let st := updIv st ivId fun r => { r with f := IVFlags.HasTextChildren }
  (dom, st)

/-- The `mountRef` ref attachment (`mounting.ts` lines 400-414): a
callback ref is pushed onto the lifecycle queue; an invalid ref is
ignored; anything else throws (with a message only in development). -/
def mountRefF (dom : DomRef) (value : RefVal) (st : MState) :
    Except MErr MState :=
  match value with
  | .callback r => .ok (pushLife st (.elementRef r dom))
  | .null => .ok st
  | _ => .error .invalidRef

/-- The `mountClassComponentCallbacks` scheduling (`mounting.ts` lines
337-382): a callback ref is invoked synchronously with the instance, any
other truthy ref throws; then a did-mount closure is pushed when the
instance has `componentDidMount` or `options.afterMount` is set. -/
def mountClassComponentCallbacksF (env : Env) (ivId : Nat) (ref : RefVal)
    (c : CompSpec) (st : MState) : Except MErr MState :=
  match
    (match ref with
     | .callback r => Except.ok (pushEffect st (.classRefCalled r ivId))
     | .null => Except.ok st
     | _ => Except.error MErr.invalidRef) with
  | .error e => .error e
  | .ok st =>
    if c.hasDidMount || env.afterMount then
      .ok (pushLife st (.classDidMount ivId c.hasDidMount env.afterMount))
    else
      .ok st

/-- The `mountFunctionalComponentCallbacks` scheduling (`mounting.ts`
lines 384-398): a hooks ref invokes `onComponentWillMount` synchronously
and defers `onComponentDidMount` into the lifecycle queue; refs without
those properties do nothing. -/
def mountFunctionalComponentCallbacksF (props : Option PropList)
    (ref : RefVal) (dom : Option DomRef) (st : MState) : MState :=
  match ref with
  | .hooks will did r =>
    let st := if will then pushEffect st (.willMount r) else st
    if did then pushLife st (.funcDidMount r dom props) else st
  | _ => st

/-- Resolve a value used as an array of children, as JS would: a real
array iterates; null/undefined fault on the `length` read; any other
non-array has `length === undefined`, so the loop runs zero times (a
string would iterate its characters, but no call site can pass one:
string children are intercepted by the text paths first). -/
def arrayLike : JsVal → Except MErr JsList
  | .arr xs => .ok xs
  | .null => .error .nativeFault
  | .undef => .error .nativeFault
  | _ => .ok .nil

/-- The keyed/non-keyed decision of `mountArrayChildren` line 241:
`forceKeyed || isVNode(child) && !isNullOrUndef(child.key)`. -/
def keyedFlagFor (forceKeyed : Bool) (child : JsVal) : Nat :=
  if forceKeyed || (isVNodeB child && (match child with
      | .node v => v.key.isSome
      | _ => false)) then
    IVFlags.HasKeyedChildren
  else
    IVFlags.HasNonKeydChildren

/-- Append a child IV id to `iv.c` (`(iv.c as any[]).push(childIV)`); the
non-array cases are unreachable because the first valid entry installs an
array before any push. -/
def pushChild (c : IVChildren) (id : Nat) : IVChildren :=
  match c with
  | .many l => .many (l ++ [id])
  | _ => .many [id]

/-- The loop of `mountArrayChildren` (`mounting.ts` lines 235-249):
invalid entries are skipped; the first valid entry installs `iv.c = []`
and decides the shape flag; every valid entry gets a child IV tagged with
its index and is mounted with immediate insertion. -/
def mountArrayRunF (rec : RecT) (ivId : Nat) (xs : JsList) (i : Nat)
    (parentDOM : DomRef) (nextNode : Option DomRef) (context : Nat)
    (isSVG : Bool) (forceKeyed : Bool) (firstValid : Bool) (st : MState) :
    Except MErr MState :=
  match xs with
  | .nil => .ok st
  | .cons child rest =>
    if isInvalidVal child then
      mountArrayRunF rec ivId rest (i + 1) parentDOM nextNode context isSVG
        forceKeyed firstValid st
    else
      let st :=
        if firstValid then
          updIv st ivId fun r =>
            { r with c := .many [], f := keyedFlagFor forceKeyed child }
        else st
      let (childIvId, st) := createIV st child i
      let st := updIv st ivId fun r => { r with c := pushChild r.c childIvId }
      match rec childIvId child parentDOM nextNode context isSVG true st with
      | .error e => .error e
      | .ok (_, st) =>
        mountArrayRunF rec ivId rest (i + 1) parentDOM nextNode context isSVG
          forceKeyed false st

/-- The `mountArrayChildren` mounter (`mounting.ts` lines 219-262). -/
def mountArrayChildrenF (rec : RecT) (ivId : Nat) (children : JsVal)
    (parentDOM : DomRef) (nextNode : Option DomRef) (context : Nat)
    (isSVG : Bool) (forceKeyed : Bool) (isVirtual : Bool) (st : MState) :
    Except MErr MState :=
  let st := updIv st ivId fun r =>
    { r with c := IVChildren.null, f := IVFlags.HasInvalidChildren }
  match arrayLike children with
  | .error e => .error e
  | .ok xs =>
    match
      mountArrayRunF rec ivId xs 0 parentDOM nextNode context isSVG
        forceKeyed true st with
    | .error e => .error e
    | .ok st =>
      if isVirtual then
        let st := updIv st ivId fun r => { r with t := IVTypes.IsVirtualArray }
        let r := getIv st ivId
        if (r.f &&& (IVFlags.HasKeyedChildren ||| IVFlags.HasNonKeydChildren))
            > 0 then
          match r.c with
          | .many (c0 :: _) => .ok (writeD st ivId ivId (getIv st c0).d)
          | _ => .error .nativeFault
        else
          .ok (writeD st ivId ivId none)
      else
        .ok (updIv st ivId fun r => { r with t := IVTypes.Regular })

/-- The children-classification step of `mountElement` (`mounting.ts`
lines 163-184): invalid children, text children, one View-Node child
(mounted via `mountVNode` directly), or a child sequence. -/
def mountElementKids (rec : RecT) (recVN : VNRecT) (ivId : Nat)
    (children : JsVal) (dom : DomRef) (context : Nat)
    (childrenIsSVG : Bool) (st : MState) : Except MErr MState :=
  if isInvalidVal children then
    .ok (updIv st ivId fun r => { r with f := IVFlags.HasInvalidChildren })
  else
    match children with
    | .text s =>
      let st := pushEffect st (.setTextContent dom s)
      .ok (updIv st ivId fun r => { r with f := IVFlags.HasTextChildren })
    | _ =>
      if isVNodeB children then
        match children with
        | .node cv =>
          let (childIvId, st) := createIV st children 0
          let st := updIv st ivId fun r =>
            { r with c := .one childIvId, f := IVFlags.HasBasicChildren }
          match
            recVN childIvId cv dom none context childrenIsSVG true st with
          | .error e => .error e
          | .ok (_, st) => .ok st
        | _ => .error .nativeFault
      else
        mountArrayChildrenF rec ivId children dom none context
          childrenIsSVG false false st

/-- The prop-application step of `mountElement` (`mounting.ts` lines
186-199): decide controlled-ness for a form element, apply every prop via
`patchProp`, then the controlled-element wiring. -/
def mountElementProps (env : Env) (flags : Nat) (props : Option PropList)
    (dom : DomRef) (isSVG : Bool) (st : MState) : MState :=
  match props with
  | none => st
  | some props =>
    let isFormElement := (flags &&& VNodeFlags.FormElement) > 0
    let hasControlledValue := isFormElement && env.isControlled props
    let st := props.foldl
      (fun st p =>
        pushEffect st (.patchProp p.1 p.2 dom isSVG hasControlledValue))
      st
    if isFormElement then pushEffect st (.processElement dom) else st

/-- The className step of `mountElement` (`mounting.ts` lines 201-207). -/
def mountElementClass (className : Option String) (dom : DomRef)
    (isSVG : Bool) (st : MState) : MState :=
  match className with
  | none => st
  | some cls => pushEffect st (.setClassName dom cls isSVG)

/-- The props/className/ref/insertion tail of `mountElement`
(`mounting.ts` lines 186-216). -/
def mountElementFinish (env : Env) (ivId : Nat) (flags : Nat)
    (props : Option PropList) (className : Option String) (ref : RefVal)
    (dom : DomRef) (parentDOM : DomRef) (nextNode : Option DomRef)
    (isSVG insertIntoDom : Bool) (st : MState) : Res :=
  let st := mountElementProps env flags props dom isSVG st
  let st := mountElementClass className dom isSVG st
  match
    (match ref with
     | .null => Except.ok st
     | r => mountRefF dom r st) with
  | .error e => .error e
  | .ok st =>
    let st :=
      if insertIntoDom then
        insertOrAppend (writeD st ivId ivId (some dom)) parentDOM dom
          nextNode
      else st
    .ok (some dom, st)

/-- The `mountElement` mounter (`mounting.ts` lines 144-217). -/
def mountElementF (rec : RecT) (recVN : VNRecT) (env : Env) (ivId : Nat)
    (v : VNode) (parentDOM : DomRef) (nextNode : Option DomRef)
    (context : Nat) (isSVG : Bool) (insertIntoDom : Bool) (st : MState) :
    Res :=
  let flags := v.flags
  let isSVG := isSVG || (flags &&& VNodeFlags.SvgElement) > 0
  match v.type with
  | .tag tagName =>
    let (dom, st) := createElementDom st tagName isSVG
    match
      mountElementKids rec recVN ivId v.children dom context
        (isSVG && tagName ≠ "foreignObject") st with
    | .error e => .error e
    | .ok st =>
      mountElementFinish env ivId flags v.props v.className v.ref dom
        parentDOM nextNode isSVG insertIntoDom st
  | _ => .error .nativeFault

/-- The render-output mount of `mountComponent` (`mounting.ts` lines
301-317): invalid output marks the IV; otherwise one child IV is built,
back-linked, mounted with insertion deferred, and its `dom` field is
assigned from the mount result by this (parent) call. -/
def mountComponentKid (rec : RecT) (ivId : Nat) (renderOutput : JsVal)
    (parentDOM : DomRef) (nextNode : Option DomRef) (context : Nat)
    (isSVG : Bool) (st : MState) : Except MErr (Option DomRef × MState) :=
  if isInvalidVal renderOutput then
    .ok (none,
      updIv st ivId fun r => { r with f := IVFlags.HasInvalidChildren })
  else
    let st := updIv st ivId fun r => { r with f := IVFlags.HasBasicChildren }
    let (childIvId, st) := createIV st renderOutput 0
    let st := updIv st ivId fun r => { r with c := .one childIvId }
    let st := updIv st childIvId fun r => { r with b := some ivId }
    match rec childIvId renderOutput parentDOM nextNode context isSVG
        false st with
    | .error e => .error e
    | .ok (dom, st) => .ok (dom, writeD st ivId childIvId dom)

/-- The callback scheduling of `mountComponent` (`mounting.ts` lines
319-327). -/
def mountComponentDone (env : Env) (isClass : Bool) (ivId : Nat)
    (ref : RefVal) (c : CompSpec) (props : Option PropList)
    (dom : Option DomRef) (st : MState) : Except MErr MState :=
  if isClass then
    match mountClassComponentCallbacksF env ivId ref c st with
    | .error e => .error e
    | .ok st =>
      if env.findDOMNodeEnabled then
        .ok (pushEffect st (.setDomMap ivId dom))
      else
        .ok st
  else
    .ok (mountFunctionalComponentCallbacksF props ref dom st)

/-- The `mountComponent` mounter (`mounting.ts` lines 264-335). -/
def mountComponentF (rec : RecT) (env : Env) (ivId : Nat) (v : VNode)
    (parentDOM : DomRef) (nextNode : Option DomRef) (context : Nat)
    (isSVG : Bool) (insertIntoDom : Bool) (st : MState) : Res :=
  let isClass := (v.flags &&& VNodeFlags.ComponentClass) > 0
  let props := v.props
  let ref := v.ref
  match v.type with
  | .comp c =>
    let renderOutput := c.renderOut
    let context := if isClass then c.cx.getD context else context
    let st :=
      if isClass && env.afterRender then pushEffect st (.afterRender ivId)
      else st
    match mountComponentKid rec ivId renderOutput parentDOM nextNode
        context isSVG st with
    | .error e => .error e
    | .ok (dom, st) =>
      match mountComponentDone env isClass ivId ref c props dom st with
      | .error e => .error e
      | .ok st =>
        match dom with
        | some d =>
          if insertIntoDom then
            .ok (dom,
              insertOrAppend (writeD st ivId ivId dom) parentDOM d nextNode)
          else
            .ok (dom, st)
        | none => .ok (dom, st)
  | _ => .error .nativeFault

/-- The `mountPortal` mounter (`mounting.ts` lines 135-142): mount the
content into the portal's own target container (always inserted), then
mount a zero-width text placeholder into the logical parent. -/
def mountPortalF (rec : RecT) (ivId : Nat) (v : VNode) (parentDOM : DomRef)
    (nextNode : Option DomRef) (context : Nat) (isSVG : Bool)
    (insertIntoDom : Bool) (st : MState) : Res :=
  match v.type with
  | .container target =>
    let (childIvId, st) := createIV st v.children 0
    let st := updIv st ivId fun r => { r with c := .one childIvId }
    match rec childIvId v.children (.external target) none context isSVG
        true st with
    | .error e => .error e
    | .ok (_, st) =>
      let (dom, st) := mountTextF ivId "" parentDOM nextNode insertIntoDom st
      .ok (some dom, st)
  | _ => .error .nativeFault

/-- The `mountVNode` dispatcher (`mounting.ts` lines 80-112): route by the
primary flag bit; the Portal branch passes a hard-coded `false` SVG flag;
an unmatched flag value returns undefined. -/
def mountVNodeF (rec : RecT) (recVN : VNRecT) (env : Env) (ivId : Nat) (v : VNode)
    (parentDOM : DomRef) (nextNode : Option DomRef) (context : Nat)
    (isSVG : Bool) (insertIntoDOM : Bool) (st : MState) : Res :=
  let flags := v.flags
  if (flags &&& VNodeFlags.Element) > 0 then
    mountElementF rec recVN env ivId v parentDOM nextNode context isSVG
      insertIntoDOM st
  else if (flags &&& VNodeFlags.Component) > 0 then
    mountComponentF rec env ivId v parentDOM nextNode context isSVG
      insertIntoDOM st
  else if (flags &&& VNodeFlags.Portal) > 0 then
    mountPortalF rec ivId v parentDOM nextNode context false insertIntoDOM st
  else
    .ok (none, st)

/-- The array/fallthrough tail of `mount` (`mounting.ts` lines 56-77): in
development a non-array input throws; otherwise the input reaches
`mountArrayChildren` (with `forceKeyed = false`, `isVirtual = true`) and
`mount` returns null. -/
def mountArrayPathF (rec : RecT) (env : Env) (ivId : Nat) (input : JsVal)
    (parentDOM : DomRef) (nextNode : Option DomRef) (context : Nat)
    (isSVG : Bool) (st : MState) : Res :=
  if !env.production && !isArrayB input then
    .error .invalidInput
  else
    match
      mountArrayChildrenF rec ivId input parentDOM nextNode context isSVG
        false true st with
    | .error e => .error e
    | .ok st => .ok (none, st)

/-- The `mount` dispatcher body (`mounting.ts` lines 38-78). -/
def mountF (rec : RecT) (recVN : VNRecT) (env : Env) (ivId : Nat) (input : JsVal)
    (parentDOM : DomRef) (nextNode : Option DomRef) (context : Nat)
    (isSVG : Bool) (insertIntoDOM : Bool) (st : MState) : Res :=
  match input with
  | .text s =>
    let (dom, st) := mountTextF ivId s parentDOM nextNode insertIntoDOM st
    .ok (some dom, st)
  | .node v =>
    if v.flags > 0 then
      mountVNodeF rec recVN env ivId v parentDOM nextNode context isSVG
        insertIntoDOM st
    else
      mountArrayPathF rec env ivId input parentDOM nextNode context isSVG st
  | _ =>
    mountArrayPathF rec env ivId input parentDOM nextNode context isSVG st

/-- The fueled recursion: at each fuel level, the pair of the `mount`
dispatcher and the `mountVNode` dispatcher, each closing over the
previous level for true recursive child mounts (a call from `mount` to
`mountVNode` and onward to the specialized mounters is a plain same-level
call, as in the source). -/
def mountSys (env : Env) : Nat → RecT × VNRecT
  | 0 =>
    (fun _ _ _ _ _ _ _ _ => .error .outOfFuel,
     fun _ _ _ _ _ _ _ _ => .error .outOfFuel)
  | fuel + 1 =>
    (fun ivId input parentDOM nextNode context isSVG insertIntoDOM st =>
       mountF (mountSys env fuel).1 (mountSys env fuel).2 env ivId input
         parentDOM nextNode context isSVG insertIntoDOM st,
     fun ivId v parentDOM nextNode context isSVG insertIntoDOM st =>
       mountVNodeF (mountSys env fuel).1 (mountSys env fuel).2 env ivId v
         parentDOM nextNode context isSVG insertIntoDOM st)

/-- The fueled `mount` entry point. -/
def mount (env : Env) (fuel : Nat) : RecT :=
  (mountSys env fuel).1

/-- The fueled `mountVNode` entry point. -/
def mountVNode (env : Env) (fuel : Nat) : VNRecT :=
  (mountSys env fuel).2

/-- `mountArrayChildren` with the recursive reference instantiated. -/
def mountArrayChildren (env : Env) (fuel : Nat) : Nat → JsVal → DomRef →
    Option DomRef → Nat → Bool → Bool → Bool → MState →
    Except MErr MState :=
  fun ivId children parentDOM nextNode context isSVG forceKeyed isVirtual
      st =>
    mountArrayChildrenF (mountSys env fuel).1 ivId children parentDOM
      nextNode context isSVG forceKeyed isVirtual st

/-- `mountPortal` with the recursive reference instantiated. -/
def mountPortal (env : Env) (fuel : Nat) : VNRecT :=
  fun ivId v parentDOM nextNode context isSVG insertIntoDom st =>
    mountPortalF (mountSys env fuel).1 ivId v parentDOM nextNode context
      isSVG insertIntoDom st

/-- `mountElement` with the recursive references instantiated. -/
def mountElement (env : Env) (fuel : Nat) : VNRecT :=
  fun ivId v parentDOM nextNode context isSVG insertIntoDom st =>
    mountElementF (mountSys env fuel).1 (mountSys env fuel).2 env ivId v
      parentDOM nextNode context isSVG insertIntoDom st

/-- `mountComponent` with the recursive reference instantiated. -/
def mountComponent (env : Env) (fuel : Nat) : VNRecT :=
  fun ivId v parentDOM nextNode context isSVG insertIntoDom st =>
    mountComponentF (mountSys env fuel).1 env ivId v parentDOM nextNode
      context isSVG insertIntoDom st


/-! ## Spec-side helpers used to state the claims -/

/-- The first entry of a child array that is not an invalid sentinel
(null/undefined/true/false). -/
def firstValidEntry : JsList → Option JsVal
  | .nil => none
  | .cons x xs => if isInvalidVal x then firstValidEntry xs else some x

/-- The number of valid (non-sentinel) entries of a child array. -/
def countValid : JsList → Nat
  | .nil => 0
  | .cons x xs => (if isInvalidVal x then 0 else 1) + countValid xs

mutual

/-- All portal target containers syntactically occurring in an input
tree (used to state where insertions may land). -/
def portalTargets : JsVal → List Nat
  | .node v => portalTargetsV v
  | .arr xs => portalTargetsL xs
  | _ => []

/-- Portal targets of a View Node: its own target container (when its
`type` is one), the targets inside a component render output, and the
targets inside its children. -/
def portalTargetsV : VNode → List Nat
  | .mk _ ty _ children _ _ _ =>
    (match ty with
     | .container t => [t]
     | .comp (.mk r _ _) => portalTargets r
     | .tag _ => []) ++ portalTargets children

/-- Portal targets of an array of inputs. -/
def portalTargetsL : JsList → List Nat
  | .nil => []
  | .cons x xs => portalTargets x ++ portalTargetsL xs

end

/-! ## Basic lemmas about the state primitives -/

theorem updAt_length (xs : List α) (i : Nat) (g : α → α) :
    (updAt xs i g).length = xs.length := by
  induction xs generalizing i with
  | nil => rfl
  | cons x xs ih => cases i with
    | zero => rfl
    | succ n => simpa [updAt] using ih n

theorem getElem?_updAt_ne (xs : List α) (g : α → α) (h : j ≠ i) :
    (updAt xs i g)[j]? = xs[j]? := by
  induction xs generalizing i j with
  | nil => rfl
  | cons x xs ih =>
    cases i with
    | zero =>
      cases j with
      | zero => exact absurd rfl h
      | succ m => simp [updAt]
    | succ n =>
      cases j with
      | zero => simp [updAt]
      | succ m =>
        simp only [updAt, List.getElem?_cons_succ]
        exact ih fun hh => h (by omega)

theorem getElem?_updAt_self (xs : List α) (g : α → α) (h : i < xs.length) :
    (updAt xs i g)[i]? = (xs[i]?).map g := by
  induction xs generalizing i with
  | nil => simp at h
  | cons x xs ih =>
    cases i with
    | zero => simp [updAt]
    | succ n =>
      simp only [updAt, List.getElem?_cons_succ]
      exact ih (by simpa using h)

theorem getIv_updIv_ne (st : MState) (i j : Nat) (g : IVRec → IVRec)
    (h : j ≠ i) : getIv (updIv st i g) j = getIv st j := by
  simp [getIv, updIv, getElem?_updAt_ne _ _ h]

theorem getIv_updIv_self (st : MState) (i : Nat) (g : IVRec → IVRec)
    (h : i < st.ivs.length) : getIv (updIv st i g) i = g (getIv st i) := by
  simp [getIv, updIv, getElem?_updAt_self _ _ h]
  rcases List.getElem?_eq_some_iff.2 ⟨h, rfl⟩ with hx
  simp [List.getElem?_eq_getElem h]

theorem getIv_out_of_range (st : MState) (i : Nat)
    (h : st.ivs.length ≤ i) : getIv st i = default := by
  simp [getIv, List.getElem?_eq_none h]

theorem getIv_append_lt (st : MState) (l : List IVRec) (j : Nat)
    (h : j < st.ivs.length) :
    getIv { st with ivs := st.ivs ++ l } j = getIv st j := by
  simp [getIv, List.getElem?_append, h]

/-! ## The state-extension invariant of a single mounter call -/

/-- Where an insertion event produced with parent `pd`, initial DOM count
`n`, and input portal targets `T` may land: at `pd` itself, at a DOM node
created during the call, or at a portal target container of the input. -/
def parentOk (pd : DomRef) (n : Nat) (T : List Nat) (p : DomRef) : Prop :=
  p = pd ∨ (∃ k, n ≤ k ∧ p = .created k) ∨
    (∃ t, t ∈ T ∧ p = .external t)

theorem parentOk_mono {pd : DomRef} {n n' : Nat} {T T' : List Nat}
    {p : DomRef} (h : parentOk pd n T p) (hn : n' ≤ n)
    (hT : ∀ t ∈ T, t ∈ T') : parentOk pd n' T' p := by
  rcases h with h | ⟨k, hk, he⟩ | ⟨t, ht, he⟩
  · exact Or.inl h
  · exact Or.inr (Or.inl ⟨k, le_trans hn hk, he⟩)
  · exact Or.inr (Or.inr ⟨t, hT t ht, he⟩)

theorem parentOk_self (pd : DomRef) (n : Nat) (T : List Nat) :
    parentOk pd n T pd := Or.inl rfl

/-- What a single mounter call may do to the world, relative to the IV it
received (`ivId`), the DOM parent/anchor it received (`pd`, `nn`), the
portal targets of its input (`T`), and its insertion flag (`ins`). -/
structure StExt (ivId : Nat) (pd : DomRef) (nn : Option DomRef)
    (T : List Nat) (ins : Bool) (st st' : MState) : Prop where
  ivlen : st.ivs.length ≤ st'.ivs.length
  domlen : st.doms.length ≤ st'.doms.length
  frame : ∀ j, j < st.ivs.length → j ≠ ivId → st'.ivs[j]? = st.ivs[j]?
  ownInput : ivId < st.ivs.length →
    (getIv st' ivId).input = (getIv st ivId).input
  life : ∃ l, st'.lifecycle = st.lifecycle ++ l
  insApp : ∃ l, st'.inserts = st.inserts ++ l ∧
    ∀ e ∈ l, parentOk pd st.doms.length T e.parent
  domsApp : ∃ l, st'.doms = st.doms ++ l
  dwApp : ∃ l, st'.domWrites = st.domWrites ++ l
  inserted : ivId < st.ivs.length → ins = true → (getIv st ivId).d = none →
    ∀ cd, (getIv st' ivId).d = some cd →
    (⟨pd, cd, nn⟩ : Ins) ∈ st'.inserts

theorem StExt.refl (ivId : Nat) (pd : DomRef) (nn : Option DomRef)
    (T : List Nat) (ins : Bool) (st : MState) :
    StExt ivId pd nn T ins st st := by
  refine ⟨le_refl _, le_refl _, fun _ _ _ => rfl, fun _ => rfl,
    ⟨[], by simp⟩, ⟨[], by simp, fun e h => absurd h (by simp)⟩,
    ⟨[], by simp⟩, ⟨[], by simp⟩, ?_⟩
  intro _ _ h0 cd hcd
  rw [h0] at hcd
  cases hcd

theorem StExt.getIv_frame {ivId : Nat} {pd : DomRef} {nn : Option DomRef}
    {T : List Nat} {ins : Bool} {st st' : MState}
    (h : StExt ivId pd nn T ins st st') (j : Nat) (hj : j < st.ivs.length)
    (hne : j ≠ ivId) : getIv st' j = getIv st j := by
  simp [getIv, h.frame j hj hne]


/-- The call preserved the `dom` field of its own IV (stated only for a
real IV id). -/
def OwnD (ivId : Nat) (st st' : MState) : Prop :=
  ivId < st.ivs.length → (getIv st' ivId).d = (getIv st ivId).d

theorem OwnD.reflOwn (ivId : Nat) (st : MState) : OwnD ivId st st :=
  fun _ => rfl

/-- Transitivity when the first step preserves the own `dom` field. -/
theorem StExt.trans_d1 {ivId : Nat} {pd : DomRef} {nn : Option DomRef}
    {T : List Nat} {ins : Bool} {st st1 st2 : MState}
    (h1 : StExt ivId pd nn T ins st st1) (hd1 : OwnD ivId st st1)
    (h2 : StExt ivId pd nn T ins st1 st2) :
    StExt ivId pd nn T ins st st2 := by
  refine ⟨le_trans h1.ivlen h2.ivlen, le_trans h1.domlen h2.domlen,
    ?_, ?_, ?_, ?_, ?_, ?_, ?_⟩
  · intro j hj hne
    rw [h2.frame j (lt_of_lt_of_le hj h1.ivlen) hne, h1.frame j hj hne]
  · intro hlt
    rw [h2.ownInput (lt_of_lt_of_le hlt h1.ivlen), h1.ownInput hlt]
  · obtain ⟨l1, e1⟩ := h1.life
    obtain ⟨l2, e2⟩ := h2.life
    exact ⟨l1 ++ l2, by rw [e2, e1, List.append_assoc]⟩
  · obtain ⟨l1, e1, p1⟩ := h1.insApp
    obtain ⟨l2, e2, p2⟩ := h2.insApp
    refine ⟨l1 ++ l2, by rw [e2, e1, List.append_assoc], ?_⟩
    intro e he
    rcases List.mem_append.1 he with he | he
    · exact p1 e he
    · exact parentOk_mono (p2 e he) h1.domlen fun t ht => ht
  · obtain ⟨l1, e1⟩ := h1.domsApp
    obtain ⟨l2, e2⟩ := h2.domsApp
    exact ⟨l1 ++ l2, by rw [e2, e1, List.append_assoc]⟩
  · obtain ⟨l1, e1⟩ := h1.dwApp
    obtain ⟨l2, e2⟩ := h2.dwApp
    exact ⟨l1 ++ l2, by rw [e2, e1, List.append_assoc]⟩
  · intro hlt hins hd0 cd hcd
    exact h2.inserted (lt_of_lt_of_le hlt h1.ivlen) hins
      (by rw [hd1 hlt, hd0]) cd hcd

/-- Transitivity when the second step preserves the own `dom` field. -/
theorem StExt.trans_d2 {ivId : Nat} {pd : DomRef} {nn : Option DomRef}
    {T : List Nat} {ins : Bool} {st st1 st2 : MState}
    (h1 : StExt ivId pd nn T ins st st1)
    (h2 : StExt ivId pd nn T ins st1 st2) (hd2 : OwnD ivId st1 st2) :
    StExt ivId pd nn T ins st st2 := by
  refine ⟨le_trans h1.ivlen h2.ivlen, le_trans h1.domlen h2.domlen,
    ?_, ?_, ?_, ?_, ?_, ?_, ?_⟩
  · intro j hj hne
    rw [h2.frame j (lt_of_lt_of_le hj h1.ivlen) hne, h1.frame j hj hne]
  · intro hlt
    rw [h2.ownInput (lt_of_lt_of_le hlt h1.ivlen), h1.ownInput hlt]
  · obtain ⟨l1, e1⟩ := h1.life
    obtain ⟨l2, e2⟩ := h2.life
    exact ⟨l1 ++ l2, by rw [e2, e1, List.append_assoc]⟩
  · obtain ⟨l1, e1, p1⟩ := h1.insApp
    obtain ⟨l2, e2, p2⟩ := h2.insApp
    refine ⟨l1 ++ l2, by rw [e2, e1, List.append_assoc], ?_⟩
    intro e he
    rcases List.mem_append.1 he with he | he
    · exact p1 e he
    · exact parentOk_mono (p2 e he) h1.domlen fun t ht => ht
  · obtain ⟨l1, e1⟩ := h1.domsApp
    obtain ⟨l2, e2⟩ := h2.domsApp
    exact ⟨l1 ++ l2, by rw [e2, e1, List.append_assoc]⟩
  · obtain ⟨l1, e1⟩ := h1.dwApp
    obtain ⟨l2, e2⟩ := h2.dwApp
    exact ⟨l1 ++ l2, by rw [e2, e1, List.append_assoc]⟩
  · intro hlt hins hd0 cd hcd
    rw [hd2 (lt_of_lt_of_le hlt h1.ivlen)] at hcd
    obtain ⟨l2, e2, _⟩ := h2.insApp
    rw [e2]
    exact List.mem_append.2 (Or.inl (h1.inserted hlt hins hd0 cd hcd))

/-- Composition with a recursive child mount: the child IV is fresh
relative to the outer call's initial state, the child's DOM parent is an
allowed insertion parent, and the child's portal targets are included in
the outer input's. -/
theorem StExt.trans_child {ivId : Nat} {pd pd' : DomRef}
    {nn nn' : Option DomRef} {T T' : List Nat} {ins ins' : Bool}
    {st st1 st2 : MState} {childId : Nat}
    (h1 : StExt ivId pd nn T ins st st1) (hd1 : OwnD ivId st st1)
    (h2 : StExt childId pd' nn' T' ins' st1 st2)
    (hcid : st.ivs.length ≤ childId)
    (hpd' : parentOk pd st.doms.length T pd')
    (hT' : ∀ t ∈ T', t ∈ T) :
    StExt ivId pd nn T ins st st2 ∧ OwnD ivId st st2 := by
  have hframe : ∀ j, j < st.ivs.length → j ≠ ivId →
      st2.ivs[j]? = st.ivs[j]? := by
    intro j hj hne
    rw [h2.frame j (lt_of_lt_of_le hj h1.ivlen)
      (fun hh => absurd (hh ▸ hj) (by omega)), h1.frame j hj hne]
  have hown : ∀ hlt : ivId < st.ivs.length,
      getIv st2 ivId = getIv st1 ivId := by
    intro hlt
    exact h2.getIv_frame ivId (lt_of_lt_of_le hlt h1.ivlen)
      (fun hh => absurd (hh ▸ hlt) (by omega))
  have hd : OwnD ivId st st2 := by
    intro hlt
    rw [hown hlt, hd1 hlt]
  refine ⟨⟨le_trans h1.ivlen h2.ivlen, le_trans h1.domlen h2.domlen,
    hframe, ?_, ?_, ?_, ?_, ?_, ?_⟩, hd⟩
  · intro hlt
    rw [hown hlt, h1.ownInput hlt]
  · obtain ⟨l1, e1⟩ := h1.life
    obtain ⟨l2, e2⟩ := h2.life
    exact ⟨l1 ++ l2, by rw [e2, e1, List.append_assoc]⟩
  · obtain ⟨l1, e1, p1⟩ := h1.insApp
    obtain ⟨l2, e2, p2⟩ := h2.insApp
    refine ⟨l1 ++ l2, by rw [e2, e1, List.append_assoc], ?_⟩
    intro e he
    rcases List.mem_append.1 he with he | he
    · exact p1 e he
    · rcases p2 e he with hp | ⟨k, hk, he'⟩ | ⟨t, ht, he'⟩
      · exact hp ▸ hpd'
      · exact Or.inr (Or.inl ⟨k, le_trans h1.domlen hk, he'⟩)
      · exact Or.inr (Or.inr ⟨t, hT' t ht, he'⟩)
  · obtain ⟨l1, e1⟩ := h1.domsApp
    obtain ⟨l2, e2⟩ := h2.domsApp
    exact ⟨l1 ++ l2, by rw [e2, e1, List.append_assoc]⟩
  · obtain ⟨l1, e1⟩ := h1.dwApp
    obtain ⟨l2, e2⟩ := h2.dwApp
    exact ⟨l1 ++ l2, by rw [e2, e1, List.append_assoc]⟩
  · intro hlt hins hd0 cd hcd
    rw [hd hlt, hd0] at hcd
    cases hcd


/-! ## StExt for the primitive state operations -/

theorem StExt.pushLifeStep (ivId : Nat) (pd : DomRef) (nn : Option DomRef)
    (T : List Nat) (ins : Bool) (st : MState) (e : LifeEntry) :
    StExt ivId pd nn T ins st (pushLife st e) ∧
      OwnD ivId st (pushLife st e) := by
  refine ⟨⟨le_refl _, le_refl _, fun _ _ _ => rfl, fun _ => rfl,
    ⟨[e], rfl⟩, ⟨[], by simp [Inferno.pushLife]⟩,
    ⟨[], by simp [Inferno.pushLife]⟩, ⟨[], by simp [Inferno.pushLife]⟩,
    ?_⟩, fun _ => rfl⟩
  intro _ _ h0 cd hcd
  rw [show getIv (Inferno.pushLife st e) ivId = getIv st ivId from rfl,
    h0] at hcd
  cases hcd

theorem StExt.pushEffectStep (ivId : Nat) (pd : DomRef) (nn : Option DomRef)
    (T : List Nat) (ins : Bool) (st : MState) (e : Effect) :
    StExt ivId pd nn T ins st (pushEffect st e) ∧
      OwnD ivId st (pushEffect st e) := by
  refine ⟨⟨le_refl _, le_refl _, fun _ _ _ => rfl, fun _ => rfl,
    ⟨[], by simp [Inferno.pushEffect]⟩, ⟨[], by simp [Inferno.pushEffect]⟩,
    ⟨[], by simp [Inferno.pushEffect]⟩, ⟨[], by simp [Inferno.pushEffect]⟩,
    ?_⟩, fun _ => rfl⟩
  intro _ _ h0 cd hcd
  rw [show getIv (Inferno.pushEffect st e) ivId = getIv st ivId from rfl,
    h0] at hcd
  cases hcd

theorem StExt.updIv_own (ivId : Nat) (pd : DomRef) (nn : Option DomRef)
    (T : List Nat) (ins : Bool) (st : MState) (g : IVRec → IVRec)
    (hd : ∀ r, (g r).d = r.d) (hinp : ∀ r, (g r).input = r.input) :
    StExt ivId pd nn T ins st (updIv st ivId g) ∧
      OwnD ivId st (updIv st ivId g) := by
  have hgo : ∀ j, j ≠ ivId → getIv (updIv st ivId g) j = getIv st j :=
    fun j hj => getIv_updIv_ne st ivId j g hj
  have hself : ∀ hlt : ivId < st.ivs.length,
      getIv (updIv st ivId g) ivId = g (getIv st ivId) :=
    fun hlt => getIv_updIv_self st ivId g hlt
  have hown : OwnD ivId st (updIv st ivId g) := by
    intro hlt
    rw [hself hlt, hd]
  refine ⟨⟨by simp [Inferno.updIv, updAt_length], le_refl _, ?_, ?_,
    ⟨[], by simp [Inferno.updIv]⟩, ⟨[], by simp [Inferno.updIv]⟩,
    ⟨[], by simp [Inferno.updIv]⟩, ⟨[], by simp [Inferno.updIv]⟩,
    ?_⟩, hown⟩
  · intro j _ hne
    exact getElem?_updAt_ne st.ivs g hne
  · intro hlt
    rw [hself hlt, hinp]
  · intro hlt _ h0 cd hcd
    rw [hown hlt, h0] at hcd
    cases hcd

theorem StExt.createIVStep (ivId : Nat) (pd : DomRef) (nn : Option DomRef)
    (T : List Nat) (ins : Bool) (st : MState) (input : JsVal) (pos : Nat) :
    StExt ivId pd nn T ins st (Inferno.createIV st input pos).2 ∧
      OwnD ivId st (Inferno.createIV st input pos).2 := by
  have hpres : ∀ j, j < st.ivs.length →
      getIv (Inferno.createIV st input pos).2 j = getIv st j := by
    intro j hj
    exact getIv_append_lt st _ j hj
  have hown : OwnD ivId st (Inferno.createIV st input pos).2 := by
    intro hlt
    rw [hpres ivId hlt]
  refine ⟨⟨by simp [Inferno.createIV], le_refl _, ?_, ?_,
    ⟨[], by simp [Inferno.createIV]⟩, ⟨[], by simp [Inferno.createIV]⟩,
    ⟨[], by simp [Inferno.createIV]⟩, ⟨[], by simp [Inferno.createIV]⟩,
    ?_⟩, hown⟩
  · intro j hj _
    simp [Inferno.createIV, List.getElem?_append, hj]
  · intro hlt
    rw [hpres ivId hlt]
  · intro hlt _ h0 cd hcd
    rw [hown hlt, h0] at hcd
    cases hcd

/-- The common "assign own dom and insert" tail used by `mountText`,
`mountElement` and `mountComponent`. -/
theorem StExt.insertStep (ivId : Nat) (pd : DomRef) (nn : Option DomRef)
    (T : List Nat) (ins : Bool) (st : MState) (dom : DomRef) :
    StExt ivId pd nn T ins st
      (insertOrAppend (writeD st ivId ivId (some dom)) pd dom nn) := by
  have hne : ∀ j, j ≠ ivId →
      (insertOrAppend (writeD st ivId ivId (some dom)) pd dom nn).ivs[j]? =
        st.ivs[j]? := by
    intro j hj
    simp [Inferno.insertOrAppend, Inferno.writeD, Inferno.updIv,
      getElem?_updAt_ne st.ivs _ hj]
  refine ⟨by simp [Inferno.insertOrAppend, Inferno.writeD, Inferno.updIv,
      updAt_length],
    le_refl _, fun j _ hne' => hne j hne', ?_,
    ⟨[], by simp [Inferno.insertOrAppend, Inferno.writeD, Inferno.updIv]⟩,
    ⟨[⟨pd, dom, nn⟩],
      by simp [Inferno.insertOrAppend, Inferno.writeD, Inferno.updIv],
      ?_⟩,
    ⟨[], by simp [Inferno.insertOrAppend, Inferno.writeD, Inferno.updIv]⟩,
    ⟨[(ivId, ivId)],
      by simp [Inferno.insertOrAppend, Inferno.writeD, Inferno.updIv]⟩,
    ?_⟩
  · intro hlt
    have : getIv (insertOrAppend (writeD st ivId ivId (some dom)) pd dom nn)
        ivId = { getIv st ivId with d := some dom } := by
      simp [Inferno.insertOrAppend, Inferno.writeD, getIv, Inferno.updIv,
        getElem?_updAt_self st.ivs _ hlt, List.getElem?_eq_getElem hlt]
    rw [this]
  · intro e he
    rcases List.mem_singleton.1 he with rfl
    exact parentOk_self pd st.doms.length T
  · intro hlt _ _ cd hcd
    have : getIv (insertOrAppend (writeD st ivId ivId (some dom)) pd dom nn)
        ivId = { getIv st ivId with d := some dom } := by
      simp [Inferno.insertOrAppend, Inferno.writeD, getIv, Inferno.updIv,
        getElem?_updAt_self st.ivs _ hlt, List.getElem?_eq_getElem hlt]
    rw [this] at hcd
    simp only [] at hcd
    have hcd' : some dom = some cd := hcd
    cases hcd'
    simp [Inferno.insertOrAppend, Inferno.writeD, Inferno.updIv]


theorem StExt.mono_T {ivId : Nat} {pd : DomRef} {nn : Option DomRef}
    {T T' : List Nat} {ins : Bool} {st st' : MState}
    (h : StExt ivId pd nn T ins st st') (hT : ∀ t ∈ T, t ∈ T') :
    StExt ivId pd nn T' ins st st' := by
  obtain ⟨l, e, p⟩ := h.insApp
  exact ⟨h.ivlen, h.domlen, h.frame, h.ownInput, h.life,
    ⟨l, e, fun ev hev => parentOk_mono (p ev hev) (le_refl _) hT⟩,
    h.domsApp, h.dwApp, h.inserted⟩

theorem StExt.createDomStep (ivId : Nat) (pd : DomRef) (nn : Option DomRef)
    (T : List Nat) (ins : Bool) (st : MState) (k : DomKind) :
    StExt ivId pd nn T ins st { st with doms := st.doms ++ [k] } ∧
      OwnD ivId st { st with doms := st.doms ++ [k] } := by
  refine ⟨⟨le_refl _, by simp, fun _ _ _ => rfl, fun _ => rfl,
    ⟨[], by simp⟩, ⟨[], by simp⟩, ⟨[k], by simp⟩, ⟨[], by simp⟩, ?_⟩,
    fun _ => rfl⟩
  intro _ _ h0 cd hcd
  rw [show getIv { st with doms := st.doms ++ [k] } ivId = getIv st ivId
    from rfl, h0] at hcd
  cases hcd

/-! ## StExt for the leaf mounters and callback helpers -/

theorem mountTextF_stExt (ivId : Nat) (text : String) (pd : DomRef)
    (nn : Option DomRef) (T : List Nat) (insb : Bool) (st : MState) :
    StExt ivId pd nn T insb st (mountTextF ivId text pd nn insb st).2 := by
  cases insb with
  | false =>
    have h1 := StExt.createDomStep ivId pd nn T false st (.textNode text)
    have h2 := StExt.updIv_own ivId pd nn T false
      { st with doms := st.doms ++ [DomKind.textNode text] }
      (fun r => { r with f := IVFlags.HasTextChildren })
      (fun _ => rfl) (fun _ => rfl)
    have := StExt.trans_d1 h1.1 h1.2 h2.1
    simpa [mountTextF, createTextDom] using this
  | true =>
    have h1 := StExt.createDomStep ivId pd nn T true st (.textNode text)
    set st1 : MState := { st with doms := st.doms ++ [DomKind.textNode text] }
    have h2 := StExt.insertStep ivId pd nn T true st1
      (.created st.doms.length)
    set st2 : MState :=
      insertOrAppend (writeD st1 ivId ivId (some (.created st.doms.length)))
        pd (.created st.doms.length) nn
    have h3 := StExt.updIv_own ivId pd nn T true st2
      (fun r => { r with f := IVFlags.HasTextChildren })
      (fun _ => rfl) (fun _ => rfl)
    have h23 := StExt.trans_d2 h2 h3.1 h3.2
    have := StExt.trans_d1 h1.1 h1.2 h23
    simpa [mountTextF, createTextDom, st1, st2] using this

theorem mountTextF_dom (ivId : Nat) (text : String) (pd : DomRef)
    (nn : Option DomRef) (insb : Bool) (st : MState) :
    (mountTextF ivId text pd nn insb st).1 = .created st.doms.length := by
  cases insb <;> rfl

theorem mountTextF_doms (ivId : Nat) (text : String) (pd : DomRef)
    (nn : Option DomRef) (insb : Bool) (st : MState) :
    (mountTextF ivId text pd nn insb st).2.doms =
      st.doms ++ [.textNode text] := by
  cases insb <;>
    simp [mountTextF, createTextDom, insertOrAppend, writeD, updIv]

theorem mountTextF_inserts (ivId : Nat) (text : String) (pd : DomRef)
    (nn : Option DomRef) (insb : Bool) (st : MState) :
    (mountTextF ivId text pd nn insb st).2.inserts =
      st.inserts ++
        (if insb then [⟨pd, .created st.doms.length, nn⟩] else []) := by
  cases insb <;>
    simp [mountTextF, createTextDom, insertOrAppend, writeD, updIv]

theorem mountTextF_lifecycle (ivId : Nat) (text : String) (pd : DomRef)
    (nn : Option DomRef) (insb : Bool) (st : MState) :
    (mountTextF ivId text pd nn insb st).2.lifecycle = st.lifecycle := by
  cases insb <;>
    simp [mountTextF, createTextDom, insertOrAppend, writeD, updIv]

theorem mountRefF_stExt (dom : DomRef) (value : RefVal) (st st' : MState)
    (h : mountRefF dom value st = .ok st') (ivId : Nat) (pd : DomRef)
    (nn : Option DomRef) (T : List Nat) (ins : Bool) :
    StExt ivId pd nn T ins st st' ∧ OwnD ivId st st' := by
  cases value with
  | callback r =>
    cases h
    exact StExt.pushLifeStep ivId pd nn T ins st (.elementRef r dom)
  | null =>
    cases h
    exact ⟨StExt.refl ivId pd nn T ins st, OwnD.reflOwn ivId st⟩
  | hooks a b c => cases h
  | str a => cases h

theorem mountRefF_lifecycle (dom : DomRef) (r : Nat) (st : MState) :
    mountRefF dom (.callback r) st =
      .ok (pushLife st (.elementRef r dom)) := rfl

theorem mountClassCallbacks_stExt (env : Env) (ivId : Nat) (ref : RefVal)
    (c : CompSpec) (st st' : MState)
    (h : mountClassComponentCallbacksF env ivId ref c st = .ok st')
    (pd : DomRef) (nn : Option DomRef) (T : List Nat) (ins : Bool) :
    StExt ivId pd nn T ins st st' ∧ OwnD ivId st st' := by
  have step : ∀ st1 : MState,
      ((if c.hasDidMount || env.afterMount then
        Except.ok
          (pushLife st1 (.classDidMount ivId c.hasDidMount env.afterMount))
      else Except.ok st1) : Except MErr MState) = .ok st' →
      StExt ivId pd nn T ins st1 st' ∧ OwnD ivId st1 st' := by
    intro st1 h1
    by_cases hc : (c.hasDidMount || env.afterMount) = true
    · rw [if_pos hc] at h1
      cases h1
      exact StExt.pushLifeStep ivId pd nn T ins st1 _
    · rw [if_neg hc] at h1
      cases h1
      exact ⟨StExt.refl ivId pd nn T ins st', OwnD.reflOwn ivId st'⟩
  cases ref with
  | callback r =>
    have h2 := step (pushEffect st (.classRefCalled r ivId))
      (by simpa [mountClassComponentCallbacksF] using h)
    have h1 := StExt.pushEffectStep ivId pd nn T ins st
      (.classRefCalled r ivId)
    exact ⟨StExt.trans_d1 h1.1 h1.2 h2.1, fun hlt => by
      rw [h2.2 hlt, h1.2 hlt]⟩
  | null =>
    exact step st (by simpa [mountClassComponentCallbacksF] using h)
  | hooks a b r => simp [mountClassComponentCallbacksF] at h
  | str a => simp [mountClassComponentCallbacksF] at h

theorem mountFuncCallbacks_stExt (props : Option PropList) (ref : RefVal)
    (dom : Option DomRef) (st : MState) (ivId : Nat) (pd : DomRef)
    (nn : Option DomRef) (T : List Nat) (ins : Bool) :
    StExt ivId pd nn T ins st
        (mountFunctionalComponentCallbacksF props ref dom st) ∧
      OwnD ivId st (mountFunctionalComponentCallbacksF props ref dom st) := by
  cases ref with
  | hooks will did r =>
    cases will with
    | false =>
      cases did with
      | false =>
        exact ⟨StExt.refl ivId pd nn T ins st, OwnD.reflOwn ivId st⟩
      | true =>
        simpa [mountFunctionalComponentCallbacksF] using
          StExt.pushLifeStep ivId pd nn T ins st (.funcDidMount r dom props)
    | true =>
      cases did with
      | false =>
        simpa [mountFunctionalComponentCallbacksF] using
          StExt.pushEffectStep ivId pd nn T ins st (.willMount r)
      | true =>
        have h1 := StExt.pushEffectStep ivId pd nn T ins st (.willMount r)
        have h2 := StExt.pushLifeStep ivId pd nn T ins
          (pushEffect st (.willMount r)) (.funcDidMount r dom props)
        have h1' := StExt.trans_d1 h1.1 h1.2 h2.1
        constructor
        · simpa [mountFunctionalComponentCallbacksF] using h1'
        · intro hlt
          simp [mountFunctionalComponentCallbacksF]
          rw [h2.2 hlt, h1.2 hlt]
  | null => exact ⟨StExt.refl ivId pd nn T ins st, OwnD.reflOwn ivId st⟩
  | callback r => exact ⟨StExt.refl ivId pd nn T ins st, OwnD.reflOwn ivId st⟩
  | str a => exact ⟨StExt.refl ivId pd nn T ins st, OwnD.reflOwn ivId st⟩


theorem getIv_createIV_self (st : MState) (input : JsVal) (pos : Nat) :
    getIv (createIV st input pos).2 st.ivs.length =
      ⟨input, none, IVChildren.null, 0, IVTypes.Regular, none, pos⟩ := by
  simp [createIV, getIv]

theorem createIV_ivs_length (st : MState) (input : JsVal) (pos : Nat) :
    (createIV st input pos).2.ivs.length = st.ivs.length + 1 := by
  simp [createIV]

/-! ## The recursion invariants -/

/-- Every successful call of the recursive `mount` reference satisfies the
state-extension contract. -/
def RecOK (rec : RecT) : Prop :=
  ∀ ivId input pd nn cx svg insb st d st', ivId < st.ivs.length →
    rec ivId input pd nn cx svg insb st = .ok (d, st') →
    StExt ivId pd nn (portalTargets input) insb st st'

/-- Every successful call of the recursive `mountVNode` reference
satisfies the state-extension contract. -/
def VNRecOK (recVN : VNRecT) : Prop :=
  ∀ ivId v pd nn cx svg insb st d st', ivId < st.ivs.length →
    recVN ivId v pd nn cx svg insb st = .ok (d, st') →
    StExt ivId pd nn (portalTargetsV v) insb st st'

/-- Facts about the child IVs created by the array loop: each is fresh,
and whatever DOM node its mount anchored it to was inserted at the shared
parent/anchor of the loop. -/
def childFacts (pd : DomRef) (nn : Option DomRef) (st st' : MState)
    (ids : List Nat) : Prop :=
  ∀ id ∈ ids, st.ivs.length ≤ id ∧ id < st'.ivs.length ∧
    ∀ cd, (getIv st' id).d = some cd → (⟨pd, cd, nn⟩ : Ins) ∈ st'.inserts

theorem childFacts_nil (pd : DomRef) (nn : Option DomRef) (st st' : MState) :
    childFacts pd nn st st' [] := by
  intro id hid
  cases hid

/-- Structural induction for `JsList` (the mutual recursor has multiple
motives, so a dedicated principle is provided). -/
theorem JsList.indOn {P : JsList → Prop} (hnil : P .nil)
    (hcons : ∀ x xs, P xs → P (.cons x xs)) : ∀ xs, P xs
  | .nil => hnil
  | .cons x xs => hcons x xs (JsList.indOn hnil hcons xs)

/-- The main characterization of the `mountArrayChildren` loop. -/
theorem mountArrayRunF_run (rec : RecT) (hrec : RecOK rec) :
    ∀ (xs : JsList) (ivId i : Nat) (pd : DomRef) (nn : Option DomRef)
      (cx : Nat) (svg fk fv : Bool) (st st' : MState),
      ivId < st.ivs.length →
      mountArrayRunF rec ivId xs i pd nn cx svg fk fv st = .ok st' →
      (StExt ivId pd nn (portalTargetsL xs) false st st' ∧
        OwnD ivId st st') ∧
      (fv = true →
        (firstValidEntry xs = none → st' = st) ∧
        (∀ x, firstValidEntry xs = some x →
          ∃ ids, ids ≠ [] ∧ ids.length = countValid xs ∧
            (getIv st' ivId).c = .many ids ∧
            (getIv st' ivId).f = keyedFlagFor fk x ∧
            childFacts pd nn st st' ids)) ∧
      (fv = false → ∀ l0, (getIv st ivId).c = .many l0 →
        ∃ ids, ids.length = countValid xs ∧
          (getIv st' ivId).c = .many (l0 ++ ids) ∧
          (getIv st' ivId).f = (getIv st ivId).f ∧
          childFacts pd nn st st' ids) := by
  refine JsList.indOn ?_ ?_
  · intro ivId i pd nn cx svg fk fv st st' hiv h
    rw [show mountArrayRunF rec ivId .nil i pd nn cx svg fk fv st =
      .ok st from rfl] at h
    cases h
    refine ⟨⟨StExt.refl ivId pd nn _ false st, OwnD.reflOwn ivId st⟩, ?_, ?_⟩
    · intro _
      exact ⟨fun _ => rfl, fun x hx => by cases hx⟩
    · intro _ l0 hl0
      exact ⟨[], rfl, by simpa using hl0, rfl, childFacts_nil pd nn st st⟩
  · intro child rest ih ivId i pd nn cx svg fk fv st st' hiv h
    by_cases hinv : isInvalidVal child = true
    · rw [show mountArrayRunF rec ivId (.cons child rest) i pd nn cx svg fk
          fv st =
        mountArrayRunF rec ivId rest (i + 1) pd nn cx svg fk fv st by
          rw [mountArrayRunF, if_pos hinv]] at h
      obtain ⟨⟨hse, hod⟩, hfvt, hfvf⟩ :=
        ih ivId (i + 1) pd nn cx svg fk fv st st' hiv h
      have hfv_eq : firstValidEntry (.cons child rest) =
          firstValidEntry rest := by
        simp only [firstValidEntry, if_pos hinv]
      have hcv_eq : countValid (.cons child rest) = countValid rest := by
        simp only [countValid, if_pos hinv, Nat.zero_add]
      refine ⟨⟨hse.mono_T ?_, hod⟩, ?_, ?_⟩
      · intro t ht
        exact List.mem_append.2 (Or.inr ht)
      · intro hfv
        refine ⟨fun hn => (hfvt hfv).1 (hfv_eq ▸ hn), fun x hx => ?_⟩
        obtain ⟨ids, hne, hlen, hc, hf, hcf⟩ :=
          (hfvt hfv).2 x (hfv_eq ▸ hx)
        exact ⟨ids, hne, by rw [hcv_eq, hlen], hc, hf, hcf⟩
      · intro hfv l0 hl0
        obtain ⟨ids, hlen, hc, hf, hcf⟩ := hfvf hfv l0 hl0
        exact ⟨ids, by rw [hcv_eq, hlen], hc, hf, hcf⟩
    · -- a valid entry
      rw [show mountArrayRunF rec ivId (.cons child rest) i pd nn cx svg fk
          fv st =
        (let st0 := if fv then updIv st ivId fun r =>
            { r with c := .many [], f := keyedFlagFor fk child }
          else st
         let p := createIV st0 child i
         let st2 := updIv p.2 ivId fun r =>
           { r with c := pushChild r.c p.1 }
         match rec p.1 child pd nn cx svg true st2 with
         | .error e => .error e
         | .ok (_, st3) =>
           mountArrayRunF rec ivId rest (i + 1) pd nn cx svg fk false st3)
        by rw [mountArrayRunF, if_neg hinv]] at h
      simp only [] at h
      set st0 := if fv then updIv st ivId fun r =>
          { r with c := .many [], f := keyedFlagFor fk child }
        else st with hst0
      have hst0len : st0.ivs.length = st.ivs.length := by
        cases fv <;> simp [hst0, updIv, updAt_length]
      set childId := st0.ivs.length with hcid
      set st1 := (createIV st0 child i).2 with hst1
      set st2 := updIv st1 ivId fun r =>
        { r with c := pushChild r.c childId } with hst2
      have hchE : (createIV st0 child i).1 = childId := rfl
      rw [hchE] at h
      cases hr : rec childId child pd nn cx svg true st2 with
      | error e => rw [hr] at h; cases h
      | ok p =>
        obtain ⟨d3, st3⟩ := p
        rw [hr] at h
        simp only [] at h
        -- facts about the prefix chain st → st2
        have hA := StExt.updIv_own ivId pd nn (portalTargetsL
            (.cons child rest)) false st (fun r =>
            { r with c := .many [], f := keyedFlagFor fk child })
          (fun _ => rfl) (fun _ => rfl)
        have h0 : StExt ivId pd nn (portalTargetsL (.cons child rest)) false
            st st0 ∧ OwnD ivId st st0 := by
          cases hfv : fv with
          | true => simpa [hst0, hfv] using hA
          | false =>
            simp only [hst0, hfv, if_neg]
            exact ⟨StExt.refl _ _ _ _ _ _, OwnD.reflOwn _ _⟩
        have h1 := StExt.createIVStep ivId pd nn (portalTargetsL
            (.cons child rest)) false st0 child i
        have h2 := StExt.updIv_own ivId pd nn (portalTargetsL
            (.cons child rest)) false st1 (fun r =>
            { r with c := pushChild r.c childId })
          (fun _ => rfl) (fun _ => rfl)
        have h01 : StExt ivId pd nn (portalTargetsL (.cons child rest))
            false st st1 ∧ OwnD ivId st st1 := by
          refine ⟨StExt.trans_d1 h0.1 h0.2 h1.1, fun hlt => ?_⟩
          rw [h1.2 (by omega), h0.2 hlt]
        have h02 : StExt ivId pd nn (portalTargetsL (.cons child rest))
            false st st2 ∧ OwnD ivId st st2 := by
          refine ⟨StExt.trans_d1 h01.1 h01.2 h2.1, fun hlt => ?_⟩
          rw [h2.2 (by rw [hst1, createIV_ivs_length]; omega), h01.2 hlt]
        -- the recursive child mount
        have hrecst := hrec childId child pd nn cx svg true st2 d3 st3
          (by rw [hst2, updIv, updAt_length, hst1, createIV_ivs_length]
              omega) hr
        have hchild := StExt.trans_child h02.1 h02.2 hrecst
          (by omega) (parentOk_self pd st.doms.length _)
          (fun t ht => List.mem_append.2 (Or.inl ht))
        -- the loop tail
        have hivlt3 : ivId < st3.ivs.length :=
          lt_of_lt_of_le hiv hchild.1.ivlen
        obtain ⟨⟨hse4, hod4⟩, _, hfvf4⟩ :=
          ih ivId (i + 1) pd nn cx svg fk false st3 st' hivlt3 h
        have hfinal : StExt ivId pd nn (portalTargetsL (.cons child rest))
            false st st' ∧ OwnD ivId st st' := by
          refine ⟨StExt.trans_d1 hchild.1 hchild.2 (hse4.mono_T ?_),
            fun hlt => ?_⟩
          · intro t ht
            exact List.mem_append.2 (Or.inr ht)
          · rw [hod4 hivlt3, hchild.2 hlt]
        -- iv bookkeeping across the chain
        have hIvSt2 : getIv st2 ivId =
            { getIv st0 ivId with
              c := pushChild (getIv st0 ivId).c childId } := by
          have e1 : getIv st1 ivId = getIv st0 ivId := by
            rw [hst1]
            exact getIv_append_lt st0 _ ivId (by omega)
          rw [hst2, getIv_updIv_self st1 ivId _
            (by rw [hst1, createIV_ivs_length]; omega), e1]
        have hIvSt3 : getIv st3 ivId = getIv st2 ivId :=
          hrecst.getIv_frame ivId
            (by rw [hst2, updIv, updAt_length, hst1, createIV_ivs_length]
                omega)
            (by omega)
        -- the fresh child IV before its mount
        have hChSt2 : getIv st2 childId =
            ⟨child, none, IVChildren.null, 0, IVTypes.Regular, none, i⟩ := by
          rw [hst2, getIv_updIv_ne st1 ivId childId _ (by omega), hst1, hcid]
          exact getIv_createIV_self st0 child i
        have hChildLt3 : childId < st3.ivs.length := by
          have : childId < st2.ivs.length := by
            rw [hst2, updIv, updAt_length, hst1, createIV_ivs_length]
            omega
          exact lt_of_lt_of_le this hrecst.ivlen
        have hChSt' : getIv st' childId = getIv st3 childId :=
          hse4.getIv_frame childId hChildLt3 (by omega)
        have hHeadFact : st.ivs.length ≤ childId ∧
            childId < st'.ivs.length ∧
            ∀ cd, (getIv st' childId).d = some cd →
              (⟨pd, cd, nn⟩ : Ins) ∈ st'.inserts := by
          refine ⟨by omega, lt_of_lt_of_le hChildLt3 hse4.ivlen, ?_⟩
          intro cd hcd
          rw [hChSt'] at hcd
          have hev := hrecst.inserted
            (by rw [hst2, updIv, updAt_length, hst1, createIV_ivs_length]
                omega)
            rfl (by rw [hChSt2]) cd hcd
          obtain ⟨l4, he4, _⟩ := hse4.insApp
          rw [he4]
          exact List.mem_append.2 (Or.inl hev)
        -- assemble the three conclusions
        refine ⟨hfinal, ?_, ?_⟩
        · intro hfv
          subst hfv
          have hfv_eq : firstValidEntry (.cons child rest) = some child := by
            simp only [firstValidEntry, if_neg hinv]
          refine ⟨fun hn => ?_, fun x hx => ?_⟩
          · rw [hfv_eq] at hn
            cases hn
          · rw [hfv_eq] at hx
            obtain rfl : child = x := Option.some.inj hx
            have hc2 : (getIv st2 ivId).c = .many [childId] := by
              rw [hIvSt2, hst0]
              simp [getIv_updIv_self st ivId _ hiv, pushChild]
            have hf2 : (getIv st2 ivId).f = keyedFlagFor fk child := by
              rw [hIvSt2, hst0]
              simp [getIv_updIv_self st ivId _ hiv]
            obtain ⟨ids, hlen, hc, hf, hcf⟩ := hfvf4 rfl [childId]
              (by rw [hIvSt3, hc2])
            refine ⟨childId :: ids, by simp, ?_, by simpa using hc,
              by rw [hf, hIvSt3, hf2], ?_⟩
            · simp only [countValid, if_neg hinv, List.length_cons, hlen]
              omega
            · intro id hid
              rcases List.mem_cons.1 hid with rfl | hid
              · exact hHeadFact
              · obtain ⟨hge, hlt, hins⟩ := hcf id hid
                refine ⟨?_, hlt, hins⟩
                have : st.ivs.length ≤ st3.ivs.length :=
                  hchild.1.ivlen
                omega
        · intro hfv l0 hl0
          subst hfv
          have hc2 : (getIv st2 ivId).c = .many (l0 ++ [childId]) := by
            rw [hIvSt2, hst0, if_neg Bool.false_ne_true]
            rw [hl0]
            rfl
          have hf2 : (getIv st2 ivId).f = (getIv st ivId).f := by
            rw [hIvSt2, hst0, if_neg Bool.false_ne_true]
          obtain ⟨ids, hlen, hc, hf, hcf⟩ := hfvf4 rfl (l0 ++ [childId])
            (by rw [hIvSt3, hc2])
          refine ⟨childId :: ids, ?_, by simpa using hc,
            by rw [hf, hIvSt3, hf2], ?_⟩
          · simp only [countValid, if_neg hinv, List.length_cons, hlen]
            omega
          · intro id hid
            rcases List.mem_cons.1 hid with rfl | hid
            · exact hHeadFact
            · obtain ⟨hge, hlt, hins⟩ := hcf id hid
              refine ⟨?_, hlt, hins⟩
              have : st.ivs.length ≤ st3.ivs.length := hchild.1.ivlen
              omega


/-- Assigning the own `dom` field; the assigned value must already be
covered by an insertion event when the insertion contract demands it. -/
theorem StExt.writeDStep (ivId : Nat) (pd : DomRef) (nn : Option DomRef)
    (T : List Nat) (ins : Bool) (st : MState) (v : Option DomRef)
    (hins : ins = true → ∀ cd, v = some cd →
      (⟨pd, cd, nn⟩ : Ins) ∈ st.inserts) :
    StExt ivId pd nn T ins st (writeD st ivId ivId v) := by
  refine ⟨by simp [writeD, updIv, updAt_length], le_refl _, ?_, ?_,
    ⟨[], by simp [writeD, updIv]⟩, ⟨[], by simp [writeD, updIv]⟩,
    ⟨[], by simp [writeD, updIv]⟩,
    ⟨[(ivId, ivId)], by simp [writeD, updIv]⟩, ?_⟩
  · intro j _ hne
    simp [writeD, updIv, getElem?_updAt_ne st.ivs _ hne]
  · intro hlt
    have : getIv (writeD st ivId ivId v) ivId =
        { getIv st ivId with d := v } := by
      simp [writeD, getIv, updIv, getElem?_updAt_self st.ivs _ hlt,
        List.getElem?_eq_getElem hlt]
    rw [this]
  · intro hlt hi _ cd hcd
    have : getIv (writeD st ivId ivId v) ivId =
        { getIv st ivId with d := v } := by
      simp [writeD, getIv, updIv, getElem?_updAt_self st.ivs _ hlt,
        List.getElem?_eq_getElem hlt]
    rw [this] at hcd
    have hv : v = some cd := hcd
    have := hins hi cd hv
    simpa [writeD, updIv] using this

theorem portalTargetsL_sub_arrayLike (children : JsVal) (xs : JsList)
    (h : arrayLike children = .ok xs) :
    ∀ t ∈ portalTargetsL xs, t ∈ portalTargets children := by
  cases children with
  | arr l =>
    cases h
    intro t ht
    simpa [portalTargets] using ht
  | null => cases h
  | undef => cases h
  | bool b => cases h; intro t ht; cases ht
  | text s => cases h; intro t ht; cases ht
  | node v => cases h; intro t ht; cases ht
  | bogus => cases h; intro t ht; cases ht

/-- The keyed/non-keyed decision always yields one of the two list-shape
bits. -/
theorem keyedFlagFor_bit (fk : Bool) (x : JsVal) :
    (keyedFlagFor fk x) &&&
      (IVFlags.HasKeyedChildren ||| IVFlags.HasNonKeydChildren) > 0 := by
  unfold keyedFlagFor
  split
  · decide
  · decide

/-- Master lemma for `mountArrayChildren`: the state-extension contract
(for any insertion flag of the surrounding dispatcher) together with the
shape characterization of the array IV. -/
theorem mountArrayChildrenF_stExt (rec : RecT) (hrec : RecOK rec)
    (ivId : Nat) (children : JsVal) (pd : DomRef) (nn : Option DomRef)
    (cx : Nat) (svg fk isV : Bool) (st st' : MState)
    (hiv : ivId < st.ivs.length)
    (h : mountArrayChildrenF rec ivId children pd nn cx svg fk isV st =
      .ok st') :
    (∀ insb, StExt ivId pd nn (portalTargets children) insb st st') ∧
      (isV = false → OwnD ivId st st') ∧
      ∀ xs, arrayLike children = .ok xs →
        (firstValidEntry xs = none →
          (getIv st' ivId).f = IVFlags.HasInvalidChildren ∧
          (getIv st' ivId).c = IVChildren.null ∧
          st'.ivs.length = st.ivs.length ∧ st'.doms = st.doms ∧
          st'.inserts = st.inserts) ∧
        (∀ x, firstValidEntry xs = some x →
          (getIv st' ivId).f = keyedFlagFor fk x ∧
          ∃ ids, ids ≠ [] ∧ ids.length = countValid xs ∧
            (getIv st' ivId).c = .many ids) := by
  rw [mountArrayChildrenF] at h
  simp only [] at h
  set stI := updIv st ivId fun r =>
    { r with c := IVChildren.null, f := IVFlags.HasInvalidChildren }
    with hstI
  cases hal : arrayLike children with
  | error e => rw [hal] at h; cases h
  | ok xs =>
    rw [hal] at h
    simp only [] at h
    have hivI : ivId < stI.ivs.length := by
      rw [hstI]; simpa [updIv, updAt_length] using hiv
    have hIvI : getIv stI ivId =
        { getIv st ivId with
            c := IVChildren.null, f := IVFlags.HasInvalidChildren } := by
      rw [hstI, getIv_updIv_self st ivId _ hiv]
    cases hrun : mountArrayRunF rec ivId xs 0 pd nn cx svg fk true stI with
    | error e => rw [hrun] at h; cases h
    | ok stR =>
      rw [hrun] at h
      simp only [] at h
      obtain ⟨⟨hseR, hodR⟩, hfvt, _⟩ :=
        mountArrayRunF_run rec hrec xs ivId 0 pd nn cx svg fk true stI stR
          hivI hrun
      have hsub := portalTargetsL_sub_arrayLike children xs hal
      -- the prefix st → stI → stR, for an arbitrary insertion flag
      have hpre : ∀ insb, StExt ivId pd nn (portalTargets children) insb st
          stR ∧ OwnD ivId st stR := by
        intro insb
        have h0 := StExt.updIv_own ivId pd nn (portalTargets children) insb
          st (fun r => { r with
              c := IVChildren.null, f := IVFlags.HasInvalidChildren })
          (fun _ => rfl) (fun _ => rfl)
        have h1 : StExt ivId pd nn (portalTargets children) insb stI stR :=
          @StExt.mono_T ivId pd nn (portalTargetsL xs)
            (portalTargets children) insb stI stR ?_ hsub
        · refine ⟨StExt.trans_d1 h0.1 h0.2 h1, fun hlt => ?_⟩
          rw [hodR hivI, h0.2 hlt]
        · refine ⟨hseR.ivlen, hseR.domlen, hseR.frame, hseR.ownInput,
            hseR.life, hseR.insApp, hseR.domsApp, hseR.dwApp, ?_⟩
          intro hlt hi hd0 cd hcd
          rw [hodR hlt, hd0] at hcd
          cases hcd
      have hivR : ivId < stR.ivs.length := lt_of_lt_of_le hivI hseR.ivlen
      obtain ⟨hnone, hsome⟩ := hfvt rfl
      have hXs : ∀ xs', (Except.ok xs : Except MErr JsList) = .ok xs' →
          xs' = xs := by
        intro xs' hal'
        injection hal' with h''
        exact h''.symm
      have hstIdoms : stI.doms = st.doms := by rw [hstI]; rfl
      have hstIins : stI.inserts = st.inserts := by rw [hstI]; rfl
      have hstIlen : stI.ivs.length = st.ivs.length := by
        rw [hstI]; simp [updIv, updAt_length]
      cases isV with
      | false =>
        rw [if_neg Bool.false_ne_true] at h
        cases h
        have hIvT : getIv (updIv stR ivId fun r =>
            { r with t := IVTypes.Regular }) ivId =
            { getIv stR ivId with t := IVTypes.Regular } :=
          getIv_updIv_self stR ivId _ hivR
        refine ⟨fun insb => ?_, fun _ hlt => ?_, fun xs' hal' => ?_⟩
        · exact StExt.trans_d1 (hpre insb).1 (hpre insb).2
            (StExt.updIv_own ivId pd nn (portalTargets children) insb stR
              (fun r => { r with t := IVTypes.Regular })
              (fun _ => rfl) (fun _ => rfl)).1
        · rw [hIvT]
          exact (hpre false).2 hlt
        · obtain rfl := hXs xs' hal'
          constructor
          · intro hn
            have hR := hnone hn
            refine ⟨?_, ?_, ?_, ?_, ?_⟩
            · rw [hIvT, hR, hIvI]
            · rw [hIvT, hR, hIvI]
            · rw [updIv, updAt_length, hR, hstIlen]
            · rw [show (updIv stR ivId fun r =>
                { r with t := IVTypes.Regular }).doms = stR.doms from rfl,
                hR, hstIdoms]
            · rw [show (updIv stR ivId fun r =>
                { r with t := IVTypes.Regular }).inserts = stR.inserts
                from rfl, hR, hstIins]
          · intro x hx
            obtain ⟨ids, hne, hlen, hc, hf, hcf⟩ := hsome x hx
            rw [hIvT]
            exact ⟨hf, ids, hne, hlen, hc⟩
      | true =>
        rw [if_pos rfl] at h
        set stV := updIv stR ivId fun r =>
          { r with t := IVTypes.IsVirtualArray } with hstV
        have hivV : ivId < stV.ivs.length := by
          rw [hstV]; simpa [updIv, updAt_length] using hivR
        have hIvV : getIv stV ivId =
            { getIv stR ivId with t := IVTypes.IsVirtualArray } := by
          rw [hstV]; exact getIv_updIv_self stR ivId _ hivR
        have hVdoms : stV.doms = stR.doms := by rw [hstV]; rfl
        have hVins : stV.inserts = stR.inserts := by rw [hstV]; rfl
        have hVlen : stV.ivs.length = stR.ivs.length := by
          rw [hstV]; simp [updIv, updAt_length]
        have hTstep := fun insb => StExt.updIv_own ivId pd nn
          (portalTargets children) insb stR
          (fun r => { r with t := IVTypes.IsVirtualArray })
          (fun _ => rfl) (fun _ => rfl)
        cases hfe : firstValidEntry xs with
        | none =>
          have hR := hnone hfe
          have hfV : (getIv stV ivId).f = IVFlags.HasInvalidChildren := by
            rw [hIvV, hR, hIvI]
          have hcond : ¬((getIv stV ivId).f &&&
              (IVFlags.HasKeyedChildren ||| IVFlags.HasNonKeydChildren))
              > 0 := by
            rw [hfV]
            decide
          rw [if_neg hcond] at h
          cases h
          have hIvW : getIv (writeD stV ivId ivId none) ivId =
              { getIv stV ivId with d := none } := by
            simp [writeD, getIv, updIv, getElem?_updAt_self stV.ivs _ hivV,
              List.getElem?_eq_getElem hivV]
          refine ⟨fun insb => ?_, fun hff => absurd hff (by decide),
            fun xs' hal' => ?_⟩
          · refine StExt.trans_d1 (hpre insb).1 (hpre insb).2
              (StExt.trans_d1 (hTstep insb).1 (hTstep insb).2
                (StExt.writeDStep ivId pd nn (portalTargets children) insb
                  stV none ?_))
            intro _ cd hcd
            cases hcd
          · obtain rfl := hXs xs' hal'
            refine ⟨fun _ => ⟨?_, ?_, ?_, ?_, ?_⟩, fun x hx => ?_⟩
            · rw [hIvW, hIvV, hR, hIvI]
            · rw [hIvW, hIvV, hR, hIvI]
            · rw [show (writeD stV ivId ivId none).ivs.length =
                stV.ivs.length from by simp [writeD, updIv, updAt_length],
                hVlen, hR, hstIlen]
            · rw [show (writeD stV ivId ivId none).doms = stV.doms
                from rfl, hVdoms, hR, hstIdoms]
            · rw [show (writeD stV ivId ivId none).inserts = stV.inserts
                from rfl, hVins, hR, hstIins]
            · rw [hfe] at hx
              cases hx
        | some x =>
          obtain ⟨ids, hne, hlen, hc, hf, hcf⟩ := hsome x hfe
          have hfV : (getIv stV ivId).f = keyedFlagFor fk x := by
            rw [hIvV, hf]
          have hcond : ((getIv stV ivId).f &&&
              (IVFlags.HasKeyedChildren ||| IVFlags.HasNonKeydChildren))
              > 0 := by
            rw [hfV]
            exact keyedFlagFor_bit fk x
          rw [if_pos hcond] at h
          obtain ⟨c0, ids', rfl⟩ : ∃ c0 ids', ids = c0 :: ids' := by
            cases ids with
            | nil => exact absurd rfl hne
            | cons a l => exact ⟨a, l, rfl⟩
          have hcV : (getIv stV ivId).c = .many (c0 :: ids') := by
            rw [hIvV]
            exact hc
          rw [hcV] at h
          have hc0mem := hcf c0 (List.mem_cons_self c0 ids')
          have hc0ne : c0 ≠ ivId := by
            have := hc0mem.1
            omega
          have hgc0 : getIv stV c0 = getIv stR c0 := by
            rw [hstV]
            exact getIv_updIv_ne stR ivId c0 _ hc0ne
          cases h
          refine ⟨fun insb => ?_, fun hff => absurd hff (by decide),
            fun xs' hal' => ?_⟩
          · refine StExt.trans_d1 (hpre insb).1 (hpre insb).2
              (StExt.trans_d1 (hTstep insb).1 (hTstep insb).2
                (StExt.writeDStep ivId pd nn (portalTargets children) insb
                  stV ((getIv stV c0).d) ?_))
            intro _ cd hcd
            rw [hgc0] at hcd
            rw [hVins]
            exact hc0mem.2.2 cd hcd
          · obtain rfl := hXs xs' hal'
            have hIvW : getIv (writeD stV ivId ivId (getIv stV c0).d)
                ivId = { getIv stV ivId with d := (getIv stV c0).d } := by
              simp [writeD, getIv, updIv, getElem?_updAt_self stV.ivs _ hivV,
                List.getElem?_eq_getElem hivV]
            refine ⟨fun hn => ?_, fun x' hx' => ?_⟩
            · rw [hfe] at hn
              cases hn
            · rw [hfe] at hx'
              obtain rfl : x = x' := Option.some.inj hx'
              rw [hIvW]
              exact ⟨hfV, c0 :: ids', by simp, hlen, hcV⟩


/-- Rebase a same-IV extension onto a different DOM parent/anchor/target
set, when the call preserved its own `dom` field and its parent is an
allowed insertion parent of the outer call. -/
theorem StExt.repar {ivId : Nat} {pd pd' : DomRef} {nn nn' : Option DomRef}
    {T T' : List Nat} {ins ins' : Bool} {st st' : MState}
    (h : StExt ivId pd' nn' T' ins' st st') (hod : OwnD ivId st st')
    (hpd' : parentOk pd st.doms.length T pd') (hT' : ∀ t ∈ T', t ∈ T) :
    StExt ivId pd nn T ins st st' := by
  refine ⟨h.ivlen, h.domlen, h.frame, h.ownInput, h.life, ?_, h.domsApp,
    h.dwApp, ?_⟩
  · obtain ⟨l, e, p⟩ := h.insApp
    refine ⟨l, e, ?_⟩
    intro ev hev
    rcases p ev hev with hp | ⟨k, hk, he'⟩ | ⟨t, ht, he'⟩
    · exact hp ▸ hpd'
    · exact Or.inr (Or.inl ⟨k, hk, he'⟩)
    · exact Or.inr (Or.inr ⟨t, hT' t ht, he'⟩)
  · intro hlt _ hd0 cd hcd
    rw [hod hlt, hd0] at hcd
    cases hcd

/-- Compose two same-IV extensions where the second runs against a
different DOM parent that is an allowed insertion parent of the first,
and both preserve the own `dom` field. -/
theorem StExt.trans_repar {ivId : Nat} {pd pd' : DomRef}
    {nn nn' : Option DomRef} {T T' : List Nat} {ins ins' : Bool}
    {st st1 st2 : MState}
    (h1 : StExt ivId pd nn T ins st st1) (hd1 : OwnD ivId st st1)
    (h2 : StExt ivId pd' nn' T' ins' st1 st2) (hd2 : OwnD ivId st1 st2)
    (hpd' : parentOk pd st.doms.length T pd')
    (hT' : ∀ t ∈ T', t ∈ T) :
    StExt ivId pd nn T ins st st2 ∧ OwnD ivId st st2 := by
  have hd : OwnD ivId st st2 := fun hlt => by
    rw [hd2 (lt_of_lt_of_le hlt h1.ivlen), hd1 hlt]
  refine ⟨⟨le_trans h1.ivlen h2.ivlen, le_trans h1.domlen h2.domlen,
    ?_, ?_, ?_, ?_, ?_, ?_, ?_⟩, hd⟩
  · intro j hj hne
    rw [h2.frame j (lt_of_lt_of_le hj h1.ivlen) hne, h1.frame j hj hne]
  · intro hlt
    rw [h2.ownInput (lt_of_lt_of_le hlt h1.ivlen), h1.ownInput hlt]
  · obtain ⟨l1, e1⟩ := h1.life
    obtain ⟨l2, e2⟩ := h2.life
    exact ⟨l1 ++ l2, by rw [e2, e1, List.append_assoc]⟩
  · obtain ⟨l1, e1, p1⟩ := h1.insApp
    obtain ⟨l2, e2, p2⟩ := h2.insApp
    refine ⟨l1 ++ l2, by rw [e2, e1, List.append_assoc], ?_⟩
    intro e he
    rcases List.mem_append.1 he with he | he
    · exact p1 e he
    · rcases p2 e he with hp | ⟨k, hk, he'⟩ | ⟨t, ht, he'⟩
      · exact hp ▸ hpd'
      · exact Or.inr (Or.inl ⟨k, le_trans h1.domlen hk, he'⟩)
      · exact Or.inr (Or.inr ⟨t, hT' t ht, he'⟩)
  · obtain ⟨l1, e1⟩ := h1.domsApp
    obtain ⟨l2, e2⟩ := h2.domsApp
    exact ⟨l1 ++ l2, by rw [e2, e1, List.append_assoc]⟩
  · obtain ⟨l1, e1⟩ := h1.dwApp
    obtain ⟨l2, e2⟩ := h2.dwApp
    exact ⟨l1 ++ l2, by rw [e2, e1, List.append_assoc]⟩
  · intro hlt _ h0 cd hcd
    rw [hd hlt, h0] at hcd
    cases hcd

/-- Updating an IV that is fresh relative to the reference state. -/
theorem StExt.updIvFresh (ivId : Nat) (pd : DomRef) (nn : Option DomRef)
    (T : List Nat) (ins : Bool) (st : MState) (j : Nat) (g : IVRec → IVRec)
    (hj : st.ivs.length ≤ j) :
    StExt ivId pd nn T ins st (updIv st j g) ∧
      OwnD ivId st (updIv st j g) := by
  have hpres : ∀ j', j' < st.ivs.length →
      getIv (updIv st j g) j' = getIv st j' := by
    intro j' hj'
    exact getIv_updIv_ne st j j' g (by omega)
  have hown : OwnD ivId st (updIv st j g) := fun hlt => by
    rw [hpres ivId hlt]
  refine ⟨⟨by simp [updIv, updAt_length], le_refl _, ?_, ?_,
    ⟨[], by simp [updIv]⟩, ⟨[], by simp [updIv]⟩, ⟨[], by simp [updIv]⟩,
    ⟨[], by simp [updIv]⟩, ?_⟩, hown⟩
  · intro j' hj' _
    exact getElem?_updAt_ne st.ivs g (by omega)
  · intro hlt
    rw [hpres ivId hlt]
  · intro hlt _ h0 cd hcd
    rw [hown hlt, h0] at hcd
    cases hcd

/-- Writing the `dom` field of an IV that is fresh relative to the
reference state (the component mounter writing its child's `dom`). -/
theorem StExt.writeDFresh (ivId : Nat) (pd : DomRef) (nn : Option DomRef)
    (T : List Nat) (ins : Bool) (st : MState) (w j : Nat)
    (v : Option DomRef) (hj : st.ivs.length ≤ j) :
    StExt ivId pd nn T ins st (writeD st w j v) ∧
      OwnD ivId st (writeD st w j v) := by
  have hpres : ∀ j', j' < st.ivs.length →
      getIv (writeD st w j v) j' = getIv st j' := by
    intro j' hj'
    simp [writeD, getIv, updIv, getElem?_updAt_ne st.ivs _
      (show j' ≠ j by omega)]
  have hown : OwnD ivId st (writeD st w j v) := fun hlt => by
    rw [hpres ivId hlt]
  refine ⟨⟨by simp [writeD, updIv, updAt_length], le_refl _, ?_, ?_,
    ⟨[], by simp [writeD, updIv]⟩, ⟨[], by simp [writeD, updIv]⟩,
    ⟨[], by simp [writeD, updIv]⟩,
    ⟨[(j, w)], by simp [writeD, updIv]⟩, ?_⟩, hown⟩
  · intro j' hj' _
    simp [writeD, updIv, getElem?_updAt_ne st.ivs _ (show j' ≠ j by omega)]
  · intro hlt
    rw [hpres ivId hlt]
  · intro hlt _ h0 cd hcd
    rw [hown hlt, h0] at hcd
    cases hcd

/-- A state that differs only in the collaborator-call log. -/
theorem StExt.effectsOnly (ivId : Nat) (pd : DomRef) (nn : Option DomRef)
    (T : List Nat) (ins : Bool) (st : MState) (E : List Effect) :
    StExt ivId pd nn T ins st { st with effects := E } ∧
      OwnD ivId st { st with effects := E } := by
  refine ⟨⟨le_refl _, le_refl _, fun _ _ _ => rfl, fun _ => rfl,
    ⟨[], by simp⟩, ⟨[], by simp⟩, ⟨[], by simp⟩, ⟨[], by simp⟩, ?_⟩,
    fun _ => rfl⟩
  intro _ _ h0 cd hcd
  rw [show getIv { st with effects := E } ivId = getIv st ivId from rfl,
    h0] at hcd
  cases hcd

theorem foldl_patchProp_state (l : List (String × String)) (dom : DomRef)
    (svg c : Bool) :
    ∀ st : MState, ∃ E,
      List.foldl
        (fun s p => pushEffect s (Effect.patchProp p.1 p.2 dom svg c)) st
        l = { st with effects := E } := by
  induction l with
  | nil =>
    intro st
    exact ⟨st.effects, rfl⟩
  | cons a l ih =>
    intro st
    obtain ⟨E, hE⟩ :=
      ih (pushEffect st (Effect.patchProp a.1 a.2 dom svg c))
    exact ⟨E, by rw [List.foldl_cons, hE]; rfl⟩


/-- Master lemma for the children-classification step of `mountElement`:
all insertions land inside the created element (or portal targets of the
children), and the element's own `dom` field is untouched. -/
theorem mountElementKids_stExt (rec : RecT) (recVN : VNRecT)
    (hrec : RecOK rec) (hrecVN : VNRecOK recVN) (ivId : Nat)
    (children : JsVal) (dom : DomRef) (cx : Nat) (csvg : Bool)
    (st st' : MState) (hiv : ivId < st.ivs.length)
    (h : mountElementKids rec recVN ivId children dom cx csvg st =
      .ok st') :
    StExt ivId dom none (portalTargets children) false st st' ∧
      OwnD ivId st st' := by
  cases children with
  | null =>
    rw [show mountElementKids rec recVN ivId .null dom cx csvg st =
      .ok (updIv st ivId fun r =>
        { r with f := IVFlags.HasInvalidChildren }) from rfl] at h
    cases h
    exact StExt.updIv_own ivId dom none _ false st _
      (fun _ => rfl) (fun _ => rfl)
  | undef =>
    rw [show mountElementKids rec recVN ivId .undef dom cx csvg st =
      .ok (updIv st ivId fun r =>
        { r with f := IVFlags.HasInvalidChildren }) from rfl] at h
    cases h
    exact StExt.updIv_own ivId dom none _ false st _
      (fun _ => rfl) (fun _ => rfl)
  | bool b =>
    rw [show mountElementKids rec recVN ivId (.bool b) dom cx csvg st =
      .ok (updIv st ivId fun r =>
        { r with f := IVFlags.HasInvalidChildren }) from rfl] at h
    cases h
    exact StExt.updIv_own ivId dom none _ false st _
      (fun _ => rfl) (fun _ => rfl)
  | text s =>
    rw [show mountElementKids rec recVN ivId (.text s) dom cx csvg st =
      .ok (updIv (pushEffect st (.setTextContent dom s)) ivId fun r =>
        { r with f := IVFlags.HasTextChildren }) from rfl] at h
    cases h
    have h1 := StExt.pushEffectStep ivId dom none (portalTargets (.text s))
      false st (.setTextContent dom s)
    have h2 := StExt.updIv_own ivId dom none (portalTargets (.text s))
      false (pushEffect st (.setTextContent dom s))
      (fun r => { r with f := IVFlags.HasTextChildren })
      (fun _ => rfl) (fun _ => rfl)
    exact ⟨StExt.trans_d1 h1.1 h1.2 h2.1,
      fun hlt => by rw [h2.2 hlt, h1.2 hlt]⟩
  | node cv =>
    have hknode : mountElementKids rec recVN ivId (.node cv) dom cx csvg
        st =
      if isVNodeB (.node cv) = true then
        (let p := createIV st (.node cv) 0
         let st2 := updIv p.2 ivId fun r =>
           { r with
               c := IVChildren.one p.1, f := IVFlags.HasBasicChildren }
         match recVN p.1 cv dom none cx csvg true st2 with
         | .error e => .error e
         | .ok (_, st3) => .ok st3)
      else
        mountArrayChildrenF rec ivId (.node cv) dom none cx csvg false
          false st := rfl
    rw [hknode] at h
    cases hb : isVNodeB (.node cv) with
    | true =>
      rw [if_pos hb] at h
      simp only [] at h
      set childId := (createIV st (.node cv) 0).1 with hchild
      set st1 := (createIV st (.node cv) 0).2 with hst1
      set st2 := updIv st1 ivId fun r =>
        { r with c := IVChildren.one childId, f := IVFlags.HasBasicChildren }
        with hst2
      cases hr : recVN childId cv dom none cx csvg true st2 with
      | error e => rw [hr] at h; cases h
      | ok p =>
        obtain ⟨d3, st3⟩ := p
        rw [hr] at h
        simp only [] at h
        cases h
        have h1 := StExt.createIVStep ivId dom none
          (portalTargets (.node cv)) false st (.node cv) 0
        have h2 := StExt.updIv_own ivId dom none
          (portalTargets (.node cv)) false st1
          (fun r => { r with
              c := IVChildren.one childId, f := IVFlags.HasBasicChildren })
          (fun _ => rfl) (fun _ => rfl)
        have h12 : StExt ivId dom none (portalTargets (.node cv)) false st
            st2 ∧ OwnD ivId st st2 := by
          refine ⟨StExt.trans_d1 h1.1 h1.2 h2.1, fun hlt => ?_⟩
          rw [h2.2 (by rw [hst1, createIV_ivs_length]; omega), h1.2 hlt]
        have hivb : childId < st2.ivs.length := by
          rw [hst2, updIv, updAt_length, hst1, createIV_ivs_length, hchild]
          simp [createIV]
        have hrecst := hrecVN childId cv dom none cx csvg true st2 d3 st'
          hivb hr
        exact (StExt.trans_child h12.1 h12.2 hrecst
          (by rw [hchild]; simp [createIV])
          (parentOk_self dom st.doms.length _)
          (fun t ht => by simpa [portalTargets] using ht))
    | false =>
      rw [if_neg (by rw [hb]; exact Bool.false_ne_true)] at h
      obtain ⟨hse, hod, _⟩ :=
        mountArrayChildrenF_stExt rec hrec ivId (.node cv) dom none cx csvg
          false false st st' hiv h
      exact ⟨hse false, hod rfl⟩
  | arr xs =>
    rw [show mountElementKids rec recVN ivId (.arr xs) dom cx csvg st =
      mountArrayChildrenF rec ivId (.arr xs) dom none cx csvg false
        false st from rfl] at h
    obtain ⟨hse, hod, _⟩ :=
      mountArrayChildrenF_stExt rec hrec ivId (.arr xs) dom none cx csvg
        false false st st' hiv h
    exact ⟨hse false, hod rfl⟩
  | bogus =>
    rw [show mountElementKids rec recVN ivId .bogus dom cx csvg st =
      mountArrayChildrenF rec ivId .bogus dom none cx csvg false
        false st from rfl] at h
    obtain ⟨hse, hod, _⟩ :=
      mountArrayChildrenF_stExt rec hrec ivId .bogus dom none cx csvg
        false false st st' hiv h
    exact ⟨hse false, hod rfl⟩

/-- Master lemma for the props/className/ref/insertion tail of
`mountElement`: only collaborator calls, one deferred ref entry, and the
final insertion/dom assignment. -/
theorem mountElementFinish_stExt (env : Env) (ivId : Nat) (flags : Nat)
    (props : Option PropList) (className : Option String) (ref : RefVal)
    (dom : DomRef) (pd : DomRef) (nn : Option DomRef) (svg insb : Bool)
    (st : MState) (d : Option DomRef) (st' : MState) (T : List Nat)
    (h : mountElementFinish env ivId flags props className ref dom pd nn
      svg insb st = .ok (d, st')) :
    StExt ivId pd nn T insb st st' ∧ d = some dom := by
  rw [show mountElementFinish env ivId flags props className ref dom pd nn
      svg insb st =
    (match
      (match ref with
       | RefVal.null => Except.ok (mountElementClass className dom svg
           (mountElementProps env flags props dom svg st))
       | r => mountRefF dom r (mountElementClass className dom svg
           (mountElementProps env flags props dom svg st))) with
     | .error e => .error e
     | .ok st4 =>
       .ok (some dom,
         if insb then
           insertOrAppend (writeD st4 ivId ivId (some dom)) pd dom nn
         else st4)) from rfl] at h
  set stC := mountElementClass className dom svg
    (mountElementProps env flags props dom svg st) with hstC
  have hP : ∃ E, mountElementProps env flags props dom svg st =
      { st with effects := E } := by
    cases props with
    | none => exact ⟨st.effects, rfl⟩
    | some l =>
      rw [show mountElementProps env flags (some l) dom svg st =
        (if (flags &&& VNodeFlags.FormElement) > 0 then
          pushEffect (l.foldl (fun st p =>
            pushEffect st (.patchProp p.1 p.2 dom svg
              (((flags &&& VNodeFlags.FormElement) > 0 : Bool) &&
                env.isControlled l))) st) (.processElement dom)
        else l.foldl (fun st p =>
            pushEffect st (.patchProp p.1 p.2 dom svg
              (((flags &&& VNodeFlags.FormElement) > 0 : Bool) &&
                env.isControlled l))) st) from rfl]
      obtain ⟨E, hE⟩ := foldl_patchProp_state l dom svg
        (((flags &&& VNodeFlags.FormElement) > 0 : Bool) &&
          env.isControlled l) st
      by_cases hform : (flags &&& VNodeFlags.FormElement) > 0
      · rw [if_pos hform, hE]
        exact ⟨E ++ [Effect.processElement dom], rfl⟩
      · rw [if_neg hform, hE]
        exact ⟨E, rfl⟩
  have hC : ∃ E, stC = { st with effects := E } := by
    obtain ⟨E, hE⟩ := hP
    rw [hstC]
    cases className with
    | none => exact ⟨E, hE⟩
    | some cls =>
      rw [show mountElementClass (some cls) dom svg
          (mountElementProps env flags props dom svg st) =
        pushEffect (mountElementProps env flags props dom svg st)
          (.setClassName dom cls svg) from rfl, hE]
      exact ⟨E ++ [Effect.setClassName dom cls svg], rfl⟩
  obtain ⟨E, hE⟩ := hC
  have hsc : StExt ivId pd nn T insb st stC ∧ OwnD ivId st stC := by
    rw [hE]
    exact StExt.effectsOnly ivId pd nn T insb st E
  cases href : (match ref with
     | RefVal.null => Except.ok stC
     | r => mountRefF dom r stC) with
  | error e => rw [href] at h; cases h
  | ok stR =>
    rw [href] at h
    simp only [] at h
    have hsr : StExt ivId pd nn T insb stC stR ∧ OwnD ivId stC stR := by
      cases ref with
      | null =>
        cases href
        exact ⟨StExt.refl ivId pd nn T insb stC, OwnD.reflOwn ivId stC⟩
      | callback r => exact mountRefF_stExt dom _ stC stR href ivId pd nn T insb
      | hooks a b r => exact mountRefF_stExt dom _ stC stR href ivId pd nn T insb
      | str a => exact mountRefF_stExt dom _ stC stR href ivId pd nn T insb
    have hpre : StExt ivId pd nn T insb st stR ∧ OwnD ivId st stR := by
      refine ⟨StExt.trans_d1 hsc.1 hsc.2 hsr.1, fun hlt => ?_⟩
      rw [hsr.2 (by rw [hE]; exact hlt), hsc.2 hlt]
    cases insb with
    | false =>
      rw [if_neg Bool.false_ne_true] at h
      cases h
      exact ⟨hpre.1, rfl⟩
    | true =>
      rw [if_pos rfl] at h
      cases h
      exact ⟨StExt.trans_d1 hpre.1 hpre.2
        (StExt.insertStep ivId pd nn T true stR dom), rfl⟩

/-- Master lemma for `mountElement`. -/
theorem mountElementF_stExt (rec : RecT) (recVN : VNRecT) (env : Env)
    (hrec : RecOK rec) (hrecVN : VNRecOK recVN) (ivId : Nat) (v : VNode)
    (pd : DomRef) (nn : Option DomRef) (cx : Nat) (svg insb : Bool)
    (st : MState) (d : Option DomRef) (st' : MState)
    (hiv : ivId < st.ivs.length)
    (h : mountElementF rec recVN env ivId v pd nn cx svg insb st =
      .ok (d, st')) :
    StExt ivId pd nn (portalTargetsV v) insb st st' := by
  obtain ⟨flags, ty, props, children, key, ref, cls⟩ := v
  cases ty with
  | container t => cases h
  | comp c => cases h
  | tag tagName =>
    rw [show mountElementF rec recVN env ivId
        (.mk flags (.tag tagName) props children key ref cls) pd nn cx svg
        insb st =
      (let sv := svg || (flags &&& VNodeFlags.SvgElement) > 0
       let dm : DomRef := .created st.doms.length
       let stD : MState :=
         { st with doms := st.doms ++ [.element tagName sv] }
       match
         mountElementKids rec recVN ivId children dm cx
           (sv && tagName ≠ "foreignObject") stD with
       | .error e => .error e
       | .ok st2 =>
         mountElementFinish env ivId flags props cls ref dm pd nn sv insb
           st2) from rfl] at h
    simp only [] at h
    set sv := svg || decide ((flags &&& VNodeFlags.SvgElement) > 0)
      with hsv
    set dm : DomRef := .created st.doms.length with hdm
    set stD : MState :=
      { st with doms := st.doms ++ [.element tagName sv] } with hstD
    cases hk : mountElementKids rec recVN ivId children dm cx
        (sv && tagName ≠ "foreignObject") stD with
    | error e => rw [hk] at h; cases h
    | ok st2 =>
      rw [hk] at h
      simp only [] at h
      have h0 := StExt.createDomStep ivId pd nn
        (portalTargetsV (.mk flags (.tag tagName) props children key ref
          cls)) insb st (.element tagName sv)
      have hivD : ivId < stD.ivs.length := hiv
      obtain ⟨hk1, hk2⟩ := mountElementKids_stExt rec recVN hrec hrecVN
        ivId children dm cx (sv && tagName ≠ "foreignObject") stD st2 hivD
        hk
      have hfin := mountElementFinish_stExt env ivId flags props cls ref
        dm pd nn sv insb st2 d st'
        (portalTargetsV (.mk flags (.tag tagName) props children key ref
          cls)) h
      have h02 := StExt.trans_repar h0.1 h0.2 hk1 hk2
        (Or.inr (Or.inl ⟨st.doms.length, le_refl _, hdm⟩))
        (fun t ht => by simpa [portalTargetsV] using ht)
      exact StExt.trans_d1 h02.1 h02.2 hfin.1


/-- Compose with a write to a child IV that is fresh relative to the
reference state (the component mounter assigning its child's `dom`). -/
theorem StExt.trans_writeChild {ivId : Nat} {pd : DomRef}
    {nn : Option DomRef} {T : List Nat} {ins : Bool} {st st1 : MState}
    {childId : Nat} (h1 : StExt ivId pd nn T ins st st1)
    (hd1 : OwnD ivId st st1) (hcid : st.ivs.length ≤ childId) (w : Nat)
    (v : Option DomRef) :
    StExt ivId pd nn T ins st (writeD st1 w childId v) ∧
      OwnD ivId st (writeD st1 w childId v) := by
  have hpres : ∀ j, j < st.ivs.length →
      (writeD st1 w childId v).ivs[j]? = st1.ivs[j]? := by
    intro j hj
    simp [writeD, updIv, getElem?_updAt_ne st1.ivs _ (show j ≠ childId by
      omega)]
  have hpres' : ∀ j, j < st.ivs.length →
      getIv (writeD st1 w childId v) j = getIv st1 j := by
    intro j hj
    simp [getIv, hpres j hj]
  have hd : OwnD ivId st (writeD st1 w childId v) := fun hlt => by
    rw [hpres' ivId hlt, hd1 hlt]
  refine ⟨⟨?_, ?_, ?_, ?_, ?_, ?_, ?_, ?_, ?_⟩, hd⟩
  · have he : (writeD st1 w childId v).ivs.length = st1.ivs.length := by
      simp [writeD, updIv, updAt_length]
    rw [he]
    exact h1.ivlen
  · have : (writeD st1 w childId v).doms = st1.doms := rfl
    rw [this]
    exact h1.domlen
  · intro j hj hne
    rw [hpres j hj, h1.frame j hj hne]
  · intro hlt
    rw [hpres' ivId hlt, h1.ownInput hlt]
  · obtain ⟨l, e⟩ := h1.life
    exact ⟨l, by simp [writeD, updIv, e]⟩
  · obtain ⟨l, e, p⟩ := h1.insApp
    exact ⟨l, by simp [writeD, updIv, e], p⟩
  · obtain ⟨l, e⟩ := h1.domsApp
    exact ⟨l, by simp [writeD, updIv, e]⟩
  · obtain ⟨l, e⟩ := h1.dwApp
    exact ⟨l ++ [(childId, w)], by simp [writeD, updIv, e]⟩
  · intro hlt _ h0 cd hcd
    rw [hd hlt, h0] at hcd
    cases hcd

/-- Compose with an update of a child IV that is fresh relative to the
reference state. -/
theorem StExt.trans_updChild {ivId : Nat} {pd : DomRef}
    {nn : Option DomRef} {T : List Nat} {ins : Bool} {st st1 : MState}
    {childId : Nat} (h1 : StExt ivId pd nn T ins st st1)
    (hd1 : OwnD ivId st st1) (hcid : st.ivs.length ≤ childId)
    (g : IVRec → IVRec) :
    StExt ivId pd nn T ins st (updIv st1 childId g) ∧
      OwnD ivId st (updIv st1 childId g) := by
  have hpres : ∀ j, j < st.ivs.length →
      (updIv st1 childId g).ivs[j]? = st1.ivs[j]? := by
    intro j hj
    exact getElem?_updAt_ne st1.ivs g (show j ≠ childId by omega)
  have hpres' : ∀ j, j < st.ivs.length →
      getIv (updIv st1 childId g) j = getIv st1 j := by
    intro j hj
    simp [getIv, hpres j hj]
  have hd : OwnD ivId st (updIv st1 childId g) := fun hlt => by
    rw [hpres' ivId hlt, hd1 hlt]
  refine ⟨⟨?_, h1.domlen, ?_, ?_, ?_, ?_, ?_, ?_, ?_⟩, hd⟩
  · have he : (updIv st1 childId g).ivs.length = st1.ivs.length := by
      simp [updIv, updAt_length]
    rw [he]
    exact h1.ivlen
  · intro j hj hne
    rw [hpres j hj, h1.frame j hj hne]
  · intro hlt
    rw [hpres' ivId hlt, h1.ownInput hlt]
  · obtain ⟨l, e⟩ := h1.life
    exact ⟨l, by simp [updIv, e]⟩
  · obtain ⟨l, e, p⟩ := h1.insApp
    exact ⟨l, by simp [updIv, e], p⟩
  · obtain ⟨l, e⟩ := h1.domsApp
    exact ⟨l, by simp [updIv, e]⟩
  · obtain ⟨l, e⟩ := h1.dwApp
    exact ⟨l, by simp [updIv, e]⟩
  · intro hlt _ h0 cd hcd
    rw [hd hlt, h0] at hcd
    cases hcd

/-- Master lemma for the render-output mount of `mountComponent`. -/
theorem mountComponentKid_stExt (rec : RecT) (hrec : RecOK rec)
    (ivId : Nat) (renderOutput : JsVal) (pd : DomRef)
    (nn : Option DomRef) (cx : Nat) (svg : Bool) (st : MState)
    (d : Option DomRef) (st' : MState) (hiv : ivId < st.ivs.length)
    (h : mountComponentKid rec ivId renderOutput pd nn cx svg st =
      .ok (d, st')) :
    StExt ivId pd nn (portalTargets renderOutput) false st st' ∧
      OwnD ivId st st' := by
  rw [mountComponentKid] at h
  by_cases hin : isInvalidVal renderOutput = true
  · rw [if_pos hin] at h
    cases h
    exact StExt.updIv_own ivId pd nn _ false st _
      (fun _ => rfl) (fun _ => rfl)
  · rw [if_neg hin] at h
    simp only [] at h
    set stA := updIv st ivId fun r =>
      { r with f := IVFlags.HasBasicChildren } with hstA
    set childId := (createIV stA renderOutput 0).1 with hchild
    set stB := (createIV stA renderOutput 0).2 with hstB
    set stC := updIv stB ivId fun r => { r with c := IVChildren.one childId }
      with hstC
    set stD := updIv stC childId fun r => { r with b := some ivId }
      with hstD
    have hlenA : stA.ivs.length = st.ivs.length := by
      rw [hstA]; simp [updIv, updAt_length]
    have hchId : childId = st.ivs.length := by
      rw [hchild, createIV, hlenA]
    have hlenD : stD.ivs.length = st.ivs.length + 1 := by
      rw [hstD, updIv, updAt_length, hstC, updIv, updAt_length, hstB,
        createIV_ivs_length, hlenA]
    have h1 := StExt.updIv_own ivId pd nn (portalTargets renderOutput)
      false st (fun r => { r with f := IVFlags.HasBasicChildren })
      (fun _ => rfl) (fun _ => rfl)
    have h2 := StExt.createIVStep ivId pd nn (portalTargets renderOutput)
      false stA renderOutput 0
    have h3 := StExt.updIv_own ivId pd nn (portalTargets renderOutput)
      false stB (fun r => { r with c := IVChildren.one childId })
      (fun _ => rfl) (fun _ => rfl)
    have hAB : StExt ivId pd nn (portalTargets renderOutput) false st stB ∧
        OwnD ivId st stB := by
      refine ⟨StExt.trans_d1 h1.1 h1.2 h2.1, fun hlt => ?_⟩
      rw [h2.2 (by omega), h1.2 hlt]
    have hAC : StExt ivId pd nn (portalTargets renderOutput) false st stC ∧
        OwnD ivId st stC := by
      refine ⟨StExt.trans_d1 hAB.1 hAB.2 h3.1, fun hlt => ?_⟩
      rw [h3.2 (by rw [hstB, createIV_ivs_length, hlenA]; omega),
        hAB.2 hlt]
    have hAD := StExt.trans_updChild hAC.1 hAC.2
      (show st.ivs.length ≤ childId by omega)
      (fun r => { r with b := some ivId })
    rw [← hstD] at hAD
    cases hr : rec childId renderOutput pd nn cx svg false stD with
    | error e => rw [hr] at h; cases h
    | ok p =>
      obtain ⟨d4, st4⟩ := p
      rw [hr] at h
      cases h
      have hrecst := hrec childId renderOutput pd nn cx svg false stD d
        st4 (by rw [hlenD, ← hchId]; omega) hr
      have hAE := StExt.trans_child hAD.1 hAD.2 hrecst (by omega)
        (parentOk_self pd st.doms.length _) (fun t ht => ht)
      exact StExt.trans_writeChild hAE.1 hAE.2 (by omega) ivId d

/-- Master lemma for the callback scheduling of `mountComponent`. -/
theorem mountComponentDone_stExt (env : Env) (isClass : Bool) (ivId : Nat)
    (ref : RefVal) (c : CompSpec) (props : Option PropList)
    (dom : Option DomRef) (st st' : MState)
    (h : mountComponentDone env isClass ivId ref c props dom st = .ok st')
    (pd : DomRef) (nn : Option DomRef) (T : List Nat) (ins : Bool) :
    StExt ivId pd nn T ins st st' ∧ OwnD ivId st st' := by
  rw [mountComponentDone] at h
  cases isClass with
  | false =>
    rw [if_neg Bool.false_ne_true] at h
    cases h
    exact mountFuncCallbacks_stExt props ref dom st ivId pd nn T ins
  | true =>
    rw [if_pos rfl] at h
    cases hcc : mountClassComponentCallbacksF env ivId ref c st with
    | error e => rw [hcc] at h; cases h
    | ok st1 =>
      rw [hcc] at h
      simp only [] at h
      have h1 := mountClassCallbacks_stExt env ivId ref c st st1 hcc pd nn
        T ins
      cases hfd : env.findDOMNodeEnabled with
      | false =>
        rw [hfd, if_neg Bool.false_ne_true] at h
        cases h
        exact h1
      | true =>
        rw [hfd, if_pos rfl] at h
        cases h
        have h2 := StExt.pushEffectStep ivId pd nn T ins st1
          (.setDomMap ivId dom)
        exact ⟨StExt.trans_d1 h1.1 h1.2 h2.1,
          fun hlt => by rw [h2.2 (lt_of_lt_of_le hlt h1.1.ivlen), h1.2 hlt]⟩

/-- Master lemma for `mountComponent`. -/
theorem mountComponentF_stExt (rec : RecT) (env : Env) (hrec : RecOK rec)
    (ivId : Nat) (v : VNode) (pd : DomRef) (nn : Option DomRef) (cx : Nat)
    (svg insb : Bool) (st : MState) (d : Option DomRef) (st' : MState)
    (hiv : ivId < st.ivs.length)
    (h : mountComponentF rec env ivId v pd nn cx svg insb st =
      .ok (d, st')) :
    StExt ivId pd nn (portalTargetsV v) insb st st' := by
  obtain ⟨flags, ty, props, children, key, ref, cls⟩ := v
  cases ty with
  | container t => cases h
  | tag s => cases h
  | comp c =>
    obtain ⟨rOut, hdm, ccx⟩ := c
    rw [show mountComponentF rec env ivId
        (.mk flags (.comp (.mk rOut hdm ccx)) props children key ref cls)
        pd nn cx svg insb st =
      (let isClass := (flags &&& VNodeFlags.ComponentClass) > 0
       let cx2 := if isClass then ccx.getD cx else cx
       let st0 := if isClass && env.afterRender then
           pushEffect st (.afterRender ivId)
         else st
       match mountComponentKid rec ivId rOut pd nn cx2 svg st0 with
       | .error e => .error e
       | .ok (dom, st1) =>
         match mountComponentDone env isClass ivId ref (.mk rOut hdm ccx)
             props dom st1 with
         | .error e => .error e
         | .ok st2 =>
           match dom with
           | some d0 =>
             if insb then
               .ok (dom,
                 insertOrAppend (writeD st2 ivId ivId dom) pd d0 nn)
             else
               .ok (dom, st2)
           | none => .ok (dom, st2)) from rfl] at h
    simp only [] at h
    have hT : ∀ t ∈ portalTargets rOut, t ∈ portalTargetsV
        (.mk flags (.comp (.mk rOut hdm ccx)) props children key ref
          cls) := by
      intro t ht
      simp only [portalTargetsV]
      exact List.mem_append.2 (Or.inl ht)
    have h0 : ∀ b : Bool, StExt ivId pd nn (portalTargetsV
        (.mk flags (.comp (.mk rOut hdm ccx)) props children key ref cls))
        insb st (if b = true then pushEffect st (.afterRender ivId)
          else st) ∧
        OwnD ivId st (if b = true then pushEffect st (.afterRender ivId)
          else st) := by
      intro b
      cases b with
      | false =>
        rw [if_neg Bool.false_ne_true]
        exact ⟨StExt.refl ivId pd nn _ insb st, OwnD.reflOwn ivId st⟩
      | true =>
        rw [if_pos rfl]
        exact StExt.pushEffectStep ivId pd nn _ insb st (.afterRender ivId)
    have hiv0 : ∀ b : Bool,
        ivId < (if b = true then pushEffect st (.afterRender ivId)
          else st).ivs.length := by
      intro b
      cases b with
      | false => rw [if_neg Bool.false_ne_true]; exact hiv
      | true => rw [if_pos rfl]; exact hiv
    split at h
    · exact absurd h (by simp)
    · rename_i dom st1 hk
      obtain ⟨hk1, hk2⟩ := mountComponentKid_stExt rec hrec ivId rOut pd
        nn _ svg _ dom st1 (hiv0 _) hk
      have hk1' : StExt ivId pd nn (portalTargetsV
          (.mk flags (.comp (.mk rOut hdm ccx)) props children key ref
            cls)) insb _ st1 :=
        StExt.repar hk1 hk2 (parentOk_self pd _ _) hT
      have hpre1 : StExt ivId pd nn (portalTargetsV
          (.mk flags (.comp (.mk rOut hdm ccx)) props children key ref
            cls)) insb st st1 ∧ OwnD ivId st st1 := by
        refine ⟨StExt.trans_d1 (h0 _).1 (h0 _).2 hk1', fun hlt => ?_⟩
        rw [hk2 (hiv0 _), (h0 _).2 hlt]
      split at h
      · exact absurd h (by simp)
      · rename_i st2 hdn
        have hd2 := mountComponentDone_stExt env _ ivId ref (.mk rOut hdm
            ccx) props dom st1 st2 hdn pd nn (portalTargetsV
            (.mk flags (.comp (.mk rOut hdm ccx)) props children key ref
              cls)) insb
        have hpre2 : StExt ivId pd nn (portalTargetsV
            (.mk flags (.comp (.mk rOut hdm ccx)) props children key ref
              cls)) insb st st2 ∧ OwnD ivId st st2 := by
          refine ⟨StExt.trans_d1 hpre1.1 hpre1.2 hd2.1, fun hlt => ?_⟩
          rw [hd2.2 (lt_of_lt_of_le hlt hpre1.1.ivlen), hpre1.2 hlt]
        cases dom with
        | none =>
          simp only [] at h
          cases h
          exact hpre2.1
        | some d0 =>
          simp only [] at h
          cases insb with
          | false =>
            rw [if_neg Bool.false_ne_true] at h
            cases h
            exact hpre2.1
          | true =>
            rw [if_pos rfl] at h
            cases h
            exact StExt.trans_d1 hpre2.1 hpre2.2
              (StExt.insertStep ivId pd nn _ true st2 d0)


/-- Master lemma for `mountPortal`: content insertions go to the portal's
own target container (a portal target of the node), the placeholder goes
to the logical parent. -/
theorem mountPortalF_stExt (rec : RecT) (hrec : RecOK rec) (ivId : Nat)
    (v : VNode) (pd : DomRef) (nn : Option DomRef) (cx : Nat)
    (svg insb : Bool) (st : MState) (d : Option DomRef) (st' : MState)
    (hiv : ivId < st.ivs.length)
    (h : mountPortalF rec ivId v pd nn cx svg insb st = .ok (d, st')) :
    StExt ivId pd nn (portalTargetsV v) insb st st' := by
  obtain ⟨flags, ty, props, children, key, ref, cls⟩ := v
  cases ty with
  | tag s => cases h
  | comp c => cases h
  | container target =>
    rw [show mountPortalF rec ivId
        (.mk flags (.container target) props children key ref cls) pd nn
        cx svg insb st =
      (let p := createIV st children 0
       let st1 := updIv p.2 ivId fun r => { r with c := IVChildren.one p.1 }
       match rec p.1 children (.external target) none cx svg true st1 with
       | .error e => .error e
       | .ok (_, st2) =>
         .ok (some (mountTextF ivId "" pd nn insb st2).1,
           (mountTextF ivId "" pd nn insb st2).2)) from by
      rw [mountPortalF]
      cases hr : rec (createIV st children 0).1 children
          (.external target) none cx svg true
          (updIv (createIV st children 0).2 ivId fun r =>
            { r with c := IVChildren.one (createIV st children 0).1 }) with
      | error e => rfl
      | ok p2 => rfl] at h
    simp only [] at h
    set childId := (createIV st children 0).1 with hchild
    set stB := (createIV st children 0).2 with hstB
    set stC := updIv stB ivId fun r => { r with c := IVChildren.one childId }
      with hstC
    have hmemT : target ∈ portalTargetsV
        (.mk flags (.container target) props children key ref cls) := by
      simp [portalTargetsV]
    have hsubT : ∀ t ∈ portalTargets children, t ∈ portalTargetsV
        (.mk flags (.container target) props children key ref cls) := by
      intro t ht
      simp only [portalTargetsV]
      exact List.mem_append.2 (Or.inr ht)
    have h1 := StExt.createIVStep ivId pd nn (portalTargetsV
        (.mk flags (.container target) props children key ref cls)) insb
      st children 0
    have h2 := StExt.updIv_own ivId pd nn (portalTargetsV
        (.mk flags (.container target) props children key ref cls)) insb
      stB (fun r => { r with c := IVChildren.one childId })
      (fun _ => rfl) (fun _ => rfl)
    have h12 : StExt ivId pd nn (portalTargetsV
        (.mk flags (.container target) props children key ref cls)) insb
        st stC ∧ OwnD ivId st stC := by
      refine ⟨StExt.trans_d1 h1.1 h1.2 h2.1, fun hlt => ?_⟩
      rw [h2.2 (by rw [hstB, createIV_ivs_length]; omega), h1.2 hlt]
    cases hr : rec childId children (.external target) none cx svg true
        stC with
    | error e => rw [hr] at h; cases h
    | ok p2 =>
      obtain ⟨d2, st2⟩ := p2
      rw [hr] at h
      simp only [] at h
      cases h
      have hrecst := hrec childId children (.external target) none cx svg
        true stC d2 st2
        (by rw [hstC, updIv, updAt_length, hstB, createIV_ivs_length,
            hchild, createIV]
            omega) hr
      have hAE := StExt.trans_child h12.1 h12.2 hrecst
        (by rw [hchild]; simp [createIV])
        (Or.inr (Or.inr ⟨target, hmemT, rfl⟩)) hsubT
      exact StExt.trans_d1 hAE.1 hAE.2
        (mountTextF_stExt ivId "" pd nn _ insb st2)

/-- Master lemma for the `mountVNode` dispatcher. -/
theorem mountVNodeF_stExt (rec : RecT) (recVN : VNRecT) (env : Env)
    (hrec : RecOK rec) (hrecVN : VNRecOK recVN) (ivId : Nat) (v : VNode)
    (pd : DomRef) (nn : Option DomRef) (cx : Nat) (svg insb : Bool)
    (st : MState) (d : Option DomRef) (st' : MState)
    (hiv : ivId < st.ivs.length)
    (h : mountVNodeF rec recVN env ivId v pd nn cx svg insb st =
      .ok (d, st')) :
    StExt ivId pd nn (portalTargetsV v) insb st st' := by
  rw [mountVNodeF] at h
  by_cases hE : (v.flags &&& VNodeFlags.Element) > 0
  · rw [if_pos hE] at h
    exact mountElementF_stExt rec recVN env hrec hrecVN ivId v pd nn cx svg
      insb st d st' hiv h
  · rw [if_neg hE] at h
    by_cases hC : (v.flags &&& VNodeFlags.Component) > 0
    · rw [if_pos hC] at h
      exact mountComponentF_stExt rec env hrec ivId v pd nn cx svg insb st
        d st' hiv h
    · rw [if_neg hC] at h
      by_cases hP : (v.flags &&& VNodeFlags.Portal) > 0
      · rw [if_pos hP] at h
        exact mountPortalF_stExt rec hrec ivId v pd nn cx false insb st d
          st' hiv h
      · rw [if_neg hP] at h
        cases h
        exact StExt.refl ivId pd nn _ insb st

/-- Master lemma for the array/fallthrough tail of `mount`. -/
theorem mountArrayPathF_stExt (rec : RecT) (env : Env) (hrec : RecOK rec)
    (ivId : Nat) (input : JsVal) (pd : DomRef) (nn : Option DomRef)
    (cx : Nat) (svg insb : Bool) (st : MState) (d : Option DomRef)
    (st' : MState) (hiv : ivId < st.ivs.length)
    (h : mountArrayPathF rec env ivId input pd nn cx svg st =
      .ok (d, st')) :
    StExt ivId pd nn (portalTargets input) insb st st' := by
  rw [mountArrayPathF] at h
  by_cases hc : (!env.production && !isArrayB input) = true
  · rw [if_pos hc] at h
    cases h
  · rw [if_neg hc] at h
    cases hac : mountArrayChildrenF rec ivId input pd nn cx svg false true
        st with
    | error e => rw [hac] at h; cases h
    | ok st1 =>
      rw [hac] at h
      cases h
      obtain ⟨hse, _, _⟩ := mountArrayChildrenF_stExt rec hrec ivId input
        pd nn cx svg false true st st' hiv hac
      exact hse insb

/-- Master lemma for the `mount` dispatcher body. -/
theorem mountF_stExt (rec : RecT) (recVN : VNRecT) (env : Env)
    (hrec : RecOK rec) (hrecVN : VNRecOK recVN) (ivId : Nat) (input : JsVal)
    (pd : DomRef) (nn : Option DomRef) (cx : Nat) (svg insb : Bool)
    (st : MState) (d : Option DomRef) (st' : MState)
    (hiv : ivId < st.ivs.length)
    (h : mountF rec recVN env ivId input pd nn cx svg insb st =
      .ok (d, st')) :
    StExt ivId pd nn (portalTargets input) insb st st' := by
  cases input with
  | text s =>
    rw [show mountF rec recVN env ivId (.text s) pd nn cx svg insb st =
      .ok (some (mountTextF ivId s pd nn insb st).1,
        (mountTextF ivId s pd nn insb st).2) from by
        rw [mountF]] at h
    cases h
    exact mountTextF_stExt ivId s pd nn _ insb st
  | node v =>
    rw [show mountF rec recVN env ivId (.node v) pd nn cx svg insb st =
      (if v.flags > 0 then
        mountVNodeF rec recVN env ivId v pd nn cx svg insb st
      else
        mountArrayPathF rec env ivId (.node v) pd nn cx svg st)
      from rfl] at h
    by_cases hf : v.flags > 0
    · rw [if_pos hf] at h
      have := mountVNodeF_stExt rec recVN env hrec hrecVN ivId v pd nn cx
        svg insb st d st' hiv h
      exact StExt.mono_T this (fun t ht => by simpa [portalTargets] using ht)
    · rw [if_neg hf] at h
      exact mountArrayPathF_stExt rec env hrec ivId (.node v) pd nn cx svg
        insb st d st' hiv h
  | null =>
    exact mountArrayPathF_stExt rec env hrec ivId .null pd nn cx svg insb
      st d st' hiv h
  | undef =>
    exact mountArrayPathF_stExt rec env hrec ivId .undef pd nn cx svg insb
      st d st' hiv h
  | bool b =>
    exact mountArrayPathF_stExt rec env hrec ivId (.bool b) pd nn cx svg
      insb st d st' hiv h
  | arr xs =>
    exact mountArrayPathF_stExt rec env hrec ivId (.arr xs) pd nn cx svg
      insb st d st' hiv h
  | bogus =>
    exact mountArrayPathF_stExt rec env hrec ivId .bogus pd nn cx svg insb
      st d st' hiv h

/-- Both components of the fueled recursion satisfy the state-extension
contract, by induction on fuel. -/
theorem mountSys_ok (env : Env) :
    ∀ fuel, RecOK (mountSys env fuel).1 ∧ VNRecOK (mountSys env fuel).2 := by
  intro fuel
  induction fuel with
  | zero =>
    constructor
    · intro ivId input pd nn cx svg insb st d st' hiv h
      cases h
    · intro ivId v pd nn cx svg insb st d st' hiv h
      cases h
  | succ n ih =>
    constructor
    · intro ivId input pd nn cx svg insb st d st' hiv h
      exact mountF_stExt (mountSys env n).1 (mountSys env n).2 env ih.1
        ih.2 ivId input pd nn cx svg insb st d st' hiv h
    · intro ivId v pd nn cx svg insb st d st' hiv h
      exact mountVNodeF_stExt (mountSys env n).1 (mountSys env n).2 env
        ih.1 ih.2 ivId v pd nn cx svg insb st d st' hiv h

/-- The fueled `mount` satisfies the state-extension contract. -/
theorem mount_ok (env : Env) (fuel : Nat) : RecOK (mount env fuel) :=
  (mountSys_ok env fuel).1

/-- The fueled `mountVNode` satisfies the state-extension contract. -/
theorem mountVNode_ok (env : Env) (fuel : Nat) :
    VNRecOK (mountVNode env fuel) :=
  (mountSys_ok env fuel).2


/-- The props/className prefix of `mountElementFinish` only records
effects; every other state component is untouched. -/
theorem mountElementClassProps_state (env : Env) (flags : Nat)
    (props : Option PropList) (className : Option String) (dom : DomRef)
    (svg : Bool) (st : MState) :
    ∃ E, mountElementClass className dom svg
        (mountElementProps env flags props dom svg st) =
      { st with effects := E } := by
  have hP : ∃ E, mountElementProps env flags props dom svg st =
      { st with effects := E } := by
    cases props with
    | none => exact ⟨st.effects, rfl⟩
    | some l =>
      rw [show mountElementProps env flags (some l) dom svg st =
        (if (flags &&& VNodeFlags.FormElement) > 0 then
          pushEffect (l.foldl (fun st p =>
            pushEffect st (.patchProp p.1 p.2 dom svg
              (((flags &&& VNodeFlags.FormElement) > 0 : Bool) &&
                env.isControlled l))) st) (.processElement dom)
        else l.foldl (fun st p =>
            pushEffect st (.patchProp p.1 p.2 dom svg
              (((flags &&& VNodeFlags.FormElement) > 0 : Bool) &&
                env.isControlled l))) st) from rfl]
      obtain ⟨E, hE⟩ := foldl_patchProp_state l dom svg
        (((flags &&& VNodeFlags.FormElement) > 0 : Bool) &&
          env.isControlled l) st
      by_cases hform : (flags &&& VNodeFlags.FormElement) > 0
      · rw [if_pos hform, hE]
        exact ⟨E ++ [Effect.processElement dom], rfl⟩
      · rw [if_neg hform, hE]
        exact ⟨E, rfl⟩
  obtain ⟨E, hE⟩ := hP
  cases className with
  | none => exact ⟨E, hE⟩
  | some cls =>
    rw [show mountElementClass (some cls) dom svg
        (mountElementProps env flags props dom svg st) =
      pushEffect (mountElementProps env flags props dom svg st)
        (.setClassName dom cls svg) from rfl, hE]
    exact ⟨E ++ [Effect.setClassName dom cls svg], rfl⟩


/-! ## The write-ownership invariant over the ghost `domWrites` log -/

/-- Whether an input is a component View Node (the shape that routes to
`mountComponent`). -/
def isComponentInput : JsVal → Bool
  | .node v => v.flags &&& VNodeFlags.Component > 0
  | _ => false

/-- Every ghost write `(target, writer)` is a self-write, or the writer's
IV holds the target as its single render-output child and the writer's
input is a component node — the `mountComponent` exception. -/
def WOk (st : MState) : Prop :=
  ∀ e ∈ st.domWrites, e.1 = e.2 ∨
    ((getIv st e.2).c = IVChildren.one e.1 ∧
      isComponentInput (getIv st e.2).input = true)

/-- Every recorded writer is a real IV. -/
def WBound (st : MState) : Prop :=
  ∀ e ∈ st.domWrites, e.2 < st.ivs.length

/-- Every recorded writer is a real IV other than `ivId` (the IV whose
mount call is about to run, and whose record the call may rewrite). -/
def Wb (ivId : Nat) (st : MState) : Prop :=
  ∀ e ∈ st.domWrites, e.2 < st.ivs.length ∧ e.2 ≠ ivId

/-- Entries a call adds are its own (writer `ivId`) or stem from IVs
fresh relative to the call's entry state. -/
def WNew (ivId : Nat) (st st' : MState) : Prop :=
  ∀ e ∈ st'.domWrites, e ∈ st.domWrites ∨ e.2 = ivId ∨
    st.ivs.length ≤ e.2

/-- What a mount call guarantees about the ghost write log. -/
structure WOut (ivId : Nat) (st st' : MState) : Prop where
  wok : WOk st'
  wbound : WBound st'
  wnew : WNew ivId st st'
  len : st.ivs.length ≤ st'.ivs.length

theorem WOk.ofNilLog {st : MState} (h : st.domWrites = []) : WOk st := by
  intro e he
  rw [h] at he
  cases he

theorem Wb.ofNilLogB {ivId : Nat} {st : MState} (h : st.domWrites = []) :
    Wb ivId st := by
  intro e he
  rw [h] at he
  cases he

theorem Wb.bound {ivId : Nat} {st : MState} (h : Wb ivId st) :
    WBound st :=
  fun e he => (h e he).1

theorem Wb.mono {ivId : Nat} {st st' : MState} (h : Wb ivId st)
    (hd : st'.domWrites = st.domWrites)
    (hl : st.ivs.length ≤ st'.ivs.length) : Wb ivId st' := by
  intro e he
  rw [hd] at he
  exact ⟨lt_of_lt_of_le (h e he).1 hl, (h e he).2⟩

theorem getIv_congr {st st' : MState} (hi : st'.ivs = st.ivs) (x : Nat) :
    getIv st' x = getIv st x := by
  simp [getIv, hi]

/-- An update of IV `i` that keeps the `c` and `input` fields keeps them
for every IV. -/
theorem getIv_updIv_field (st : MState) (i x : Nat) (g : IVRec → IVRec)
    (hc : ∀ r, (g r).c = r.c) (hin : ∀ r, (g r).input = r.input) :
    (getIv (updIv st i g) x).c = (getIv st x).c ∧
    (getIv (updIv st i g) x).input = (getIv st x).input := by
  by_cases hx : x = i
  · subst hx
    by_cases hlt : x < st.ivs.length
    · rw [getIv_updIv_self st x g hlt]
      exact ⟨hc _, hin _⟩
    · rw [getIv_out_of_range (updIv st x g) x
        (by rw [updIv, updAt_length]; omega),
        getIv_out_of_range st x (by omega)]
      exact ⟨rfl, rfl⟩
  · rw [getIv_updIv_ne st i x g hx]
    exact ⟨rfl, rfl⟩

theorem WOut.reflW (ivId : Nat) (st : MState) (hW : WOk st)
    (hB : WBound st) : WOut ivId st st :=
  ⟨hW, hB, fun _ he => Or.inl he, le_refl _⟩

theorem WOut.trans {ivId : Nat} {st st1 st2 : MState}
    (h1 : WOut ivId st st1) (h2 : WOut ivId st1 st2) :
    WOut ivId st st2 := by
  refine ⟨h2.wok, h2.wbound, ?_, le_trans h1.len h2.len⟩
  intro e he
  rcases h2.wnew e he with he1 | he1 | he1
  · exact h1.wnew e he1
  · exact Or.inr (Or.inl he1)
  · exact Or.inr (Or.inr (le_trans h1.len he1))

/-- Compose with a child's guarantee: the child id is fresh for us. -/
theorem WOut.transChild {ivId childId : Nat} {st st1 st2 : MState}
    (h1 : WOut ivId st st1) (h2 : WOut childId st1 st2)
    (hc : st.ivs.length ≤ childId) : WOut ivId st st2 := by
  refine ⟨h2.wok, h2.wbound, ?_, le_trans h1.len h2.len⟩
  intro e he
  rcases h2.wnew e he with he1 | he1 | he1
  · exact h1.wnew e he1
  · exact Or.inr (Or.inr (he1 ▸ hc))
  · exact Or.inr (Or.inr (le_trans h1.len he1))

/-- A step that moves neither the IV list nor the write log. -/
theorem WOut.ofEq (ivId : Nat) {st st' : MState} (hW : WOk st)
    (hB : WBound st) (hi : st'.ivs = st.ivs)
    (hd : st'.domWrites = st.domWrites) : WOut ivId st st' := by
  have hl : st'.ivs.length = st.ivs.length := by rw [hi]
  refine ⟨?_, ?_, fun e he => Or.inl (hd ▸ he), le_of_eq hl.symm⟩
  · intro e he
    rw [hd] at he
    rcases hW e he with h | ⟨hc, hin⟩
    · exact Or.inl h
    · exact Or.inr ⟨by rw [getIv_congr hi]; exact hc,
        by rw [getIv_congr hi]; exact hin⟩
  · intro e he
    rw [hd] at he
    rw [hl]
    exact hB e he

/-- An update of any IV that keeps `c` and `input`. -/
theorem WOut.updIvKeep (ivId : Nat) (st : MState) (i : Nat)
    (g : IVRec → IVRec) (hc : ∀ r, (g r).c = r.c)
    (hin : ∀ r, (g r).input = r.input) (hW : WOk st) (hB : WBound st) :
    WOut ivId st (updIv st i g) := by
  have hl : (updIv st i g).ivs.length = st.ivs.length := by
    rw [updIv]
    exact updAt_length st.ivs i g
  refine ⟨?_, ?_, fun e he => Or.inl he, le_of_eq hl.symm⟩
  · intro e he
    rcases hW e he with h | ⟨hc2, hin2⟩
    · exact Or.inl h
    · refine Or.inr ⟨?_, ?_⟩
      · rw [(getIv_updIv_field st i e.2 g hc hin).1]
        exact hc2
      · rw [(getIv_updIv_field st i e.2 g hc hin).2]
        exact hin2
  · intro e he
    rw [hl]
    exact hB e he

/-- An arbitrary update of IV `i`, sound when no recorded writer is
`i`. -/
theorem WOut.updIvC (ivId : Nat) (st : MState) (i : Nat)
    (g : IVRec → IVRec) (hne : ∀ e ∈ st.domWrites, e.2 ≠ i)
    (hW : WOk st) (hB : WBound st) : WOut ivId st (updIv st i g) := by
  have hl : (updIv st i g).ivs.length = st.ivs.length := by
    rw [updIv]
    exact updAt_length st.ivs i g
  refine ⟨?_, ?_, fun e he => Or.inl he, le_of_eq hl.symm⟩
  · intro e he
    rcases hW e he with h | ⟨hc2, hin2⟩
    · exact Or.inl h
    · refine Or.inr ⟨?_, ?_⟩
      · rw [getIv_updIv_ne st i e.2 g (hne e he)]
        exact hc2
      · rw [getIv_updIv_ne st i e.2 g (hne e he)]
        exact hin2
  · intro e he
    rw [hl]
    exact hB e he

/-- Appending a fresh IV. -/
theorem WOut.createIVStepW (ivId : Nat) (st : MState) (input : JsVal)
    (pos : Nat) (hW : WOk st) (hB : WBound st) :
    WOut ivId st (createIV st input pos).2 := by
  have hl : (createIV st input pos).2.ivs.length = st.ivs.length + 1 :=
    createIV_ivs_length st input pos
  refine ⟨?_, ?_, fun e he => Or.inl he, by omega⟩
  · intro e he
    rcases hW e he with h | ⟨hc2, hin2⟩
    · exact Or.inl h
    · have hg : getIv (createIV st input pos).2 e.2 = getIv st e.2 :=
        getIv_append_lt st _ e.2 (hB e he)
      exact Or.inr ⟨by rw [hg]; exact hc2, by rw [hg]; exact hin2⟩
  · intro e he
    rw [hl]
    exact Nat.lt_succ_of_lt (hB e he)

/-- `writeD` keeps the `c` and `input` fields of every IV. -/
theorem getIv_writeD_field (st : MState) (w t : Nat) (v : Option DomRef)
    (x : Nat) :
    (getIv (writeD st w t v) x).c = (getIv st x).c ∧
    (getIv (writeD st w t v) x).input = (getIv st x).input := by
  have h := getIv_updIv_field st t x (fun r => { r with d := v })
    (fun r => rfl) (fun r => rfl)
  have hg : getIv (writeD st w t v) x =
      getIv (updIv st t fun r => { r with d := v }) x := by
    simp [writeD, getIv]
  rw [hg]
  exact h

theorem writeD_ivs_length (st : MState) (w t : Nat) (v : Option DomRef) :
    (writeD st w t v).ivs.length = st.ivs.length := by
  simp [writeD, updIv, updAt_length]

/-- A self-write: the call assigns its own IV's `dom`. -/
theorem WOut.writeDSelfW (ivId : Nat) (st : MState) (v : Option DomRef)
    (hiv : ivId < st.ivs.length) (hW : WOk st) (hB : WBound st) :
    WOut ivId st (writeD st ivId ivId v) := by
  have hdw : (writeD st ivId ivId v).domWrites =
      st.domWrites ++ [(ivId, ivId)] := rfl
  have hl := writeD_ivs_length st ivId ivId v
  refine ⟨?_, ?_, ?_, le_of_eq hl.symm⟩
  · intro e he
    rw [hdw] at he
    rcases List.mem_append.1 he with he | he
    · rcases hW e he with h | ⟨hc2, hin2⟩
      · exact Or.inl h
      · refine Or.inr ⟨?_, ?_⟩
        · rw [(getIv_writeD_field st ivId ivId v e.2).1]
          exact hc2
        · rw [(getIv_writeD_field st ivId ivId v e.2).2]
          exact hin2
    · rw [List.mem_singleton.1 he]
      exact Or.inl rfl
  · intro e he
    rw [hdw] at he
    rw [hl]
    rcases List.mem_append.1 he with he | he
    · exact hB e he
    · rw [List.mem_singleton.1 he]
      exact hiv
  · intro e he
    rw [hdw] at he
    rcases List.mem_append.1 he with he | he
    · exact Or.inl he
    · rw [List.mem_singleton.1 he]
      exact Or.inr (Or.inl rfl)

/-- The component write: the call assigns its single child's `dom`. -/
theorem WOut.writeDCompW (ivId childId : Nat) (st : MState)
    (v : Option DomRef) (hiv : ivId < st.ivs.length)
    (hc : (getIv st ivId).c = IVChildren.one childId)
    (hin : isComponentInput (getIv st ivId).input = true)
    (hW : WOk st) (hB : WBound st) :
    WOut ivId st (writeD st ivId childId v) := by
  have hdw : (writeD st ivId childId v).domWrites =
      st.domWrites ++ [(childId, ivId)] := rfl
  have hl := writeD_ivs_length st ivId childId v
  refine ⟨?_, ?_, ?_, le_of_eq hl.symm⟩
  · intro e he
    rw [hdw] at he
    rcases List.mem_append.1 he with he | he
    · rcases hW e he with h | ⟨hc2, hin2⟩
      · exact Or.inl h
      · refine Or.inr ⟨?_, ?_⟩
        · rw [(getIv_writeD_field st ivId childId v e.2).1]
          exact hc2
        · rw [(getIv_writeD_field st ivId childId v e.2).2]
          exact hin2
    · rw [List.mem_singleton.1 he]
      refine Or.inr ⟨?_, ?_⟩
      · rw [(getIv_writeD_field st ivId childId v ivId).1]
        exact hc
      · rw [(getIv_writeD_field st ivId childId v ivId).2]
        exact hin
  · intro e he
    rw [hdw] at he
    rw [hl]
    rcases List.mem_append.1 he with he | he
    · exact hB e he
    · rw [List.mem_singleton.1 he]
      exact hiv
  · intro e he
    rw [hdw] at he
    rcases List.mem_append.1 he with he | he
    · exact Or.inl he
    · rw [List.mem_singleton.1 he]
      exact Or.inr (Or.inl rfl)

/-- The write-ownership contract of the recursive `mount` reference. -/
def WRecOK (rec : RecT) : Prop :=
  ∀ ivId input pd nn cx svg insb st d st', ivId < st.ivs.length →
    (getIv st ivId).input = input → WOk st → Wb ivId st →
    rec ivId input pd nn cx svg insb st = .ok (d, st') →
    WOut ivId st st'

/-- The write-ownership contract of the recursive `mountVNode`
reference. -/
def WVNRecOK (recVN : VNRecT) : Prop :=
  ∀ ivId v pd nn cx svg insb st d st', ivId < st.ivs.length →
    (getIv st ivId).input = .node v → WOk st → Wb ivId st →
    recVN ivId v pd nn cx svg insb st = .ok (d, st') →
    WOut ivId st st'


/-- `mountText` only self-writes. -/
theorem mountTextF_wout (ivId : Nat) (text : String) (pd : DomRef)
    (nn : Option DomRef) (insb : Bool) (st : MState)
    (hiv : ivId < st.ivs.length) (hW : WOk st) (hB : WBound st) :
    WOut ivId st (mountTextF ivId text pd nn insb st).2 := by
  cases insb with
  | false =>
    have h1 : WOut ivId st
        { st with doms := st.doms ++ [DomKind.textNode text] } :=
      WOut.ofEq ivId hW hB rfl rfl
    have h2 := WOut.updIvKeep ivId
      { st with doms := st.doms ++ [DomKind.textNode text] } ivId
      (fun r => { r with f := IVFlags.HasTextChildren })
      (fun r => rfl) (fun r => rfl) h1.wok h1.wbound
    have h12 := WOut.trans h1 h2
    simpa [mountTextF, createTextDom] using h12
  | true =>
    set st1 : MState :=
      { st with doms := st.doms ++ [DomKind.textNode text] } with hst1
    have h1 : WOut ivId st st1 := WOut.ofEq ivId hW hB rfl rfl
    have h2 := WOut.writeDSelfW ivId st1
      (some (.created st.doms.length)) hiv h1.wok h1.wbound
    have h12 := WOut.trans h1 h2
    set st2 := writeD st1 ivId ivId (some (.created st.doms.length))
      with hst2
    have h3 : WOut ivId st2
        (insertOrAppend st2 pd (.created st.doms.length) nn) :=
      WOut.ofEq ivId h12.wok h12.wbound rfl rfl
    have h13 := WOut.trans h12 h3
    set st3 := insertOrAppend st2 pd (.created st.doms.length) nn
      with hst3
    have h4 := WOut.updIvKeep ivId st3 ivId
      (fun r => { r with f := IVFlags.HasTextChildren })
      (fun r => rfl) (fun r => rfl) h13.wok h13.wbound
    have h14 := WOut.trans h13 h4
    simpa [mountTextF, createTextDom, st1, st2, st3] using h14

/-- `mountRef` touches neither the IV list nor the write log. -/
theorem mountRefF_w (dom : DomRef) (value : RefVal) (st st' : MState)
    (h : mountRefF dom value st = .ok st') :
    st'.ivs = st.ivs ∧ st'.domWrites = st.domWrites := by
  cases value with
  | callback r =>
    cases h
    exact ⟨rfl, rfl⟩
  | null =>
    cases h
    exact ⟨rfl, rfl⟩
  | hooks a b r => cases h
  | str a => cases h

/-- The class callback scheduler touches neither the IV list nor the
write log. -/
theorem mountClassCallbacks_w (env : Env) (ivId : Nat) (ref : RefVal)
    (c : CompSpec) (st st' : MState)
    (h : mountClassComponentCallbacksF env ivId ref c st = .ok st') :
    st'.ivs = st.ivs ∧ st'.domWrites = st.domWrites := by
  cases ref with
  | callback r =>
    rw [show mountClassComponentCallbacksF env ivId (.callback r) c st =
      (if c.hasDidMount || env.afterMount then
        .ok (pushLife (pushEffect st (.classRefCalled r ivId))
          (.classDidMount ivId c.hasDidMount env.afterMount))
      else .ok (pushEffect st (.classRefCalled r ivId))) from rfl] at h
    by_cases hdm : (c.hasDidMount || env.afterMount) = true
    · rw [if_pos hdm] at h
      cases h
      exact ⟨rfl, rfl⟩
    · rw [if_neg hdm] at h
      cases h
      exact ⟨rfl, rfl⟩
  | null =>
    rw [show mountClassComponentCallbacksF env ivId .null c st =
      (if c.hasDidMount || env.afterMount then
        .ok (pushLife st
          (.classDidMount ivId c.hasDidMount env.afterMount))
      else .ok st) from rfl] at h
    by_cases hdm : (c.hasDidMount || env.afterMount) = true
    · rw [if_pos hdm] at h
      cases h
      exact ⟨rfl, rfl⟩
    · rw [if_neg hdm] at h
      cases h
      exact ⟨rfl, rfl⟩
  | hooks a b r =>
    rw [show mountClassComponentCallbacksF env ivId (.hooks a b r) c st =
      .error .invalidRef from rfl] at h
    cases h
  | str a =>
    rw [show mountClassComponentCallbacksF env ivId (.str a) c st =
      .error .invalidRef from rfl] at h
    cases h

/-- The functional callback scheduler touches neither the IV list nor
the write log. -/
theorem mountFuncCallbacks_w (props : Option PropList) (ref : RefVal)
    (dom : Option DomRef) (st : MState) :
    (mountFunctionalComponentCallbacksF props ref dom st).ivs = st.ivs ∧
    (mountFunctionalComponentCallbacksF props ref dom st).domWrites =
      st.domWrites := by
  cases ref with
  | hooks will did r => cases will <;> cases did <;> exact ⟨rfl, rfl⟩
  | callback r => exact ⟨rfl, rfl⟩
  | null => exact ⟨rfl, rfl⟩
  | str a => exact ⟨rfl, rfl⟩

/-- The callback scheduling of `mountComponent` touches neither the IV
list nor the write log. -/
theorem mountComponentDone_w (env : Env) (isClass : Bool) (ivId : Nat)
    (ref : RefVal) (c : CompSpec) (props : Option PropList)
    (dom : Option DomRef) (st st' : MState)
    (h : mountComponentDone env isClass ivId ref c props dom st =
      .ok st') :
    st'.ivs = st.ivs ∧ st'.domWrites = st.domWrites := by
  rw [mountComponentDone] at h
  cases isClass with
  | false =>
    rw [if_neg Bool.false_ne_true] at h
    cases h
    exact mountFuncCallbacks_w props ref dom st
  | true =>
    rw [if_pos rfl] at h
    cases hcc : mountClassComponentCallbacksF env ivId ref c st with
    | error e => rw [hcc] at h; cases h
    | ok st1 =>
      rw [hcc] at h
      simp only [] at h
      obtain ⟨h1i, h1d⟩ := mountClassCallbacks_w env ivId ref c st st1 hcc
      cases hfd : env.findDOMNodeEnabled with
      | false =>
        rw [hfd, if_neg Bool.false_ne_true] at h
        cases h
        exact ⟨h1i, h1d⟩
      | true =>
        rw [hfd, if_pos rfl] at h
        cases h
        exact ⟨h1i, h1d⟩


/-- The array loop: all its writes come from the children it mounts
(writers are fresh IVs), so the write-ownership invariant and the
writer discipline are maintained. -/
theorem mountArrayRunF_wout (rec : RecT) (hrecW : WRecOK rec) :
    ∀ (xs : JsList) (ivId i : Nat) (pd : DomRef) (nn : Option DomRef)
      (cx : Nat) (svg fk fv : Bool) (st st' : MState),
      ivId < st.ivs.length → WOk st → Wb ivId st →
      mountArrayRunF rec ivId xs i pd nn cx svg fk fv st = .ok st' →
      WOk st' ∧ Wb ivId st' ∧ WNew ivId st st' ∧
        st.ivs.length ≤ st'.ivs.length := by
  refine JsList.indOn ?_ ?_
  · intro ivId i pd nn cx svg fk fv st st' hiv hW hWb h
    rw [show mountArrayRunF rec ivId .nil i pd nn cx svg fk fv st =
      .ok st from rfl] at h
    cases h
    exact ⟨hW, hWb, fun e he => Or.inl he, le_refl _⟩
  · intro child rest ih ivId i pd nn cx svg fk fv st st' hiv hW hWb h
    by_cases hinv : isInvalidVal child = true
    · rw [show mountArrayRunF rec ivId (.cons child rest) i pd nn cx svg
          fk fv st =
        mountArrayRunF rec ivId rest (i + 1) pd nn cx svg fk fv st by
          rw [mountArrayRunF, if_pos hinv]] at h
      exact ih ivId (i + 1) pd nn cx svg fk fv st st' hiv hW hWb h
    · rw [show mountArrayRunF rec ivId (.cons child rest) i pd nn cx svg
          fk fv st =
        (let st0 := if fv then updIv st ivId fun r =>
            { r with c := .many [], f := keyedFlagFor fk child }
          else st
         let p := createIV st0 child i
         let st2 := updIv p.2 ivId fun r =>
           { r with c := pushChild r.c p.1 }
         match rec p.1 child pd nn cx svg true st2 with
         | .error e => .error e
         | .ok (_, st3) =>
           mountArrayRunF rec ivId rest (i + 1) pd nn cx svg fk false st3)
        by rw [mountArrayRunF, if_neg hinv]] at h
      simp only [] at h
      set st0 := if fv then updIv st ivId fun r =>
          { r with c := .many [], f := keyedFlagFor fk child }
        else st with hst0
      have hst0len : st0.ivs.length = st.ivs.length := by
        cases fv <;> simp [hst0, updIv, updAt_length]
      have hst0dw : st0.domWrites = st.domWrites := by
        cases fv <;> simp [hst0, updIv]
      have w0 : WOut ivId st st0 := by
        cases hfv : fv with
        | true =>
          rw [hst0, hfv, if_pos rfl]
          exact WOut.updIvC ivId st ivId _ (fun e he => (hWb e he).2) hW
            hWb.bound
        | false =>
          rw [hst0, hfv, if_neg Bool.false_ne_true]
          exact WOut.reflW ivId st hW hWb.bound
      set childId := st0.ivs.length with hcid
      have hcidlen : childId = st.ivs.length := hst0len
      set st1 := (createIV st0 child i).2 with hst1
      set st2 := updIv st1 ivId fun r =>
        { r with c := pushChild r.c childId } with hst2
      have hchE : (createIV st0 child i).1 = childId := rfl
      rw [hchE] at h
      have hst1dw : st1.domWrites = st.domWrites := hst0dw
      have hst2dw : st2.domWrites = st.domWrites := hst1dw
      have hst2len : st2.ivs.length = st.ivs.length + 1 := by
        rw [hst2, updIv, updAt_length, hst1, createIV_ivs_length, ← hcid,
          hst0len]
      have w1 : WOut ivId st st1 := WOut.trans w0
        (WOut.createIVStepW ivId st0 child i w0.wok w0.wbound)
      have w2 : WOut ivId st st2 := WOut.trans w1
        (WOut.updIvC ivId st1 ivId _
          (fun e he => (hWb e (hst1dw ▸ he)).2) w1.wok w1.wbound)
      have hne_cid : childId ≠ ivId := by omega
      have hinpC : (getIv st2 childId).input = child := by
        rw [hst2, getIv_updIv_ne st1 ivId childId _ hne_cid, hst1, hcid,
          getIv_createIV_self]
      have hWbC : Wb childId st2 := by
        intro e he
        rw [hst2dw] at he
        have h1 := (hWb e he).1
        constructor
        · omega
        · omega
      have hivC : childId < st2.ivs.length := by omega
      cases hr : rec childId child pd nn cx svg true st2 with
      | error e => rw [hr] at h; cases h
      | ok p =>
        obtain ⟨d3, st3⟩ := p
        rw [hr] at h
        simp only [] at h
        have w3c := hrecW childId child pd nn cx svg true st2 d3 st3 hivC
          hinpC w2.wok hWbC hr
        have w3 : WOut ivId st st3 := WOut.transChild w2 w3c (by omega)
        have hWb3 : Wb ivId st3 := by
          intro e he
          rcases w3c.wnew e he with he1 | he1 | he1
          · rw [hst2dw] at he1
            exact ⟨lt_of_lt_of_le (hWb e he1).1 w3.len, (hWb e he1).2⟩
          · refine ⟨?_, ?_⟩
            · rw [he1]
              exact lt_of_lt_of_le hivC w3c.len
            · rw [he1]
              exact hne_cid
          · have h2 := w3c.wbound e he
            refine ⟨h2, ?_⟩
            omega
        have hiv3 : ivId < st3.ivs.length := lt_of_lt_of_le hiv w3.len
        obtain ⟨hWr, hWbr, hNr, hLr⟩ := ih ivId (i + 1) pd nn cx svg fk
          false st3 st' hiv3 w3.wok hWb3 h
        refine ⟨hWr, hWbr, ?_, le_trans w3.len hLr⟩
        intro e he
        rcases hNr e he with he1 | he1 | he1
        · exact w3.wnew e he1
        · exact Or.inr (Or.inl he1)
        · exact Or.inr (Or.inr (le_trans w3.len he1))

/-- `mountArrayChildren` maintains the write-ownership invariant; its
own writes (the virtual borrow) are self-writes. -/
theorem mountArrayChildrenF_wout (rec : RecT) (hrecW : WRecOK rec)
    (ivId : Nat) (children : JsVal) (pd : DomRef) (nn : Option DomRef)
    (cx : Nat) (svg fk isV : Bool) (st st' : MState)
    (hiv : ivId < st.ivs.length) (hW : WOk st) (hWb : Wb ivId st)
    (h : mountArrayChildrenF rec ivId children pd nn cx svg fk isV st =
      .ok st') :
    WOut ivId st st' := by
  rw [mountArrayChildrenF] at h
  simp only [] at h
  set stI := updIv st ivId fun r =>
    { r with c := IVChildren.null, f := IVFlags.HasInvalidChildren }
    with hstI
  have wI : WOut ivId st stI :=
    WOut.updIvC ivId st ivId _ (fun e he => (hWb e he).2) hW hWb.bound
  have hIdw : stI.domWrites = st.domWrites := rfl
  have hIlen : stI.ivs.length = st.ivs.length := by
    rw [hstI, updIv]
    exact updAt_length st.ivs ivId _
  have hWbI : Wb ivId stI := Wb.mono hWb hIdw (le_of_eq hIlen.symm)
  have hivI : ivId < stI.ivs.length := by omega
  cases hal : arrayLike children with
  | error e => rw [hal] at h; cases h
  | ok xs =>
    rw [hal] at h
    simp only [] at h
    cases hrun : mountArrayRunF rec ivId xs 0 pd nn cx svg fk true stI
        with
    | error e => rw [hrun] at h; cases h
    | ok stR =>
      rw [hrun] at h
      simp only [] at h
      obtain ⟨hWR, hWbR, hNR, hLR⟩ := mountArrayRunF_wout rec hrecW xs
        ivId 0 pd nn cx svg fk true stI stR hivI wI.wok hWbI hrun
      have wR : WOut ivId st stR :=
        WOut.trans wI ⟨hWR, hWbR.bound, hNR, hLR⟩
      have hivR : ivId < stR.ivs.length := lt_of_lt_of_le hivI hLR
      cases isV with
      | false =>
        rw [if_neg Bool.false_ne_true] at h
        cases h
        exact WOut.trans wR (WOut.updIvKeep ivId stR ivId _
          (fun r => rfl) (fun r => rfl) wR.wok wR.wbound)
      | true =>
        rw [if_pos rfl] at h
        set stV := updIv stR ivId fun r =>
          { r with t := IVTypes.IsVirtualArray } with hstV
        have wV : WOut ivId st stV := WOut.trans wR
          (WOut.updIvKeep ivId stR ivId _ (fun r => rfl) (fun r => rfl)
            wR.wok wR.wbound)
        have hivV : ivId < stV.ivs.length := by
          rw [hstV, updIv]
          rw [updAt_length]
          exact hivR
        split at h
        · split at h
          · rename_i ids c0 tail heq
            injection h with h1
            subst h1
            exact WOut.trans wV (WOut.writeDSelfW ivId stV _ hivV wV.wok
              wV.wbound)
          · exact absurd h (by simp)
        · injection h with h1
          subst h1
          exact WOut.trans wV (WOut.writeDSelfW ivId stV none hivV wV.wok
            wV.wbound)


/-- The children-classification step of `mountElement` maintains the
write-ownership invariant (it performs no write itself). -/
theorem mountElementKids_wout (rec : RecT) (recVN : VNRecT)
    (hrecW : WRecOK rec) (hrecVNW : WVNRecOK recVN) (ivId : Nat)
    (children : JsVal) (dom : DomRef) (cx : Nat) (csvg : Bool)
    (st st' : MState) (hiv : ivId < st.ivs.length) (hW : WOk st)
    (hWb : Wb ivId st)
    (h : mountElementKids rec recVN ivId children dom cx csvg st =
      .ok st') :
    WOut ivId st st' := by
  cases children with
  | null =>
    rw [show mountElementKids rec recVN ivId .null dom cx csvg st =
      .ok (updIv st ivId fun r =>
        { r with f := IVFlags.HasInvalidChildren }) from rfl] at h
    cases h
    exact WOut.updIvKeep ivId st ivId _ (fun r => rfl) (fun r => rfl) hW
      hWb.bound
  | undef =>
    rw [show mountElementKids rec recVN ivId .undef dom cx csvg st =
      .ok (updIv st ivId fun r =>
        { r with f := IVFlags.HasInvalidChildren }) from rfl] at h
    cases h
    exact WOut.updIvKeep ivId st ivId _ (fun r => rfl) (fun r => rfl) hW
      hWb.bound
  | bool b =>
    rw [show mountElementKids rec recVN ivId (.bool b) dom cx csvg st =
      .ok (updIv st ivId fun r =>
        { r with f := IVFlags.HasInvalidChildren }) from rfl] at h
    cases h
    exact WOut.updIvKeep ivId st ivId _ (fun r => rfl) (fun r => rfl) hW
      hWb.bound
  | text s =>
    rw [show mountElementKids rec recVN ivId (.text s) dom cx csvg st =
      .ok (updIv (pushEffect st (.setTextContent dom s)) ivId fun r =>
        { r with f := IVFlags.HasTextChildren }) from rfl] at h
    cases h
    have w1 : WOut ivId st (pushEffect st (.setTextContent dom s)) :=
      WOut.ofEq ivId hW hWb.bound rfl rfl
    exact WOut.trans w1 (WOut.updIvKeep ivId _ ivId _ (fun r => rfl)
      (fun r => rfl) w1.wok w1.wbound)
  | arr xs =>
    rw [show mountElementKids rec recVN ivId (.arr xs) dom cx csvg st =
      mountArrayChildrenF rec ivId (.arr xs) dom none cx csvg false false
        st from rfl] at h
    exact mountArrayChildrenF_wout rec hrecW ivId (.arr xs) dom none cx
      csvg false false st st' hiv hW hWb h
  | bogus =>
    rw [show mountElementKids rec recVN ivId .bogus dom cx csvg st =
      mountArrayChildrenF rec ivId .bogus dom none cx csvg false false
        st from rfl] at h
    exact mountArrayChildrenF_wout rec hrecW ivId .bogus dom none cx
      csvg false false st st' hiv hW hWb h
  | node cv =>
    have hknode : mountElementKids rec recVN ivId (.node cv) dom cx csvg
        st =
      if isVNodeB (.node cv) = true then
        (let p := createIV st (.node cv) 0
         let st2 := updIv p.2 ivId fun r =>
           { r with
               c := IVChildren.one p.1, f := IVFlags.HasBasicChildren }
         match recVN p.1 cv dom none cx csvg true st2 with
         | .error e => .error e
         | .ok (_, st3) => .ok st3)
      else
        mountArrayChildrenF rec ivId (.node cv) dom none cx csvg false
          false st := rfl
    rw [hknode] at h
    cases hb : isVNodeB (.node cv) with
    | false =>
      rw [if_neg (by rw [hb]; exact Bool.false_ne_true)] at h
      exact mountArrayChildrenF_wout rec hrecW ivId (.node cv) dom none
        cx csvg false false st st' hiv hW hWb h
    | true =>
      rw [if_pos hb] at h
      simp only [] at h
      set childId := (createIV st (.node cv) 0).1 with hchild
      set st1 := (createIV st (.node cv) 0).2 with hst1
      set st2 := updIv st1 ivId fun r =>
        { r with
            c := IVChildren.one childId, f := IVFlags.HasBasicChildren }
        with hst2
      have hchId : childId = st.ivs.length := rfl
      have hdw1 : st1.domWrites = st.domWrites := rfl
      have hdw2 : st2.domWrites = st.domWrites := rfl
      have hlen2 : st2.ivs.length = st.ivs.length + 1 := by
        rw [hst2, updIv, updAt_length, hst1, createIV_ivs_length]
      have w1 : WOut ivId st st1 :=
        WOut.createIVStepW ivId st (.node cv) 0 hW hWb.bound
      have w2 : WOut ivId st st2 := WOut.trans w1
        (WOut.updIvC ivId st1 ivId _
          (fun e he => (hWb e (hdw1 ▸ he)).2) w1.wok w1.wbound)
      have hivC : childId < st2.ivs.length := by omega
      have hinpC : (getIv st2 childId).input = .node cv := by
        rw [hst2, getIv_updIv_ne st1 ivId childId _ (by omega), hst1,
          hchId, getIv_createIV_self]
      have hWbC : Wb childId st2 := by
        intro e he
        rw [hdw2] at he
        have h1 := (hWb e he).1
        exact ⟨by omega, by omega⟩
      cases hr : recVN childId cv dom none cx csvg true st2 with
      | error e => rw [hr] at h; cases h
      | ok p =>
        obtain ⟨u, st3⟩ := p
        rw [hr] at h
        simp only [] at h
        cases h
        have wC := hrecVNW childId cv dom none cx csvg true st2 u st'
          hivC hinpC w2.wok hWbC hr
        exact WOut.transChild w2 wC (le_of_eq hchId.symm)

/-- The finishing step of `mountElement` only self-writes. -/
theorem mountElementFinish_wout (env : Env) (ivId : Nat) (flags : Nat)
    (props : Option PropList) (className : Option String) (ref : RefVal)
    (dom : DomRef) (pd : DomRef) (nn : Option DomRef) (svg insb : Bool)
    (st : MState) (d : Option DomRef) (st' : MState)
    (hiv : ivId < st.ivs.length) (hW : WOk st) (hB : WBound st)
    (h : mountElementFinish env ivId flags props className ref dom pd nn
      svg insb st = .ok (d, st')) :
    WOut ivId st st' := by
  rw [show mountElementFinish env ivId flags props className ref dom pd nn
      svg insb st =
    (match
      (match ref with
       | RefVal.null => Except.ok (mountElementClass className dom svg
           (mountElementProps env flags props dom svg st))
       | r => mountRefF dom r (mountElementClass className dom svg
           (mountElementProps env flags props dom svg st))) with
     | .error e => .error e
     | .ok st4 =>
       .ok (some dom,
         if insb then
           insertOrAppend (writeD st4 ivId ivId (some dom)) pd dom nn
         else st4)) from rfl] at h
  set stC := mountElementClass className dom svg
    (mountElementProps env flags props dom svg st) with hstC
  obtain ⟨E, hE⟩ := mountElementClassProps_state env flags props className
    dom svg st
  have wC : WOut ivId st stC := by
    rw [hstC, hE]
    exact WOut.ofEq ivId hW hB rfl rfl
  cases href : (match ref with
     | RefVal.null => Except.ok stC
     | r => mountRefF dom r stC) with
  | error e => rw [href] at h; cases h
  | ok stR =>
    rw [href] at h
    simp only [] at h
    have hR : stR.ivs = stC.ivs ∧ stR.domWrites = stC.domWrites := by
      cases ref with
      | null =>
        cases href
        exact ⟨rfl, rfl⟩
      | callback r => exact mountRefF_w dom _ stC stR href
      | hooks a b r => exact mountRefF_w dom _ stC stR href
      | str a => exact mountRefF_w dom _ stC stR href
    have wR : WOut ivId st stR := WOut.trans wC
      (WOut.ofEq ivId wC.wok wC.wbound hR.1 hR.2)
    cases insb with
    | false =>
      rw [if_neg Bool.false_ne_true] at h
      cases h
      exact wR
    | true =>
      rw [if_pos rfl] at h
      cases h
      have hivR : ivId < stR.ivs.length := by
        have : stR.ivs.length = st.ivs.length := by
          rw [hR.1, hstC, hE]
        omega
      have wW := WOut.trans wR
        (WOut.writeDSelfW ivId stR (some dom) hivR wR.wok wR.wbound)
      exact WOut.trans wW (WOut.ofEq ivId wW.wok wW.wbound rfl rfl)

/-- `mountElement` maintains the write-ownership invariant. -/
theorem mountElementF_wout (rec : RecT) (recVN : VNRecT) (env : Env)
    (hrecW : WRecOK rec) (hrecVNW : WVNRecOK recVN) (ivId : Nat)
    (v : VNode) (pd : DomRef) (nn : Option DomRef) (cx : Nat)
    (svg insb : Bool) (st : MState) (d : Option DomRef) (st' : MState)
    (hiv : ivId < st.ivs.length) (hW : WOk st) (hWb : Wb ivId st)
    (h : mountElementF rec recVN env ivId v pd nn cx svg insb st =
      .ok (d, st')) :
    WOut ivId st st' := by
  obtain ⟨flags, ty, props, children, key, ref, cls⟩ := v
  cases ty with
  | container t => cases h
  | comp c => cases h
  | tag tagName =>
    rw [show mountElementF rec recVN env ivId
        (.mk flags (.tag tagName) props children key ref cls) pd nn cx svg
        insb st =
      (let sv := svg || (flags &&& VNodeFlags.SvgElement) > 0
       let dm : DomRef := .created st.doms.length
       let stD : MState :=
         { st with doms := st.doms ++ [.element tagName sv] }
       match
         mountElementKids rec recVN ivId children dm cx
           (sv && tagName ≠ "foreignObject") stD with
       | .error e => .error e
       | .ok st2 =>
         mountElementFinish env ivId flags props cls ref dm pd nn sv insb
           st2) from rfl] at h
    simp only [] at h
    set sv := svg || decide ((flags &&& VNodeFlags.SvgElement) > 0)
      with hsv
    set dm : DomRef := .created st.doms.length with hdm
    set stD : MState :=
      { st with doms := st.doms ++ [.element tagName sv] } with hstD
    have wD : WOut ivId st stD := WOut.ofEq ivId hW hWb.bound rfl rfl
    have hWbD : Wb ivId stD := Wb.mono hWb rfl (le_refl _)
    cases hk : mountElementKids rec recVN ivId children dm cx
        (sv && tagName ≠ "foreignObject") stD with
    | error e => rw [hk] at h; cases h
    | ok st2 =>
      rw [hk] at h
      simp only [] at h
      have wK := mountElementKids_wout rec recVN hrecW hrecVNW ivId
        children dm cx (sv && tagName ≠ "foreignObject") stD st2 hiv
        wD.wok hWbD hk
      have wDK : WOut ivId st st2 := WOut.trans wD wK
      have hiv2 : ivId < st2.ivs.length := lt_of_lt_of_le hiv wDK.len
      exact WOut.trans wDK (mountElementFinish_wout env ivId flags props
        cls ref dm pd nn sv insb st2 d st' hiv2 wDK.wok wDK.wbound h)

/-- The render-output step of `mountComponent`: the one cross-IV write,
of the single child the call created, with the component input. -/
theorem mountComponentKid_wout (rec : RecT) (hrecSE : RecOK rec)
    (hrecW : WRecOK rec) (ivId : Nat) (renderOutput : JsVal)
    (pd : DomRef) (nn : Option DomRef) (cx : Nat) (svg : Bool)
    (st : MState) (d : Option DomRef) (st' : MState)
    (hiv : ivId < st.ivs.length)
    (hin : isComponentInput (getIv st ivId).input = true)
    (hW : WOk st) (hWb : Wb ivId st)
    (h : mountComponentKid rec ivId renderOutput pd nn cx svg st =
      .ok (d, st')) :
    WOut ivId st st' := by
  rw [mountComponentKid] at h
  by_cases hval : isInvalidVal renderOutput = true
  · rw [if_pos hval] at h
    cases h
    exact WOut.updIvKeep ivId st ivId _ (fun r => rfl) (fun r => rfl) hW
      hWb.bound
  · rw [if_neg hval] at h
    simp only [] at h
    set stA := updIv st ivId fun r =>
      { r with f := IVFlags.HasBasicChildren } with hstA
    set childId := (createIV stA renderOutput 0).1 with hchild
    set stB := (createIV stA renderOutput 0).2 with hstB
    set stC := updIv stB ivId fun r =>
      { r with c := IVChildren.one childId } with hstC
    set stD := updIv stC childId fun r => { r with b := some ivId }
      with hstD
    have hlenA : stA.ivs.length = st.ivs.length := by
      rw [hstA, updIv]
      exact updAt_length st.ivs ivId _
    have hchId : childId = st.ivs.length := by
      rw [hchild, createIV, hlenA]
    have hlenB : stB.ivs.length = st.ivs.length + 1 := by
      rw [hstB, createIV_ivs_length, hlenA]
    have hlenC : stC.ivs.length = st.ivs.length + 1 := by
      rw [hstC, updIv, updAt_length, hlenB]
    have hlenD : stD.ivs.length = st.ivs.length + 1 := by
      rw [hstD, updIv, updAt_length, hlenC]
    have hdwB : stB.domWrites = st.domWrites := rfl
    have hdwD : stD.domWrites = st.domWrites := rfl
    have wA : WOut ivId st stA := WOut.updIvKeep ivId st ivId _
      (fun r => rfl) (fun r => rfl) hW hWb.bound
    have wB : WOut ivId st stB := WOut.trans wA
      (WOut.createIVStepW ivId stA renderOutput 0 wA.wok wA.wbound)
    have wC : WOut ivId st stC := WOut.trans wB
      (WOut.updIvC ivId stB ivId _
        (fun e he => (hWb e (hdwB ▸ he)).2) wB.wok wB.wbound)
    have wD : WOut ivId st stD := WOut.trans wC
      (WOut.updIvKeep ivId stC childId _ (fun r => rfl) (fun r => rfl)
        wC.wok wC.wbound)
    have hnecid : childId ≠ ivId := by omega
    have hivC : childId < stD.ivs.length := by omega
    have hltC : childId < stC.ivs.length := by omega
    have hltB : ivId < stB.ivs.length := by omega
    have hinpC : (getIv stD childId).input = renderOutput := by
      rw [hstD, getIv_updIv_self stC childId _ hltC]
      show (getIv stC childId).input = renderOutput
      rw [hstC, getIv_updIv_ne stB ivId childId _ hnecid, hstB, hchId,
        show (createIV stA renderOutput 0).2 =
          (createIV stA renderOutput 0).2 from rfl]
      rw [show st.ivs.length = stA.ivs.length from hlenA.symm,
        getIv_createIV_self]
    have hWbC : Wb childId stD := by
      intro e he
      rw [hdwD] at he
      have h1 := (hWb e he).1
      exact ⟨by omega, by omega⟩
    cases hr : rec childId renderOutput pd nn cx svg false stD with
    | error e => rw [hr] at h; cases h
    | ok p =>
      obtain ⟨d4, st4⟩ := p
      rw [hr] at h
      have wKc := hrecW childId renderOutput pd nn cx svg false stD d4
        st4 hivC hinpC wD.wok hWbC hr
      have w4 : WOut ivId st st4 := WOut.transChild wD wKc
        (le_of_eq hchId.symm)
      have hse := hrecSE childId renderOutput pd nn cx svg false stD d4
        st4 hivC hr
      have hframe : getIv st4 ivId = getIv stD ivId :=
        StExt.getIv_frame hse ivId (by omega) (by omega)
      have hgB : getIv stB ivId = getIv stA ivId := by
        rw [hstB]
        exact getIv_append_lt stA _ ivId (by omega)
      have hC4 : getIv stD ivId = getIv stC ivId := by
        rw [hstD]
        exact getIv_updIv_ne stC childId ivId _ (by omega)
      have hc4 : (getIv st4 ivId).c = IVChildren.one childId := by
        rw [hframe, hC4, hstC, getIv_updIv_self stB ivId _ hltB]
      have hin4 : isComponentInput (getIv st4 ivId).input = true := by
        rw [hframe, hC4, hstC, getIv_updIv_self stB ivId _ hltB]
        show isComponentInput (getIv stB ivId).input = true
        rw [hgB, hstA, getIv_updIv_self st ivId _ hiv]
        exact hin
      have hivlen4 : ivId < st4.ivs.length := lt_of_lt_of_le hiv w4.len
      have wW := WOut.trans w4 (WOut.writeDCompW ivId childId st4 d4
        hivlen4 hc4 hin4 w4.wok w4.wbound)
      injection h with h1
      have hst : writeD st4 ivId childId d4 = st' := congrArg Prod.snd h1
      exact hst ▸ wW

/-- `mountComponent` maintains the write-ownership invariant. -/
theorem mountComponentF_wout (rec : RecT) (env : Env) (hrecSE : RecOK rec)
    (hrecW : WRecOK rec) (ivId : Nat) (v : VNode) (pd : DomRef)
    (nn : Option DomRef) (cx : Nat) (svg insb : Bool) (st : MState)
    (d : Option DomRef) (st' : MState) (hiv : ivId < st.ivs.length)
    (hin : isComponentInput (getIv st ivId).input = true)
    (hW : WOk st) (hWb : Wb ivId st)
    (h : mountComponentF rec env ivId v pd nn cx svg insb st =
      .ok (d, st')) :
    WOut ivId st st' := by
  obtain ⟨flags, ty, props, children, key, ref, cls⟩ := v
  cases ty with
  | container t => cases h
  | tag s => cases h
  | comp c0 =>
    rw [show mountComponentF rec env ivId
        (.mk flags (.comp c0) props children key ref cls) pd nn cx svg
        insb st =
      (let isClass := (flags &&& VNodeFlags.ComponentClass) > 0
       let cx2 := if isClass then c0.cx.getD cx else cx
       let st0 := if isClass && env.afterRender then
           pushEffect st (.afterRender ivId)
         else st
       match mountComponentKid rec ivId c0.renderOut pd nn cx2 svg st0
           with
       | .error e => .error e
       | .ok (dom, st1) =>
         match mountComponentDone env isClass ivId ref c0 props dom st1
             with
         | .error e => .error e
         | .ok st2 =>
           match dom with
           | some d0 =>
             if insb then
               .ok (dom,
                 insertOrAppend (writeD st2 ivId ivId dom) pd d0 nn)
             else
               .ok (dom, st2)
           | none => .ok (dom, st2)) from rfl] at h
    simp only [] at h
    have hW0 : ∀ b : Bool, WOut ivId st
        (if b = true then pushEffect st (.afterRender ivId) else st) := by
      intro b
      cases b with
      | false =>
        rw [if_neg Bool.false_ne_true]
        exact WOut.reflW ivId st hW hWb.bound
      | true =>
        rw [if_pos rfl]
        exact WOut.ofEq ivId hW hWb.bound rfl rfl
    have hWb0 : ∀ b : Bool, Wb ivId
        (if b = true then pushEffect st (.afterRender ivId) else st) := by
      intro b
      cases b with
      | false => rw [if_neg Bool.false_ne_true]; exact hWb
      | true =>
        rw [if_pos rfl]
        exact Wb.mono hWb rfl (le_refl _)
    have hinp0 : ∀ b : Bool, (getIv
        (if b = true then pushEffect st (.afterRender ivId) else st)
        ivId).input = (getIv st ivId).input := by
      intro b
      cases b with
      | false => rw [if_neg Bool.false_ne_true]
      | true => rw [if_pos rfl]; rfl
    have hiv0 : ∀ b : Bool, ivId <
        (if b = true then pushEffect st (.afterRender ivId)
          else st).ivs.length := by
      intro b
      cases b with
      | false => rw [if_neg Bool.false_ne_true]; exact hiv
      | true => rw [if_pos rfl]; exact hiv
    split at h
    · exact absurd h (by simp)
    · rename_i dom st1 hk
      have wK := mountComponentKid_wout rec hrecSE hrecW ivId c0.renderOut
        pd nn _ svg _ dom st1 (hiv0 _)
        (by rw [hinp0 _]; exact hin) (hW0 _).wok (hWb0 _) hk
      have w1 : WOut ivId st st1 := WOut.trans (hW0 _) wK
      split at h
      · exact absurd h (by simp)
      · rename_i st2 hdn
        obtain ⟨h2i, h2d⟩ := mountComponentDone_w env _ ivId ref c0 props
          dom st1 st2 hdn
        have w2 : WOut ivId st st2 := WOut.trans w1
          (WOut.ofEq ivId w1.wok w1.wbound h2i h2d)
        cases dom with
        | none =>
          simp only [] at h
          cases h
          exact w2
        | some d0 =>
          simp only [] at h
          cases insb with
          | false =>
            rw [if_neg Bool.false_ne_true] at h
            cases h
            exact w2
          | true =>
            rw [if_pos rfl] at h
            cases h
            have hiv2 : ivId < st2.ivs.length := lt_of_lt_of_le hiv w2.len
            have wW := WOut.trans w2 (WOut.writeDSelfW ivId st2 (some d0)
              hiv2 w2.wok w2.wbound)
            exact WOut.trans wW (WOut.ofEq ivId wW.wok wW.wbound rfl rfl)

/-- `mountPortal` maintains the write-ownership invariant; its own write
(the placeholder) is a self-write. -/
theorem mountPortalF_wout (rec : RecT) (hrecW : WRecOK rec) (ivId : Nat)
    (v : VNode) (pd : DomRef) (nn : Option DomRef) (cx : Nat)
    (svg insb : Bool) (st : MState) (d : Option DomRef) (st' : MState)
    (hiv : ivId < st.ivs.length) (hW : WOk st) (hWb : Wb ivId st)
    (h : mountPortalF rec ivId v pd nn cx svg insb st = .ok (d, st')) :
    WOut ivId st st' := by
  obtain ⟨flags, ty, props, children, key, ref, cls⟩ := v
  cases ty with
  | tag s => cases h
  | comp c => cases h
  | container t =>
    rw [show mountPortalF rec ivId
        (.mk flags (.container t) props children key ref cls) pd nn cx svg
        insb st =
      (let stB := updIv (createIV st children 0).2 ivId fun r =>
         { r with c := IVChildren.one (createIV st children 0).1 }
       match rec (createIV st children 0).1 children (.external t) none cx
           svg true stB with
       | .error e => .error e
       | .ok (_, stC) =>
         .ok (some (mountTextF ivId "" pd nn insb stC).1,
           (mountTextF ivId "" pd nn insb stC).2)) from rfl] at h
    simp only [] at h
    set stB := updIv (createIV st children 0).2 ivId (fun r =>
      { r with c := IVChildren.one (createIV st children 0).1 }) with hstB
    have hchild : (createIV st children 0).1 = st.ivs.length := rfl
    have hdw1 : (createIV st children 0).2.domWrites = st.domWrites := rfl
    have hdwB : stB.domWrites = st.domWrites := rfl
    have w1 : WOut ivId st (createIV st children 0).2 :=
      WOut.createIVStepW ivId st children 0 hW hWb.bound
    have wB : WOut ivId st stB := WOut.trans w1
      (WOut.updIvC ivId _ ivId _
        (fun e he => (hWb e (hdw1 ▸ he)).2) w1.wok w1.wbound)
    have hlenB : stB.ivs.length = st.ivs.length + 1 := by
      rw [hstB, updIv, updAt_length, createIV_ivs_length]
    split at h
    · exact Except.noConfusion h
    · rename_i u stC hr
      have hivC : (createIV st children 0).1 < stB.ivs.length := by
        rw [hchild, hlenB]
        omega
      have hinpC : (getIv stB (createIV st children 0).1).input =
          children := by
        rw [hstB, getIv_updIv_ne _ ivId _ _ (by rw [hchild]; omega),
          hchild, getIv_createIV_self]
      have hWbC : Wb (createIV st children 0).1 stB := by
        intro e he
        rw [hdwB] at he
        have h1 := (hWb e he).1
        have h2 : (createIV st children 0).1 = st.ivs.length := hchild
        exact ⟨by omega, by omega⟩
      have wC := hrecW (createIV st children 0).1 children (.external t)
        none cx svg true stB u stC hivC hinpC wB.wok hWbC hr
      have wBC : WOut ivId st stC := WOut.transChild wB wC
        (le_of_eq hchild.symm)
      injection h with h1
      have hst : (mountTextF ivId "" pd nn insb stC).2 = st' :=
        congrArg Prod.snd h1
      have hivCC : ivId < stC.ivs.length := lt_of_lt_of_le hiv wBC.len
      have wT := mountTextF_wout ivId "" pd nn insb stC hivCC wBC.wok
        wBC.wbound
      exact hst ▸ WOut.trans wBC wT


/-- The `mountVNode` dispatcher maintains the write-ownership
invariant. -/
theorem mountVNodeF_wout (rec : RecT) (recVN : VNRecT) (env : Env)
    (hrecSE : RecOK rec) (hrecW : WRecOK rec) (hrecVNW : WVNRecOK recVN)
    (ivId : Nat) (v : VNode) (pd : DomRef) (nn : Option DomRef) (cx : Nat)
    (svg insb : Bool) (st : MState) (d : Option DomRef) (st' : MState)
    (hiv : ivId < st.ivs.length)
    (hinp : (getIv st ivId).input = .node v)
    (hW : WOk st) (hWb : Wb ivId st)
    (h : mountVNodeF rec recVN env ivId v pd nn cx svg insb st =
      .ok (d, st')) :
    WOut ivId st st' := by
  rw [mountVNodeF] at h
  by_cases hE : (v.flags &&& VNodeFlags.Element) > 0
  · rw [if_pos hE] at h
    exact mountElementF_wout rec recVN env hrecW hrecVNW ivId v pd nn cx
      svg insb st d st' hiv hW hWb h
  · rw [if_neg hE] at h
    by_cases hC : (v.flags &&& VNodeFlags.Component) > 0
    · rw [if_pos hC] at h
      have hin : isComponentInput (getIv st ivId).input = true := by
        rw [hinp]
        exact decide_eq_true hC
      exact mountComponentF_wout rec env hrecSE hrecW ivId v pd nn cx svg
        insb st d st' hiv hin hW hWb h
    · rw [if_neg hC] at h
      by_cases hP : (v.flags &&& VNodeFlags.Portal) > 0
      · rw [if_pos hP] at h
        exact mountPortalF_wout rec hrecW ivId v pd nn cx false insb st d
          st' hiv hW hWb h
      · rw [if_neg hP] at h
        cases h
        exact WOut.reflW ivId st hW hWb.bound

/-- The array/fallthrough tail of `mount` maintains the write-ownership
invariant. -/
theorem mountArrayPathF_wout (rec : RecT) (env : Env) (hrecW : WRecOK rec)
    (ivId : Nat) (input : JsVal) (pd : DomRef) (nn : Option DomRef)
    (cx : Nat) (svg : Bool) (st : MState) (d : Option DomRef)
    (st' : MState) (hiv : ivId < st.ivs.length) (hW : WOk st)
    (hWb : Wb ivId st)
    (h : mountArrayPathF rec env ivId input pd nn cx svg st =
      .ok (d, st')) :
    WOut ivId st st' := by
  rw [mountArrayPathF] at h
  by_cases hc : (!env.production && !isArrayB input) = true
  · rw [if_pos hc] at h
    cases h
  · rw [if_neg hc] at h
    cases hac : mountArrayChildrenF rec ivId input pd nn cx svg false true
        st with
    | error e => rw [hac] at h; cases h
    | ok st1 =>
      rw [hac] at h
      cases h
      exact mountArrayChildrenF_wout rec hrecW ivId input pd nn cx svg
        false true st st' hiv hW hWb hac

/-- The `mount` dispatcher maintains the write-ownership invariant. -/
theorem mountF_wout (rec : RecT) (recVN : VNRecT) (env : Env)
    (hrecSE : RecOK rec) (hrecW : WRecOK rec) (hrecVNW : WVNRecOK recVN)
    (ivId : Nat) (input : JsVal) (pd : DomRef) (nn : Option DomRef)
    (cx : Nat) (svg insb : Bool) (st : MState) (d : Option DomRef)
    (st' : MState) (hiv : ivId < st.ivs.length)
    (hinp : (getIv st ivId).input = input)
    (hW : WOk st) (hWb : Wb ivId st)
    (h : mountF rec recVN env ivId input pd nn cx svg insb st =
      .ok (d, st')) :
    WOut ivId st st' := by
  cases input with
  | text s =>
    rw [show mountF rec recVN env ivId (.text s) pd nn cx svg insb st =
      .ok (some (mountTextF ivId s pd nn insb st).1,
        (mountTextF ivId s pd nn insb st).2) from by
        rw [mountF]] at h
    cases h
    exact mountTextF_wout ivId s pd nn insb st hiv hW hWb.bound
  | node v =>
    rw [show mountF rec recVN env ivId (.node v) pd nn cx svg insb st =
      (if v.flags > 0 then
        mountVNodeF rec recVN env ivId v pd nn cx svg insb st
      else
        mountArrayPathF rec env ivId (.node v) pd nn cx svg st)
      from rfl] at h
    by_cases hf : v.flags > 0
    · rw [if_pos hf] at h
      exact mountVNodeF_wout rec recVN env hrecSE hrecW hrecVNW ivId v pd
        nn cx svg insb st d st' hiv hinp hW hWb h
    · rw [if_neg hf] at h
      exact mountArrayPathF_wout rec env hrecW ivId (.node v) pd nn cx svg
        st d st' hiv hW hWb h
  | null =>
    exact mountArrayPathF_wout rec env hrecW ivId .null pd nn cx svg st d
      st' hiv hW hWb h
  | undef =>
    exact mountArrayPathF_wout rec env hrecW ivId .undef pd nn cx svg st d
      st' hiv hW hWb h
  | bool b =>
    exact mountArrayPathF_wout rec env hrecW ivId (.bool b) pd nn cx svg
      st d st' hiv hW hWb h
  | arr xs =>
    exact mountArrayPathF_wout rec env hrecW ivId (.arr xs) pd nn cx svg
      st d st' hiv hW hWb h
  | bogus =>
    exact mountArrayPathF_wout rec env hrecW ivId .bogus pd nn cx svg st d
      st' hiv hW hWb h

/-- Both components of the fueled recursion maintain the write-ownership
invariant, by induction on fuel. -/
theorem mountSys_wok (env : Env) :
    ∀ fuel, WRecOK (mountSys env fuel).1 ∧
      WVNRecOK (mountSys env fuel).2 := by
  intro fuel
  induction fuel with
  | zero =>
    constructor
    · intro ivId input pd nn cx svg insb st d st' hiv hinp hW hWb h
      cases h
    · intro ivId v pd nn cx svg insb st d st' hiv hinp hW hWb h
      cases h
  | succ n ih =>
    constructor
    · intro ivId input pd nn cx svg insb st d st' hiv hinp hW hWb h
      exact mountF_wout (mountSys env n).1 (mountSys env n).2 env
        (mountSys_ok env n).1 ih.1 ih.2 ivId input pd nn cx svg insb st d
        st' hiv hinp hW hWb h
    · intro ivId v pd nn cx svg insb st d st' hiv hinp hW hWb h
      exact mountVNodeF_wout (mountSys env n).1 (mountSys env n).2 env
        (mountSys_ok env n).1 ih.1 ih.2 ivId v pd nn cx svg insb st d st'
        hiv hinp hW hWb h

/-- The fueled `mount` maintains the write-ownership invariant. -/
theorem mount_wok (env : Env) (fuel : Nat) : WRecOK (mount env fuel) :=
  (mountSys_wok env fuel).1


/-! ## The recycling pool (`src/packages/inferno/src/DOM/recycling.ts`) -/

namespace Recycling

/-- The view of a vnode that `pool` consults: its tag-or-constructor
(opaque identity) and its key. -/
structure PoolVNode : Type where
  type : Nat
  key : Option String
deriving DecidableEq, Repr

/-- A per-tag pool: the ordered non-keyed sequence and the map from key
to the ordered sequence of nodes with that key (`class Pools`). -/
structure Pools : Type where
  nonKeyed : List PoolVNode
  keyed : List (String × List PoolVNode)
deriving DecidableEq, Repr

/-- `new Pools()`. -/
def Pools.empty : Pools := ⟨[], []⟩

/-- JS `Map.get`. -/
def lookupA [DecidableEq α] : List (α × β) → α → Option β
  | [], _ => none
  | (k0, v0) :: rest, k => if k0 = k then some v0 else lookupA rest k

/-- JS `Map.set` (replace the binding if present, else append). -/
def setA [DecidableEq α] : List (α × β) → α → β → List (α × β)
  | [], k, v => [(k, v)]
  | (k0, v0) :: rest, k, v =>
    if k0 = k then (k0, v) :: rest else (k0, v0) :: setA rest k v

/-- The `pool(vNode, tagPools)` function (`recycling.ts` lines 69-89),
rendered with value semantics: the reference mutation of the `Pools`
object held in the map becomes a `set` of the updated value. -/
def pool (vNode : PoolVNode) (tagPools : List (Nat × Pools)) :
    List (Nat × Pools) :=
  let tag := vNode.type
  let key := vNode.key
  let pools := (lookupA tagPools tag).getD Pools.empty
  let pools' :=
    match key with
    | none => { pools with nonKeyed := pools.nonKeyed ++ [vNode] }
    | some k =>
      let keyedPool := (lookupA pools.keyed k).getD []
      { pools with keyed := setA pools.keyed k (keyedPool ++ [vNode]) }
  setA tagPools tag pools'

theorem lookupA_setA_self [DecidableEq α] (l : List (α × β)) (k : α)
    (v : β) : lookupA (setA l k v) k = some v := by
  induction l with
  | nil => simp [setA, lookupA]
  | cons p rest ih =>
    obtain ⟨k0, v0⟩ := p
    by_cases hk : k0 = k
    · subst hk
      simp [setA, lookupA]
    · rw [show setA ((k0, v0) :: rest) k v =
        (k0, v0) :: setA rest k v from by rw [setA, if_neg hk]]
      simp only [lookupA, if_neg hk]
      exact ih

theorem lookupA_setA_ne [DecidableEq α] (l : List (α × β)) (k k' : α)
    (v : β) (h : k' ≠ k) : lookupA (setA l k v) k' = lookupA l k' := by
  induction l with
  | nil =>
    have hkk : k ≠ k' := fun he => h he.symm
    rw [show setA ([] : List (α × β)) k v = [(k, v)] from rfl]
    simp only [lookupA, if_neg hkk]
  | cons p rest ih =>
    obtain ⟨k0, v0⟩ := p
    by_cases hk : k0 = k
    · subst hk
      have hk' : k0 ≠ k' := fun he => h he.symm
      rw [show setA ((k0, v0) :: rest) k0 v = (k0, v) :: rest from by
          rw [setA, if_pos rfl]]
      simp only [lookupA, if_neg hk']
    · rw [show setA ((k0, v0) :: rest) k v =
        (k0, v0) :: setA rest k v from by rw [setA, if_neg hk]]
      by_cases hk' : k0 = k'
      · subst hk'
        simp only [lookupA, if_pos rfl]
        simp
      · simp only [lookupA, if_neg hk']
        exact ih

end Recycling


namespace Recycling

/-- C9: for every call to `pool(vNode, tagPools)`: a null key appends the
node to the non-keyed sequence of its tag's pool (creating the pool on
demand); a non-null key appends it to the keyed sequence for that key
(creating pool and per-key sequence on demand); other tags are untouched,
and no existing element of any pool sequence is ever removed — every pool
sequence only grows. -/
theorem pool_appends_never_removes (vNode : PoolVNode)
    (tagPools : List (Nat × Pools)) :
    (vNode.key = none →
      lookupA (pool vNode tagPools) vNode.type =
        some { (lookupA tagPools vNode.type).getD Pools.empty with
          nonKeyed :=
            ((lookupA tagPools vNode.type).getD Pools.empty).nonKeyed ++
              [vNode] }) ∧
    (∀ k, vNode.key = some k →
      lookupA (pool vNode tagPools) vNode.type =
        some { (lookupA tagPools vNode.type).getD Pools.empty with
          keyed :=
            setA ((lookupA tagPools vNode.type).getD Pools.empty).keyed k
              ((lookupA
                  ((lookupA tagPools vNode.type).getD Pools.empty).keyed
                  k).getD [] ++ [vNode]) }) ∧
    (∀ t, t ≠ vNode.type →
      lookupA (pool vNode tagPools) t = lookupA tagPools t) ∧
    (∀ t p, lookupA tagPools t = some p →
      ∃ p', lookupA (pool vNode tagPools) t = some p' ∧
        (∃ l, p'.nonKeyed = p.nonKeyed ++ l) ∧
        (∀ k l0, lookupA p.keyed k = some l0 →
          ∃ l2, lookupA p'.keyed k = some (l0 ++ l2))) := by
  have hpool : pool vNode tagPools =
      setA tagPools vNode.type
        (match vNode.key with
         | none =>
           { (lookupA tagPools vNode.type).getD Pools.empty with
             nonKeyed :=
               ((lookupA tagPools vNode.type).getD Pools.empty).nonKeyed ++
                 [vNode] }
         | some k =>
           { (lookupA tagPools vNode.type).getD Pools.empty with
             keyed :=
               setA
                 ((lookupA tagPools vNode.type).getD Pools.empty).keyed k
                 ((lookupA
                     ((lookupA tagPools vNode.type).getD
                       Pools.empty).keyed k).getD [] ++ [vNode]) }) :=
    rfl
  refine ⟨?_, ?_, ?_, ?_⟩
  · intro hk
    rw [hpool, hk]
    exact lookupA_setA_self tagPools vNode.type _
  · intro k hk
    rw [hpool, hk]
    exact lookupA_setA_self tagPools vNode.type _
  · intro t ht
    rw [hpool]
    exact lookupA_setA_ne tagPools vNode.type t _ ht
  · intro t p hp
    by_cases ht : t = vNode.type
    · subst ht
      have hold : (lookupA tagPools vNode.type).getD Pools.empty = p := by
        rw [hp]
        rfl
      cases hk : vNode.key with
      | none =>
        refine ⟨{ p with nonKeyed := p.nonKeyed ++ [vNode] }, ?_, ?_, ?_⟩
        · rw [hpool, hk, hold]
          exact lookupA_setA_self tagPools vNode.type _
        · exact ⟨[vNode], rfl⟩
        · intro k l0 hl0
          exact ⟨[], by simpa using hl0⟩
      | some k =>
        refine ⟨{ p with
            keyed := setA p.keyed k
              ((lookupA p.keyed k).getD [] ++ [vNode]) }, ?_, ?_, ?_⟩
        · rw [hpool, hk, hold]
          exact lookupA_setA_self tagPools vNode.type _
        · exact ⟨[], by simp⟩
        · intro k' l0 hl0
          by_cases hkk : k' = k
          · subst hkk
            refine ⟨[vNode], ?_⟩
            have : (lookupA p.keyed k').getD [] = l0 := by
              rw [hl0]
              rfl
            rw [show ({ p with
                keyed := setA p.keyed k'
                  ((lookupA p.keyed k').getD [] ++ [vNode]) } :
                Pools).keyed =
              setA p.keyed k' ((lookupA p.keyed k').getD [] ++ [vNode])
              from rfl, this]
            exact lookupA_setA_self p.keyed k' _
          · refine ⟨[], ?_⟩
            rw [show ({ p with
                keyed := setA p.keyed k
                  ((lookupA p.keyed k).getD [] ++ [vNode]) } :
                Pools).keyed =
              setA p.keyed k ((lookupA p.keyed k).getD [] ++ [vNode])
              from rfl, lookupA_setA_ne p.keyed k k' _ hkk]
            simpa using hl0
    · refine ⟨p, ?_, ⟨[], by simp⟩, ?_⟩
      · rw [hpool, lookupA_setA_ne tagPools vNode.type t _ ht]
        exact hp
      · intro k l0 hl0
        exact ⟨[], by simpa using hl0⟩

end Recycling


/-! ## Fixtures and extraction helpers used by concrete instantiations -/

instance : Inhabited MState := ⟨⟨[], [], [], [], [], []⟩⟩

/-- Extract the final state of a successful child-array mount. -/
def okSt : Except MErr MState → MState
  | .ok s => s
  | .error _ => default

/-- Extract the final state of a successful mount. -/
def okResSt : Res → MState
  | .ok p => p.2
  | .error _ => default

/-- Extract the returned DOM node of a successful mount. -/
def okResD : Res → Option DomRef
  | .ok p => p.1
  | .error _ => none

/-- A development-mode environment with all hooks disabled. -/
def wEnv : Env := ⟨false, false, false, false, fun _ => false⟩

/-- A production-mode environment with all hooks disabled. -/
def wEnvP : Env := ⟨true, false, false, false, fun _ => false⟩

/-- An initial world holding exactly the root IV for `input`. -/
def initSt (input : JsVal) : MState :=
  ⟨[⟨input, none, IVChildren.null, 0, IVTypes.Regular, none, 0⟩],
    [], [], [], [], []⟩

/-! ## C10 -/

/-- C10: the `mountVNode` dispatcher routes a Portal-flagged View Node to
the Portal Mounter with a hard-coded `false` SVG flag: whatever the
inherited SVG flag was, the call is exactly `mountPortal` with
`isSVG = false` (which by definition forwards that `false` flag to the
content's mount). -/
theorem c10_portal_mounted_with_svg_false (env : Env) (fuel : Nat)
    (ivId : Nat) (v : VNode) (pd : DomRef) (nn : Option DomRef) (cx : Nat)
    (svg insb : Bool) (st : MState)
    (hE : v.flags &&& VNodeFlags.Element = 0)
    (hC : v.flags &&& VNodeFlags.Component = 0)
    (hP : v.flags &&& VNodeFlags.Portal > 0) :
    mountVNode env (fuel + 1) ivId v pd nn cx svg insb st =
      mountPortal env fuel ivId v pd nn cx false insb st := by
  show mountVNodeF (mountSys env fuel).1 (mountSys env fuel).2 env ivId v
    pd nn cx svg insb st = _
  rw [mountVNodeF,
    if_neg (show ¬(v.flags &&& VNodeFlags.Element) > 0 by
      rw [hE]; exact lt_irrefl 0),
    if_neg (show ¬(v.flags &&& VNodeFlags.Component) > 0 by
      rw [hC]; exact lt_irrefl 0),
    if_pos hP]
  rfl

/-- A concrete portal View Node: content `<p/>`, target container 7. -/
def wP : VNode :=
  .mk VNodeFlags.HtmlElement (.tag "p") none .null none .null none

/-- A concrete portal node used by the instantiations. -/
def wPortal : VNode :=
  .mk VNodeFlags.Portal (.container 7) none (.node wP) none .null none

theorem c10_witness :
    mountVNode wEnv 4 0 wPortal (.external 9) none 0 true true
        (initSt (.node wPortal)) =
      mountPortal wEnv 3 0 wPortal (.external 9) none 0 false true
        (initSt (.node wPortal)) :=
  c10_portal_mounted_with_svg_false wEnv 3 0 wPortal (.external 9) none 0
    true true (initSt (.node wPortal)) (by decide) (by decide) (by decide)

/-! ## C8 -/

/-- An input that is neither a string/number primitive, nor a recognized
View Node (positive numeric `flags`), nor an array. -/
def isBogusInput : JsVal → Bool
  | .null => true
  | .undef => true
  | .bool _ => true
  | .bogus => true
  | .node v => v.flags == 0
  | _ => false

theorem mountArrayChildrenF_nil_ok (rec : RecT) (ivId : Nat)
    (input : JsVal) (pd : DomRef) (nn : Option DomRef) (cx : Nat)
    (svg fk : Bool) (st : MState) (hal : arrayLike input = .ok .nil) :
    mountArrayChildrenF rec ivId input pd nn cx svg fk true st =
      .ok (writeD
        (updIv (updIv st ivId fun r =>
          { r with
            c := IVChildren.null, f := IVFlags.HasInvalidChildren }) ivId fun r =>
          { r with t := IVTypes.IsVirtualArray }) ivId ivId none) := by
  rw [mountArrayChildrenF]
  simp only [] 
  rw [hal]
  simp only []
  rw [show mountArrayRunF rec ivId .nil 0 pd nn cx svg fk true
      (updIv st ivId fun r =>
        { r with
          c := IVChildren.null, f := IVFlags.HasInvalidChildren }) =
    .ok (updIv st ivId fun r =>
        { r with
          c := IVChildren.null, f := IVFlags.HasInvalidChildren }) from rfl]
  simp only []
  rw [if_pos True.intro]
  set stI := updIv st ivId fun r =>
    { r with c := IVChildren.null, f := IVFlags.HasInvalidChildren }
    with hstI
  set stV := updIv stI ivId fun r => { r with t := IVTypes.IsVirtualArray }
    with hstV
  have hf : (getIv stV ivId).f = IVFlags.HasInvalidChildren ∨
      (getIv stV ivId).f = 0 := by
    rcases Nat.lt_or_ge ivId st.ivs.length with hlt | hge
    · left
      have h1 : ivId < stI.ivs.length := by
        rw [hstI]; simpa [updIv, updAt_length] using hlt
      rw [hstV, getIv_updIv_self stI ivId _ h1, hstI,
        getIv_updIv_self st ivId _ hlt]
    · right
      have h1 : stV.ivs.length ≤ ivId := by
        rw [hstV, updIv, updAt_length, hstI, updIv, updAt_length]
        exact hge
      rw [getIv_out_of_range stV ivId h1]
      rfl
  have hcond : ¬((getIv stV ivId).f &&&
      (IVFlags.HasKeyedChildren ||| IVFlags.HasNonKeydChildren)) > 0 := by
    rcases hf with hf | hf <;> rw [hf] <;> decide
  rw [if_neg hcond]

/-- C8: a top-level input that is neither a primitive, nor a recognized
View Node, nor an array makes the dispatcher throw `invalidInput` — but
only in a non-production build; in production no validation error is
raised by the dispatcher and the input flows on into the array mounter
(where null/undefined fault naturally on the `length` read, and any other
object behaves as a length-less array). -/
theorem c8_invalid_input_dev_only (env : Env) (fuel : Nat) (ivId : Nat)
    (input : JsVal) (pd : DomRef) (nn : Option DomRef) (cx : Nat)
    (svg insb : Bool) (st : MState) (hbog : isBogusInput input = true) :
    (env.production = false →
      mount env (fuel + 1) ivId input pd nn cx svg insb st =
        .error .invalidInput) ∧
    (env.production = true →
      mount env (fuel + 1) ivId input pd nn cx svg insb st ≠
        .error .invalidInput) := by
  have harr : isArrayB input = false := by
    cases input <;> first | rfl | exact Bool.noConfusion hbog
  have hmf : mount env (fuel + 1) ivId input pd nn cx svg insb st =
      mountArrayPathF (mountSys env fuel).1 env ivId input pd nn cx svg
        st := by
    show mountF (mountSys env fuel).1 (mountSys env fuel).2 env ivId input
      pd nn cx svg insb st = _
    cases input with
    | null => rfl
    | undef => rfl
    | bool b => rfl
    | bogus => rfl
    | node v =>
      have hfl : v.flags = 0 := by
        simpa [isBogusInput] using hbog
      rw [show mountF (mountSys env fuel).1 (mountSys env fuel).2 env ivId
          (.node v) pd nn cx svg insb st =
        (if v.flags > 0 then
          mountVNodeF (mountSys env fuel).1 (mountSys env fuel).2 env ivId
            v pd nn cx svg insb st
        else
          mountArrayPathF (mountSys env fuel).1 env ivId (.node v) pd nn
            cx svg st) from rfl,
        if_neg (show ¬v.flags > 0 by rw [hfl]; exact lt_irrefl 0)]
    | text s => exact Bool.noConfusion hbog
    | arr xs => exact Bool.noConfusion hbog
  constructor
  · intro hprod
    rw [hmf, mountArrayPathF,
      if_pos (by rw [hprod, harr]; rfl)]
  · intro hprod
    rw [hmf, mountArrayPathF,
      if_neg (by rw [hprod]; simp)]
    cases input with
    | null =>
      rw [show mountArrayChildrenF (mountSys env fuel).1 ivId .null pd nn
          cx svg false true st = .error .nativeFault from rfl]
      intro hco
      injection hco with h1
      exact MErr.noConfusion h1
    | undef =>
      rw [show mountArrayChildrenF (mountSys env fuel).1 ivId .undef pd nn
          cx svg false true st = .error .nativeFault from rfl]
      intro hco
      injection hco with h1
      exact MErr.noConfusion h1
    | bool b =>
      rw [mountArrayChildrenF_nil_ok (mountSys env fuel).1 ivId (.bool b)
        pd nn cx svg false st rfl]
      intro hco
      exact Except.noConfusion hco
    | bogus =>
      rw [mountArrayChildrenF_nil_ok (mountSys env fuel).1 ivId .bogus
        pd nn cx svg false st rfl]
      intro hco
      exact Except.noConfusion hco
    | node v =>
      rw [mountArrayChildrenF_nil_ok (mountSys env fuel).1 ivId (.node v)
        pd nn cx svg false st rfl]
      intro hco
      exact Except.noConfusion hco
    | text s => exact Bool.noConfusion hbog
    | arr xs => exact Bool.noConfusion hbog

theorem c8_witness :
    isBogusInput .bogus = true ∧
    wEnv.production = false ∧
    mount wEnv 3 0 .bogus (.external 9) none 0 false true
        (initSt .bogus) = .error .invalidInput ∧
    wEnvP.production = true ∧
    mount wEnvP 3 0 .bogus (.external 9) none 0 false true
        (initSt .bogus) ≠ .error .invalidInput :=
  ⟨by decide, rfl,
    (c8_invalid_input_dev_only wEnv 2 0 .bogus (.external 9) none 0 false
      true (initSt .bogus) (by decide)).1 rfl, rfl,
    (c8_invalid_input_dev_only wEnvP 2 0 .bogus (.external 9) none 0 false
      true (initSt .bogus) (by decide)).2 rfl⟩


/-! ## C9 witness -/

theorem c9_witness :
    (⟨5, some "k"⟩ : Recycling.PoolVNode).key = some "k" ∧
    Recycling.lookupA
        (Recycling.pool ⟨5, some "k"⟩ ([] : List (Nat × Recycling.Pools)))
        5 =
      some ⟨[], [("k", [⟨5, some "k"⟩])]⟩ :=
  ⟨rfl,
    (Recycling.pool_appends_never_removes ⟨5, some "k"⟩
      ([] : List (Nat × Recycling.Pools))).2.1 "k" rfl⟩

/-! ## C6 -/

/-- Refutation input for C6: a concrete portal run returns the placeholder
text node that `mountText` created, not null — the dispatcher's Portal
branch forwards `mountPortal`'s return value, which is
`mountText(createTextVNode(''), ...)`. -/
theorem c6_counterexample :
    okResD (mount wEnv 4 0 (.node wPortal) (.external 9) none 0 false true
        (initSt (.node wPortal))) = some (.created 1) ∧
    okResD (mount wEnv 4 0 (.node wPortal) (.external 9) none 0 false true
        (initSt (.node wPortal))) ≠ none := by
  constructor
  · rfl
  · intro hco
    exact Option.noConfusion (rfl.trans hco)

/-- C6 (amended): for array inputs the dispatcher returns null, but for an
input routed to the Portal Mounter it returns the freshly created
zero-width placeholder text node (never null); text, element and
component inputs return their mounted DOM node as before. -/
theorem c6_dispatcher_return_value (env : Env) (fuel : Nat) (ivId : Nat)
    (input : JsVal) (pd : DomRef) (nn : Option DomRef) (cx : Nat)
    (svg insb : Bool) (st : MState) (d : Option DomRef) (st' : MState) :
    (∀ xs, input = .arr xs →
      mount env (fuel + 1) ivId input pd nn cx svg insb st =
        .ok (d, st') → d = none) ∧
    (∀ v, input = .node v →
      v.flags &&& VNodeFlags.Element = 0 →
      v.flags &&& VNodeFlags.Component = 0 →
      v.flags &&& VNodeFlags.Portal > 0 →
      mount env (fuel + 1) ivId input pd nn cx svg insb st =
        .ok (d, st') →
      ∃ k, d = some (.created k) ∧
        st'.doms[k]? = some (.textNode "")) := by
  constructor
  · intro xs hin hok
    subst hin
    have hmf : mount env (fuel + 1) ivId (.arr xs) pd nn cx svg insb st =
        mountArrayPathF (mountSys env fuel).1 env ivId (.arr xs) pd nn cx
          svg st := rfl
    rw [hmf, mountArrayPathF] at hok
    rw [if_neg (by simp [isArrayB])] at hok
    split at hok
    · exact Except.noConfusion hok
    · injection hok with h1
      exact (congrArg Prod.fst h1).symm
  · intro v hin hE hC hP hok
    subst hin
    have hfl : v.flags > 0 := by
      rcases Nat.eq_zero_or_pos v.flags with h0 | h
      · rw [h0, Nat.zero_and] at hP
        exact absurd hP (lt_irrefl 0)
      · exact h
    have hmf : mount env (fuel + 1) ivId (.node v) pd nn cx svg insb st =
        mountVNodeF (mountSys env fuel).1 (mountSys env fuel).2 env ivId v
          pd nn cx svg insb st := by
      show (if v.flags > 0 then
          mountVNodeF (mountSys env fuel).1 (mountSys env fuel).2 env ivId
            v pd nn cx svg insb st
        else
          mountArrayPathF (mountSys env fuel).1 env ivId (.node v) pd nn
            cx svg st) = _
      rw [if_pos hfl]
    rw [hmf, mountVNodeF,
      if_neg (show ¬(v.flags &&& VNodeFlags.Element) > 0 by
        rw [hE]; exact lt_irrefl 0),
      if_neg (show ¬(v.flags &&& VNodeFlags.Component) > 0 by
        rw [hC]; exact lt_irrefl 0),
      if_pos hP, mountPortalF] at hok
    split at hok
    · rename_i target heq
      simp only [] at hok
      split at hok
      · exact Except.noConfusion hok
      · rename_i u stC hrec
        injection hok with h1
        have hd : some (mountTextF ivId "" pd nn insb stC).1 = d :=
          congrArg Prod.fst h1
        have hst : (mountTextF ivId "" pd nn insb stC).2 = st' :=
          congrArg Prod.snd h1
        refine ⟨stC.doms.length, ?_, ?_⟩
        · rw [← hd, mountTextF_dom]
        · rw [← hst, mountTextF_doms]
          simp
    · exact Except.noConfusion hok

theorem c6_witness :
    ∃ k, (some (DomRef.created 1) : Option DomRef) = some (.created k) ∧
      (okResSt (mount wEnv 4 0 (.node wPortal) (.external 9) none 0 false
        true (initSt (.node wPortal)))).doms[k]? =
        some (.textNode "") :=
  (c6_dispatcher_return_value wEnv 3 0 (.node wPortal) (.external 9) none
      0 false true (initSt (.node wPortal)) (some (.created 1))
      (okResSt (mount wEnv 4 0 (.node wPortal) (.external 9) none 0 false
        true (initSt (.node wPortal))))).2 wPortal rfl (by decide)
    (by decide) (by decide) rfl


/-! ## C2 -/

/-- A concrete `<div>` carrying a callback ref (callback identity 7). -/
def wRefEl : VNode :=
  .mk VNodeFlags.HtmlElement (.tag "div") none .null none (.callback 7)
    none

/-- Refutation input for C2: mounting a concrete element with a callback
ref leaves the ref invocation in the deferred lifecycle queue; the
synchronous-call trace of the mount itself is empty. -/
theorem c2_counterexample :
    (okResSt (mount wEnv 2 0 (.node wRefEl) (.external 9) none 0 false
        true (initSt (.node wRefEl)))).lifecycle =
      [.elementRef 7 (.created 0)] ∧
    (okResSt (mount wEnv 2 0 (.node wRefEl) (.external 9) none 0 false
        true (initSt (.node wRefEl)))).effects = [] :=
  ⟨rfl, rfl⟩

/-- With a callback ref, the finishing step of `mountElement` returns the
created DOM node and appends exactly one deferred ref entry (the last
lifecycle entry of the element mount). -/
theorem mountElementFinish_ref_lifecycle (env : Env) (ivId : Nat)
    (flags : Nat) (props : Option PropList) (className : Option String)
    (r : Nat) (dom : DomRef) (pd : DomRef) (nn : Option DomRef)
    (svg insb : Bool) (st : MState) (d : Option DomRef) (st' : MState)
    (h : mountElementFinish env ivId flags props className (.callback r)
      dom pd nn svg insb st = .ok (d, st')) :
    d = some dom ∧
      st'.lifecycle = st.lifecycle ++ [.elementRef r dom] := by
  rw [show mountElementFinish env ivId flags props className (.callback r)
      dom pd nn svg insb st =
    .ok (some dom,
      if insb then
        insertOrAppend
          (writeD
            (pushLife (mountElementClass className dom svg
              (mountElementProps env flags props dom svg st))
              (.elementRef r dom)) ivId ivId (some dom)) pd dom nn
      else
        pushLife (mountElementClass className dom svg
          (mountElementProps env flags props dom svg st))
          (.elementRef r dom)) from rfl] at h
  injection h with h1
  have hd : (some dom : Option DomRef) = d := congrArg Prod.fst h1
  obtain ⟨E, hE⟩ := mountElementClassProps_state env flags props className
    dom svg st
  refine ⟨hd.symm, ?_⟩
  cases insb with
  | false =>
    have hst : pushLife (mountElementClass className dom svg
        (mountElementProps env flags props dom svg st))
        (.elementRef r dom) = st' := congrArg Prod.snd h1
    rw [← hst, hE]
    rfl
  | true =>
    have hst : insertOrAppend
        (writeD
          (pushLife (mountElementClass className dom svg
            (mountElementProps env flags props dom svg st))
            (.elementRef r dom)) ivId ivId (some dom)) pd dom nn = st' :=
      congrArg Prod.snd h1
    rw [← hst, hE]
    rfl

/-- C2 (amended): an element View Node with a callback ref does not have
its ref invoked synchronously during the element's mount; instead, after
the subtree is fully constructed and before the element is inserted into
the document, a closure invoking the ref with the created DOM element is
pushed as the final entry of the shared deferred lifecycle queue, and the
invocation happens only when that queue is later flushed. -/
theorem c2_element_ref_deferred (rec : RecT) (recVN : VNRecT) (env : Env)
    (hrec : RecOK rec) (hrecVN : VNRecOK recVN) (ivId : Nat) (v : VNode)
    (pd : DomRef) (nn : Option DomRef) (cx : Nat) (svg insb : Bool)
    (st : MState) (r : Nat) (tagName : String) (d : Option DomRef)
    (st' : MState) (hiv : ivId < st.ivs.length)
    (htype : v.type = .tag tagName) (href : v.ref = .callback r)
    (h : mountElementF rec recVN env ivId v pd nn cx svg insb st =
      .ok (d, st')) :
    d = some (.created st.doms.length) ∧
    ∃ Δ, st'.lifecycle =
      st.lifecycle ++ Δ ++ [.elementRef r (.created st.doms.length)] := by
  obtain ⟨flags, ty, props, children, key, ref, cls⟩ := v
  cases ty with
  | container t => exact VType.noConfusion htype
  | comp c => exact VType.noConfusion htype
  | tag tagName0 =>
    have href2 : ref = .callback r := href
    subst href2
    rw [show mountElementF rec recVN env ivId
        (.mk flags (.tag tagName0) props children key (.callback r) cls)
        pd nn cx svg insb st =
      (let sv := svg || (flags &&& VNodeFlags.SvgElement) > 0
       let dm : DomRef := .created st.doms.length
       let stD : MState :=
         { st with doms := st.doms ++ [.element tagName0 sv] }
       match
         mountElementKids rec recVN ivId children dm cx
           (sv && tagName0 ≠ "foreignObject") stD with
       | .error e => .error e
       | .ok st2 =>
         mountElementFinish env ivId flags props cls (.callback r) dm pd
           nn sv insb st2) from rfl] at h
    simp only [] at h
    set sv := svg || decide ((flags &&& VNodeFlags.SvgElement) > 0)
      with hsv
    set dm : DomRef := .created st.doms.length with hdm
    set stD : MState :=
      { st with doms := st.doms ++ [.element tagName0 sv] } with hstD
    cases hk : mountElementKids rec recVN ivId children dm cx
        (sv && tagName0 ≠ "foreignObject") stD with
    | error e => rw [hk] at h; cases h
    | ok st2 =>
      rw [hk] at h
      simp only [] at h
      have hivD : ivId < stD.ivs.length := hiv
      obtain ⟨hk1, hk2⟩ := mountElementKids_stExt rec recVN hrec hrecVN
        ivId children dm cx (sv && tagName0 ≠ "foreignObject") stD st2
        hivD hk
      obtain ⟨hdq, hlife⟩ := mountElementFinish_ref_lifecycle env ivId
        flags props cls r dm pd nn sv insb st2 d st' h
      obtain ⟨Δ0, hΔ0⟩ := hk1.life
      refine ⟨hdq, ⟨Δ0, ?_⟩⟩
      rw [hlife, hΔ0]

theorem c2_witness :
    (some (DomRef.created 0) : Option DomRef) =
      some (.created (initSt (.node wRefEl)).doms.length) ∧
    ∃ Δ, (okResSt (mountElementF (mount wEnv 1) (mountVNode wEnv 1) wEnv
        0 wRefEl (.external 9) none 0 false true
        (initSt (.node wRefEl)))).lifecycle =
      (initSt (.node wRefEl)).lifecycle ++ Δ ++
        [.elementRef 7 (.created (initSt (.node wRefEl)).doms.length)] :=
  c2_element_ref_deferred (mount wEnv 1) (mountVNode wEnv 1) wEnv
    (mount_ok wEnv 1) (mountVNode_ok wEnv 1) 0 wRefEl (.external 9) none
    0 false true (initSt (.node wRefEl)) 7 "div" (some (.created 0))
    (okResSt (mountElementF (mount wEnv 1) (mountVNode wEnv 1) wEnv 0
      wRefEl (.external 9) none 0 false true (initSt (.node wRefEl))))
    (by decide) rfl rfl rfl


/-! ## C1 -/

/-- Whether an input is a View Node with a non-null key (the key-ness
test of `mountArrayChildren` line 241). -/
def hasNonNullKey : JsVal → Bool
  | .node v => v.key.isSome
  | _ => false

theorem keyedFlagFor_false (x : JsVal) :
    keyedFlagFor false x =
      (if isVNodeB x && hasNonNullKey x then IVFlags.HasKeyedChildren
       else IVFlags.HasNonKeydChildren) := by
  cases x <;> rfl

/-- C1: without forced keying, the shape flag of an array of children is
decided once, from the first valid entry alone: `HasKeyedChildren`
exactly when that entry is a View Node carrying a non-null key,
`HasNonKeydChildren` otherwise (primitive or keyless node) — whatever the
key-ness of every later entry. -/
theorem c1_keyed_decision_first_valid (env : Env) (fuel : Nat)
    (ivId : Nat) (children : JsVal) (pd : DomRef) (nn : Option DomRef)
    (cx : Nat) (svg isV : Bool) (st st' : MState) (xs : JsList)
    (x : JsVal) (hiv : ivId < st.ivs.length)
    (h : mountArrayChildren env fuel ivId children pd nn cx svg false isV
      st = .ok st')
    (hal : arrayLike children = .ok xs)
    (hx : firstValidEntry xs = some x) :
    (getIv st' ivId).f =
      (if isVNodeB x && hasNonNullKey x then IVFlags.HasKeyedChildren
       else IVFlags.HasNonKeydChildren) := by
  have hmc := (mountArrayChildrenF_stExt (mountSys env fuel).1
    (mount_ok env fuel) ivId children pd nn cx svg false isV st st' hiv
    h).2.2 xs hal
  obtain ⟨hf, _⟩ := hmc.2 x hx
  rw [hf, keyedFlagFor_false]

/-- First valid entry keyed, second valid entry keyless: the array used
to instantiate the keyed decision. -/
def wKeyed : VNode :=
  .mk VNodeFlags.HtmlElement (.tag "span") none .null (some "a") .null
    none

/-- A keyless element node. -/
def wPlain : VNode :=
  .mk VNodeFlags.HtmlElement (.tag "div") none .null none .null none

/-- `[null, <span key="a"/>, <div/>]`. -/
def wArr1 : JsVal :=
  .arr (.cons .null (.cons (.node wKeyed) (.cons (.node wPlain) .nil)))

theorem c1_witness :
    (getIv (okSt (mountArrayChildren wEnv 2 0 wArr1 (.external 9) none 0
        false false true (initSt wArr1))) 0).f =
      (if isVNodeB (.node wKeyed) && hasNonNullKey (.node wKeyed) then
        IVFlags.HasKeyedChildren
       else IVFlags.HasNonKeydChildren) :=
  c1_keyed_decision_first_valid wEnv 2 0 wArr1 (.external 9) none 0 false
    true (initSt wArr1)
    (okSt (mountArrayChildren wEnv 2 0 wArr1 (.external 9) none 0 false
      false true (initSt wArr1)))
    (.cons .null (.cons (.node wKeyed) (.cons (.node wPlain) .nil)))
    (.node wKeyed) (by decide) rfl rfl rfl

/-! ## C7 -/

/-- C7: invalid array entries (null/undefined/true/false) produce no
child IV and no DOM node: when no entry is valid the array IV keeps
`HasInvalidChildren` with a null children reference and the world gains
no IV, no DOM node and no insertion; when some entry is valid, the
children sequence holds exactly one child IV per valid entry. -/
theorem c7_invalid_entries_no_iv_no_dom (env : Env) (fuel : Nat)
    (ivId : Nat) (children : JsVal) (pd : DomRef) (nn : Option DomRef)
    (cx : Nat) (svg fk isV : Bool) (st st' : MState) (xs : JsList)
    (hiv : ivId < st.ivs.length)
    (h : mountArrayChildren env fuel ivId children pd nn cx svg fk isV
      st = .ok st')
    (hal : arrayLike children = .ok xs) :
    (firstValidEntry xs = none →
      (getIv st' ivId).f = IVFlags.HasInvalidChildren ∧
      (getIv st' ivId).c = IVChildren.null ∧
      st'.ivs.length = st.ivs.length ∧ st'.doms = st.doms ∧
      st'.inserts = st.inserts) ∧
    (∀ x, firstValidEntry xs = some x →
      ∃ ids, ids ≠ [] ∧ ids.length = countValid xs ∧
        (getIv st' ivId).c = .many ids) := by
  have hmc := (mountArrayChildrenF_stExt (mountSys env fuel).1
    (mount_ok env fuel) ivId children pd nn cx svg fk isV st st' hiv
    h).2.2 xs hal
  exact ⟨hmc.1, fun x hx => ((hmc.2 x hx).2 : _)⟩

/-- `[null, true]`: no valid entry. -/
def wArrInv : JsVal := .arr (.cons .null (.cons (.bool true) .nil))

theorem c7_witness :
    (getIv (okSt (mountArrayChildren wEnv 2 0 wArrInv (.external 9) none
        0 false false true (initSt wArrInv))) 0).f =
      IVFlags.HasInvalidChildren ∧
    (getIv (okSt (mountArrayChildren wEnv 2 0 wArrInv (.external 9) none
        0 false false true (initSt wArrInv))) 0).c = IVChildren.null ∧
    (okSt (mountArrayChildren wEnv 2 0 wArrInv (.external 9) none 0 false
        false true (initSt wArrInv))).ivs.length =
      (initSt wArrInv).ivs.length ∧
    (okSt (mountArrayChildren wEnv 2 0 wArrInv (.external 9) none 0 false
        false true (initSt wArrInv))).doms = (initSt wArrInv).doms ∧
    (okSt (mountArrayChildren wEnv 2 0 wArrInv (.external 9) none 0 false
        false true (initSt wArrInv))).inserts =
      (initSt wArrInv).inserts :=
  (c7_invalid_entries_no_iv_no_dom wEnv 2 0 wArrInv (.external 9) none 0
    false false true (initSt wArrInv)
    (okSt (mountArrayChildren wEnv 2 0 wArrInv (.external 9) none 0 false
      false true (initSt wArrInv)))
    (.cons .null (.cons (.bool true) .nil)) (by decide) rfl rfl).1 rfl


/-! ## C4 -/

/-- With the did-mount condition satisfied, the class-callback scheduler
appends exactly the component's own did-mount entry to the lifecycle
queue. -/
theorem mountClassCallbacks_lifecycle (env : Env) (ivId : Nat)
    (ref : RefVal) (c : CompSpec) (st st' : MState)
    (h : mountClassComponentCallbacksF env ivId ref c st = .ok st')
    (hdm : (c.hasDidMount || env.afterMount) = true) :
    st'.lifecycle = st.lifecycle ++
      [.classDidMount ivId c.hasDidMount env.afterMount] := by
  cases ref with
  | callback r =>
    rw [show mountClassComponentCallbacksF env ivId (.callback r) c st =
      (if c.hasDidMount || env.afterMount then
        .ok (pushLife (pushEffect st (.classRefCalled r ivId))
          (.classDidMount ivId c.hasDidMount env.afterMount))
      else .ok (pushEffect st (.classRefCalled r ivId))) from rfl,
      if_pos hdm] at h
    cases h
    rfl
  | null =>
    rw [show mountClassComponentCallbacksF env ivId .null c st =
      (if c.hasDidMount || env.afterMount then
        .ok (pushLife st
          (.classDidMount ivId c.hasDidMount env.afterMount))
      else .ok st) from rfl, if_pos hdm] at h
    cases h
    rfl
  | hooks a b r =>
    rw [show mountClassComponentCallbacksF env ivId (.hooks a b r) c st =
      .error .invalidRef from rfl] at h
    cases h
  | str a =>
    rw [show mountClassComponentCallbacksF env ivId (.str a) c st =
      .error .invalidRef from rfl] at h
    cases h

/-- The class branch of `mountComponentDone` appends exactly the did-mount
entry to the lifecycle queue. -/
theorem mountComponentDone_class_lifecycle (env : Env) (ivId : Nat)
    (ref : RefVal) (c : CompSpec) (props : Option PropList)
    (dom : Option DomRef) (st st' : MState)
    (h : mountComponentDone env true ivId ref c props dom st = .ok st')
    (hdm : (c.hasDidMount || env.afterMount) = true) :
    st'.lifecycle = st.lifecycle ++
      [.classDidMount ivId c.hasDidMount env.afterMount] := by
  rw [mountComponentDone, if_pos rfl] at h
  cases hcc : mountClassComponentCallbacksF env ivId ref c st with
  | error e => rw [hcc] at h; cases h
  | ok st1 =>
    rw [hcc] at h
    simp only [] at h
    have h1 := mountClassCallbacks_lifecycle env ivId ref c st st1 hcc hdm
    cases hfd : env.findDOMNodeEnabled with
    | false =>
      rw [hfd, if_neg Bool.false_ne_true] at h
      cases h
      exact h1
    | true =>
      rw [hfd, if_pos rfl] at h
      cases h
      exact h1

/-- C4: a class component with an active did-mount hook pushes its own
did-mount entry onto the shared lifecycle queue only after its whole
subtree was mounted: every lifecycle entry collected while mounting the
subtree (in particular any inner component's did-mount entry) precedes
the outer component's entry, which closes the component's mount — so
flushing the queue in collection order runs did-mount callbacks strictly
children-before-parents. -/
theorem c4_didmount_children_before_parent (rec : RecT) (env : Env)
    (hrec : RecOK rec) (ivId : Nat) (v : VNode) (pd : DomRef)
    (nn : Option DomRef) (cx : Nat) (svg insb : Bool) (st : MState)
    (d : Option DomRef) (st' : MState) (c : CompSpec)
    (hiv : ivId < st.ivs.length) (htype : v.type = .comp c)
    (hclass : v.flags &&& VNodeFlags.ComponentClass > 0)
    (hdm : (c.hasDidMount || env.afterMount) = true)
    (h : mountComponentF rec env ivId v pd nn cx svg insb st =
      .ok (d, st')) :
    ∃ Δ, st'.lifecycle = st.lifecycle ++ Δ ++
      [.classDidMount ivId c.hasDidMount env.afterMount] := by
  obtain ⟨flags, ty, props, children, key, ref, cls⟩ := v
  cases ty with
  | container t => exact VType.noConfusion htype
  | tag s => exact VType.noConfusion htype
  | comp c0 =>
    have hc0 : VType.comp c0 = VType.comp c := htype
    injection hc0 with hc0
    subst hc0
    rw [show mountComponentF rec env ivId
        (.mk flags (.comp c0) props children key ref cls) pd nn cx svg
        insb st =
      (let isClass := (flags &&& VNodeFlags.ComponentClass) > 0
       let cx2 := if isClass then c0.cx.getD cx else cx
       let st0 := if isClass && env.afterRender then
           pushEffect st (.afterRender ivId)
         else st
       match mountComponentKid rec ivId c0.renderOut pd nn cx2 svg st0
           with
       | .error e => .error e
       | .ok (dom, st1) =>
         match mountComponentDone env isClass ivId ref c0 props dom st1
             with
         | .error e => .error e
         | .ok st2 =>
           match dom with
           | some d0 =>
             if insb then
               .ok (dom,
                 insertOrAppend (writeD st2 ivId ivId dom) pd d0 nn)
             else
               .ok (dom, st2)
           | none => .ok (dom, st2)) from rfl] at h
    simp only [] at h
    have hb : decide ((flags &&& VNodeFlags.ComponentClass) > 0) = true :=
      decide_eq_true hclass
    have hl0 : ∀ b : Bool,
        (if b = true then pushEffect st (.afterRender ivId)
          else st).lifecycle = st.lifecycle := by
      intro b
      cases b with
      | false => rw [if_neg Bool.false_ne_true]
      | true => rw [if_pos rfl]; rfl
    have hiv0 : ∀ b : Bool,
        ivId < (if b = true then pushEffect st (.afterRender ivId)
          else st).ivs.length := by
      intro b
      cases b with
      | false => rw [if_neg Bool.false_ne_true]; exact hiv
      | true => rw [if_pos rfl]; exact hiv
    split at h
    · exact absurd h (by simp)
    · rename_i dom st1 hk
      obtain ⟨hk1, hk2⟩ := mountComponentKid_stExt rec hrec ivId
        c0.renderOut pd nn _ svg _ dom st1 (hiv0 _) hk
      obtain ⟨Δ0, hΔ0⟩ := hk1.life
      split at h
      · exact absurd h (by simp)
      · rename_i st2 hdn
        rw [hb] at hdn
        have hd1 := mountComponentDone_class_lifecycle env ivId ref c0
          props dom st1 st2 hdn hdm
        cases dom with
        | none =>
          simp only [] at h
          cases h
          refine ⟨Δ0, ?_⟩
          rw [hd1, hΔ0, hl0 _]
        | some d0 =>
          simp only [] at h
          cases insb with
          | false =>
            rw [if_neg Bool.false_ne_true] at h
            cases h
            refine ⟨Δ0, ?_⟩
            rw [hd1, hΔ0, hl0 _]
          | true =>
            rw [if_pos rfl] at h
            cases h
            refine ⟨Δ0, ?_⟩
            rw [show (insertOrAppend
                (writeD st2 ivId ivId (some d0)) pd d0 nn).lifecycle =
              st2.lifecycle from rfl, hd1, hΔ0, hl0 _]

/-- An inner class component rendering a text node, with a did-mount
hook. -/
def wInner : VNode :=
  .mk VNodeFlags.ComponentClass (.comp (.mk (.text "x") true none)) none
    .null none .null none

/-- An outer class component rendering `wInner`, with a did-mount hook. -/
def wOuter : VNode :=
  .mk VNodeFlags.ComponentClass (.comp (.mk (.node wInner) true none))
    none .null none .null none

theorem c4_witness :
    ∃ Δ, (okResSt (mountComponentF (mount wEnv 3) wEnv 0 wOuter
        (.external 9) none 0 false true
        (initSt (.node wOuter)))).lifecycle =
      (initSt (.node wOuter)).lifecycle ++ Δ ++
        [.classDidMount 0 true false] :=
  c4_didmount_children_before_parent (mount wEnv 3) wEnv
    (mount_ok wEnv 3) 0 wOuter (.external 9) none 0 false true
    (initSt (.node wOuter)) (some (.created 0))
    (okResSt (mountComponentF (mount wEnv 3) wEnv 0 wOuter (.external 9)
      none 0 false true (initSt (.node wOuter))))
    (.mk (.node wInner) true none) (by decide) rfl (by decide) rfl rfl


/-! ## C5 -/

/-- `mountText` never touches another IV. -/
theorem mountTextF_getIv_ne (ivId : Nat) (text : String) (pd : DomRef)
    (nn : Option DomRef) (insb : Bool) (st : MState) (j : Nat)
    (hj : j ≠ ivId) :
    getIv (mountTextF ivId text pd nn insb st).2 j = getIv st j := by
  cases insb <;>
    simp [mountTextF, createTextDom, insertOrAppend, writeD, updIv, getIv,
      getElem?_updAt_ne _ _ hj]

/-- C5: a Portal View Node mounted with insertion enabled gives its
logical parent exactly one insertion: an empty text placeholder at the
portal's anchor position, inserted last; every other insertion recorded
by the portal mount has a different parent, and the content's own DOM
node (if any) is inserted into the portal's target container. -/
theorem c5_portal_content_to_target_only (rec : RecT) (hrec : RecOK rec)
    (ivId : Nat) (v : VNode) (target : Nat) (pd : DomRef)
    (nn : Option DomRef) (cx : Nat) (svg : Bool) (st : MState)
    (d : Option DomRef) (st' : MState) (p : Nat)
    (hiv : ivId < st.ivs.length)
    (htype : v.type = .container target)
    (hpd : pd = .external p)
    (hne : target ≠ p)
    (hT : p ∉ portalTargets v.children)
    (h : mountPortalF rec ivId v pd nn cx svg true st = .ok (d, st')) :
    (∃ ph, d = some (.created ph) ∧
      st'.doms[ph]? = some (.textNode "") ∧
      ∃ Δ, st'.inserts = st.inserts ++ Δ ++ [⟨pd, .created ph, nn⟩] ∧
        ∀ e ∈ Δ, e.parent ≠ pd) ∧
    ∀ cd, (getIv st' st.ivs.length).d = some cd →
      (⟨.external target, cd, none⟩ : Ins) ∈ st'.inserts := by
  obtain ⟨flags, ty, props, children, key, ref, cls⟩ := v
  cases ty with
  | tag s => exact VType.noConfusion htype
  | comp c => exact VType.noConfusion htype
  | container t =>
    have ht2 : VType.container t = VType.container target := htype
    injection ht2 with ht2
    subst ht2
    rw [show mountPortalF rec ivId
        (.mk flags (.container t) props children key ref cls) pd nn cx svg
        true st =
      (let stB := updIv (createIV st children 0).2 ivId fun r =>
         { r with c := IVChildren.one (createIV st children 0).1 }
       match rec (createIV st children 0).1 children (.external t) none cx
           svg true stB with
       | .error e => .error e
       | .ok (_, stC) =>
         .ok (some (mountTextF ivId "" pd nn true stC).1,
           (mountTextF ivId "" pd nn true stC).2)) from rfl] at h
    simp only [] at h
    set stB := updIv (createIV st children 0).2 ivId (fun r =>
      { r with c := IVChildren.one (createIV st children 0).1 }) with hstB
    split at h
    · exact Except.noConfusion h
    · rename_i u stC hr
      injection h with h1
      have hd : some (mountTextF ivId "" pd nn true stC).1 = d :=
        congrArg Prod.fst h1
      have hst : (mountTextF ivId "" pd nn true stC).2 = st' :=
        congrArg Prod.snd h1
      have hchild : (createIV st children 0).1 = st.ivs.length := rfl
      have hlenB : stB.ivs.length = st.ivs.length + 1 := by
        rw [hstB, updIv, updAt_length, createIV_ivs_length]
      have hse := hrec (createIV st children 0).1 children (.external t)
        none cx svg true stB u stC (by rw [hchild, hlenB]; omega) hr
      obtain ⟨l, hl, hlp⟩ := hse.insApp
      have hBins : stB.inserts = st.inserts := rfl
      have htD := mountTextF_doms ivId "" pd nn true stC
      have htI := mountTextF_inserts ivId "" pd nn true stC
      have htdom := mountTextF_dom ivId "" pd nn true stC
      have hneid : st.ivs.length ≠ ivId := by omega
      refine ⟨⟨stC.doms.length, ?_, ?_, ⟨l, ?_, ?_⟩⟩, ?_⟩
      · rw [← hd, htdom]
      · rw [← hst, htD]
        simp
      · rw [← hst, htI, hl, hBins]
        simp [List.append_assoc]
      · intro e he
        have hp := hlp e he
        rcases hp with hp | ⟨k, hk, hp⟩ | ⟨t2, hmem, hp⟩
        · rw [hp, hpd]
          intro hco
          injection hco with hco
          exact hne hco
        · rw [hp, hpd]
          intro hco
          exact DomRef.noConfusion hco
        · rw [hp, hpd]
          intro hco
          injection hco with hco
          exact hT (hco ▸ hmem)
      · intro cd hcd
        have hgv : getIv st' st.ivs.length = getIv stC st.ivs.length := by
          rw [← hst]
          exact mountTextF_getIv_ne ivId "" pd nn true stC st.ivs.length
            hneid
        rw [hgv] at hcd
        have hd0 : (getIv stB st.ivs.length).d = none := by
          rw [hstB, getIv_updIv_ne _ _ _ _ hneid, getIv_createIV_self]
        have hins := hse.inserted (by rw [hchild, hlenB]; omega) rfl
          (by rw [hchild]; exact hd0) cd (by rw [hchild]; exact hcd)
        rw [← hst, htI]
        exact List.mem_append.2 (Or.inl hins)

theorem c5_witness :
    (∃ ph, (some (DomRef.created 1) : Option DomRef) =
        some (.created ph) ∧
      (okResSt (mountPortalF (mount wEnv 2) 0 wPortal (.external 9) none
        0 false true (initSt (.node wPortal)))).doms[ph]? =
        some (.textNode "") ∧
      ∃ Δ, (okResSt (mountPortalF (mount wEnv 2) 0 wPortal (.external 9)
          none 0 false true (initSt (.node wPortal)))).inserts =
        (initSt (.node wPortal)).inserts ++ Δ ++
          [⟨.external 9, .created ph, none⟩] ∧
        ∀ e ∈ Δ, e.parent ≠ .external 9) ∧
    ∀ cd, (getIv (okResSt (mountPortalF (mount wEnv 2) 0 wPortal
        (.external 9) none 0 false true (initSt (.node wPortal))))
        (initSt (.node wPortal)).ivs.length).d = some cd →
      (⟨.external 7, cd, none⟩ : Ins) ∈
        (okResSt (mountPortalF (mount wEnv 2) 0 wPortal (.external 9)
          none 0 false true (initSt (.node wPortal)))).inserts :=
  c5_portal_content_to_target_only (mount wEnv 2) (mount_ok wEnv 2) 0
    wPortal 7 (.external 9) none 0 false (initSt (.node wPortal))
    (some (.created 1))
    (okResSt (mountPortalF (mount wEnv 2) 0 wPortal (.external 9) none 0
      false true (initSt (.node wPortal)))) 9 (by decide) rfl rfl
    (by decide) (by decide) rfl


/-! ## C3 -/

/-- A class component rendering a text node (no did-mount hook). -/
def wCompC3 : VNode :=
  .mk VNodeFlags.ComponentClass (.comp (.mk (.text "x") false none)) none
    .null none .null none

/-- Refutation input for C3: mounting a concrete class component logs the
ghost write `(1, 0)` — the mount call that received IV 0 wrote the `dom`
field of the child IV 1 it created. -/
theorem c3_counterexample :
    ((1, 0) : Nat × Nat) ∈ (okResSt (mount wEnv 3 0 (.node wCompC3)
        (.external 9) none 0 false true
        (initSt (.node wCompC3)))).domWrites ∧ (1 : Nat) ≠ 0 :=
  ⟨by decide, by decide⟩

/-- The component mounter's render-output step itself assigns the child
IV's `dom` field from the child's mount result (ghost entry: target
`st.ivs.length`, writer `ivId`). -/
theorem mountComponentKid_write (rec : RecT) (ivId : Nat)
    (renderOutput : JsVal) (pd : DomRef) (nn : Option DomRef) (cx : Nat)
    (svg : Bool) (st : MState) (d : Option DomRef) (st' : MState)
    (hval : isInvalidVal renderOutput = false)
    (h : mountComponentKid rec ivId renderOutput pd nn cx svg st =
      .ok (d, st')) :
    (st.ivs.length, ivId) ∈ st'.domWrites := by
  rw [mountComponentKid, if_neg (by rw [hval]; exact Bool.false_ne_true)]
    at h
  simp only [] at h
  have hcid : (createIV (updIv st ivId fun r =>
      { r with f := IVFlags.HasBasicChildren }) renderOutput 0).1 =
      st.ivs.length := by
    simp [createIV, updIv, updAt_length]
  cases hr : rec (createIV (updIv st ivId fun r =>
      { r with f := IVFlags.HasBasicChildren }) renderOutput 0).1
      renderOutput pd nn cx svg false
      (updIv (updIv (createIV (updIv st ivId fun r =>
          { r with f := IVFlags.HasBasicChildren }) renderOutput 0).2
        ivId fun r =>
          { r with c := IVChildren.one (createIV (updIv st ivId fun r =>
            { r with f := IVFlags.HasBasicChildren })
            renderOutput 0).1 })
        (createIV (updIv st ivId fun r =>
          { r with f := IVFlags.HasBasicChildren }) renderOutput 0).1
        fun r => { r with b := some ivId }) with
  | error e => rw [hr] at h; cases h
  | ok p =>
    obtain ⟨d4, st4⟩ := p
    rw [hr] at h
    injection h with h1
    have hst : writeD st4 ivId (createIV (updIv st ivId fun r =>
        { r with f := IVFlags.HasBasicChildren }) renderOutput 0).1 d4 =
        st' := congrArg Prod.snd h1
    rw [← hst, show (writeD st4 ivId (createIV (updIv st ivId fun r =>
        { r with f := IVFlags.HasBasicChildren }) renderOutput 0).1
        d4).domWrites =
      st4.domWrites ++ [((createIV (updIv st ivId fun r =>
        { r with f := IVFlags.HasBasicChildren }) renderOutput 0).1,
        ivId)] from rfl, hcid]
    exact List.mem_append.2 (Or.inr (List.mem_singleton.2 rfl))

/-- C3 (amended): throughout a mount run started on a world with an
empty ghost write log, every recorded write `(target, writer)` of an
IV's `dom` field is either a self-write (the mount call that received
the IV wrote it) or the single `mountComponent` exception: the writer's
IV holds the target as the one child it created for its render output
and the writer's input is a component node — so a parent never writes a
child's `dom` other than a component assigning its render-output
child's `dom` from the child's mount result; the virtual array borrow
only reads the first child's `dom` and self-writes it. -/
theorem c3_dom_writes_owner_or_component_parent (env : Env) (fuel : Nat)
    (ivId : Nat) (input : JsVal) (pd : DomRef) (nn : Option DomRef)
    (cx : Nat) (svg insb : Bool) (st : MState) (d : Option DomRef)
    (st' : MState) (hiv : ivId < st.ivs.length)
    (hinp : (getIv st ivId).input = input)
    (hlog : st.domWrites = [])
    (h : mount env fuel ivId input pd nn cx svg insb st = .ok (d, st')) :
    ∀ e ∈ st'.domWrites, e.1 = e.2 ∨
      ((getIv st' e.2).c = IVChildren.one e.1 ∧
        isComponentInput (getIv st' e.2).input = true) :=
  (mount_wok env fuel ivId input pd nn cx svg insb st d st' hiv hinp
    (WOk.ofNilLog hlog) (Wb.ofNilLogB hlog) h).wok

theorem c3_witness :
    (1 : Nat) = 0 ∨
      ((getIv (okResSt (mount wEnv 3 0 (.node wCompC3) (.external 9) none
          0 false true (initSt (.node wCompC3)))) 0).c =
          IVChildren.one 1 ∧
        isComponentInput (getIv (okResSt (mount wEnv 3 0 (.node wCompC3)
          (.external 9) none 0 false true
          (initSt (.node wCompC3)))) 0).input = true) :=
  c3_dom_writes_owner_or_component_parent wEnv 3 0 (.node wCompC3)
    (.external 9) none 0 false true (initSt (.node wCompC3))
    (some (.created 0)) (okResSt (mount wEnv 3 0 (.node wCompC3)
      (.external 9) none 0 false true (initSt (.node wCompC3))))
    (by decide) rfl rfl rfl ((1, 0) : Nat × Nat) (by decide)

end Inferno
